import Mathlib

/-!
# openclaw-trace: the push pipeline, the store and the ingest path

A shallow embedding of `internal/push/pusher.go`, `internal/db/push.go`,
`internal/db/insert.go`, `internal/db/maintenance.go`, the push/shutdown
control flow and the queue of `internal/app/runtime.go`, the ingest queue,
worker and handlers (`internal/ingest`, `internal/server/ingest_handlers.go`),
the log parser (`internal/logparse/parser.go`) and the health handler
(`internal/server/health.go`), followed by the properties proved about them.

Conventions.
* Go `[]byte` and `json.RawMessage` are `Bytes` (lists of octets), and so are
  the Go strings the source cuts at a byte position (`InputText`, `OutputText`,
  `Message`); Go `int`, `int64` and `time.Duration` are `Int` (wrapped with
  `wrap64` where the source can overflow).
* Library code that the repository calls but does not contain is a parameter:
  `enc` stands for `encoding/json.Marshal` applied to one `item`, `decode` for
  the JSON decoder of a request body, `ParserLib` for the string, JSON and
  scanner functions of the log parser, `resolve` for the table that SQLite
  takes a table name to denote when `MarkEventsSynced` builds an UPDATE from it.
* Everything the environment decides (HTTP responses, context cancellation,
  random numbers, clock, database faults) is read from an explicit `Env`.
-/

namespace OpenclawTrace

/-! ## Part 1. Definitions -/

/-- Equality of Go results `(value, error)` is decidable. -/
instance instDecidableEqExcept {ε α : Type} [DecidableEq ε] [DecidableEq α] :
    DecidableEq (Except ε α)
  | .ok a, .ok b => if h : a = b then isTrue (by rw [h]) else isFalse (fun h2 => h (by cases h2; rfl))
  | .error a, .error b =>
    if h : a = b then isTrue (by rw [h]) else isFalse (fun h2 => h (by cases h2; rfl))
  | .ok _, .error _ => isFalse (fun h => by cases h)
  | .error _, .ok _ => isFalse (fun h => by cases h)

/-- Go byte slices. -/
abbrev Bytes := List UInt8

/-- The octets of an ASCII string constant. -/
def ascii (s : String) : Bytes := s.toList.map (fun c => c.toNat.toUInt8)

/-- Row of `db.PushEvent` (internal/db/push.go). -/
structure PushEvent where
  TableName : String
  RowID : Int
  CreatedAt : Int
  TraceID : String
  Type_ : String
  Data : Bytes
deriving DecidableEq

/-- The wire item of pusher.go: `{"type": ..., "data": ...}`. -/
structure item where
  Type_ : String
  Data : Bytes
deriving DecidableEq

/-- One push batch of pusher.go: the events and the serialized envelope. -/
structure batch where
  events : List PushEvent
  body : Bytes
deriving DecidableEq

/-- The item built from an event in the first loop of `buildBatches`. -/
def toItem (ev : PushEvent) : item := { Type_ := ev.Type_, Data := ev.Data }

/-- Opening octets of the envelope, `{"events":[`. -/
def envelopeOpen : Bytes := ascii "\x7b\"events\":["

/-- Closing octets of the envelope, `]}`. -/
def envelopeClose : Bytes := ascii "]\x7d"

/-- The constant `baseEnvelope = len("{\"events\":[]}")` of `buildBatches`. -/
def baseEnvelope : Int := ((envelopeOpen ++ envelopeClose).length : Nat)

/-- Array elements joined by one comma, as `encoding/json` writes a slice. -/
def joinComma : List Bytes → Bytes
  | [] => []
  | [x] => x
  | x :: y :: rest => x ++ (44 : UInt8) :: joinComma (y :: rest)

/-- Marshal every item in order; the first failure aborts. -/
def marshalAll (enc : item → Except String Bytes) : List item → Except String (List Bytes)
  | [] => .ok []
  | it :: rest =>
    match enc it with
    | .error e => .error e
    | .ok bs =>
      match marshalAll enc rest with
      | .error e => .error e
      | .ok more => .ok (bs :: more)

/-- Marshal of `struct{ Events []item }` as done in `flush`: the envelope
around the marshalled items, joined by commas. -/
def marshalEnvelope (enc : item → Except String Bytes) (items : List item) : Except String Bytes :=
  match marshalAll enc items with
  | .error e => .error e
  | .ok parts => .ok (envelopeOpen ++ joinComma parts ++ envelopeClose)

/-- The local variables of `buildBatches` that `flush` closes over. -/
structure builder where
  out : List batch
  curItems : List item
  curEvents : List PushEvent
  curSize : Int
deriving DecidableEq

/-- Initial values of the locals of `buildBatches`. -/
def builder.init : builder :=
  { out := [], curItems := [], curEvents := [], curSize := baseEnvelope }

/-- The closure `flush` of `buildBatches`. -/
def flush (enc : item → Except String Bytes) (st : builder) : Except String builder :=
  if st.curItems.length = 0 then .ok st
  else
    match marshalEnvelope enc st.curItems with
    | .error e => .error e
    | .ok body =>
      .ok { out := st.out ++ [{ events := st.curEvents, body := body }],
            curItems := [], curEvents := [], curSize := baseEnvelope }

/-- Lines 150 to 152 of pusher.go: append the item and the event to the current
batch and add `additional` to its size. -/
def builder.push (st : builder) (ev : PushEvent) (additional : Int) : builder :=
  { out := st.out, curItems := st.curItems ++ [toItem ev],
    curEvents := st.curEvents ++ [ev], curSize := st.curSize + additional }

/-- One iteration of the second loop of `buildBatches`. -/
def batchStep (enc : item → Except String Bytes) (maxPayloadBytes : Int)
    (st : builder) (ev : PushEvent) : Except String builder :=
  match enc (toItem ev) with
  | .error e => .error e
  | .ok itBytes =>
    let additional : Int :=
      if st.curItems.length > 0 then (itBytes.length : Int) + 1 else (itBytes.length : Int)
    let flushed : Except String builder :=
      if st.curItems.length > 0 ∧ st.curSize + additional > maxPayloadBytes then flush enc st
      else .ok st
    match flushed with
    | .error e => .error e
    | .ok st1 =>
      let st2 : builder := st1.push ev additional
      if st2.curItems.length = 1 ∧ st2.curSize > maxPayloadBytes then flush enc st2
      else .ok st2

/-- The second loop of `buildBatches`, from an arbitrary state. -/
def batchLoop (enc : item → Except String Bytes) (maxPayloadBytes : Int) :
    builder → List PushEvent → Except String builder
  | st, [] => .ok st
  | st, ev :: rest =>
    match batchStep enc maxPayloadBytes st ev with
    | .error e => .error e
    | .ok st1 => batchLoop enc maxPayloadBytes st1 rest

/-- Embedding of `Pusher.buildBatches`. -/
def buildBatches (enc : item → Except String Bytes) (maxPayloadBytes : Int)
    (events : List PushEvent) : Except String (List batch) :=
  match batchLoop enc maxPayloadBytes builder.init events with
  | .error e => .error e
  | .ok st =>
    match flush enc st with
    | .error e => .error e
    | .ok st1 => .ok st1.out

/-- A sample marshaller: what `encoding/json` writes for an item whose type
needs no escaping and whose data is compact JSON without HTML-sensitive
characters; empty data is rejected, as invalid JSON is. -/
def plainMarshal (it : item) : Except String Bytes :=
  if it.Data = [] then .error "unexpected end of JSON input"
  else .ok (ascii "\x7b\"type\":\"" ++ ascii it.Type_ ++ ascii "\",\"data\":" ++ it.Data ++ ascii "\x7d")

/-- A sample event of the given type whose data is the given text. -/
def sampleEvent (table typ : String) (id : Int) (data : String) : PushEvent :=
  { TableName := table, RowID := id, CreatedAt := 1000 + id, TraceID := "t", Type_ := typ,
    Data := ascii data }

/-! ### The store (internal/db) -/

/-- SQLite REAL values and Go `float64` fields are carried as their IEEE-754
bit pattern; no claim computes with them. -/
abbrev float64 := UInt64

/-- Go `db.TraceInsert` (insert.go). -/
structure TraceInsert where
  TraceID : String
  CreatedAt : Int
  Provider : String
  Model : String
  InputText : Bytes
  OutputText : Bytes
  PromptTokens : Int
  CompletionTokens : Int
  TotalTokens : Int
  CostUSD : float64
  LatencyMS : Int
  Status : String
  ErrorType : String
  Metadata : String
deriving DecidableEq

/-- Go `db.ErrorInsert` (insert.go). -/
structure ErrorInsert where
  TraceID : String
  CreatedAt : Int
  ErrorType : String
  Message : Bytes
  StackTrace : String
  Severity : String
  Metadata : String
deriving DecidableEq

/-- Go `db.MetricInsert` (insert.go). -/
structure MetricInsert where
  TraceID : String
  CreatedAt : Int
  CPUPct : float64
  MemRSSBytes : Int
  MemAvailable : Int
  MemTotal : Int
  DiskUsedBytes : Int
  DiskTotal : Int
  DiskFreeBytes : Int
  Metadata : String
deriving DecidableEq

/-- The two business columns every event table is queried by. -/
class EventRecord (α : Type) where
  traceID : α → String
  createdAt : α → Int

instance : EventRecord TraceInsert := ⟨TraceInsert.TraceID, TraceInsert.CreatedAt⟩
instance : EventRecord ErrorInsert := ⟨ErrorInsert.TraceID, ErrorInsert.CreatedAt⟩
instance : EventRecord MetricInsert := ⟨MetricInsert.TraceID, MetricInsert.CreatedAt⟩

/-- One row of an event table of schema.go: the auto-increment `id`, the
business columns as inserted, `synced INTEGER NOT NULL DEFAULT 0` and the
nullable `pushed_at`. -/
structure Row (α : Type) where
  id : Int
  data : α
  synced : Int
  pushed_at : Option Int
deriving DecidableEq

/-- An event table: its rows in insertion order and its `sqlite_sequence`
entry, the largest id ever handed out (AUTOINCREMENT never reuses an id). -/
structure Table (α : Type) where
  rows : List (Row α)
  seq : Int
deriving DecidableEq

/-- One row of `push_log`. -/
structure PushAttempt where
  id : Int
  created_at : Int
  status : String
  events_pushed : Int
  error_message : Option String
  duration_ms : Option Int
deriving DecidableEq

/-- The database file: the three event tables and the push log. -/
structure Store where
  llm_traces : Table TraceInsert
  error_events : Table ErrorInsert
  system_metrics : Table MetricInsert
  push_log : List PushAttempt
  push_log_seq : Int
deriving DecidableEq

/-- The store right after `db.Open` applied the schema to a new file. -/
def Store.empty : Store :=
  { llm_traces := ⟨[], 0⟩, error_events := ⟨[], 0⟩, system_metrics := ⟨[], 0⟩,
    push_log := [], push_log_seq := 0 }

/-- The table with one more row: the next id, the given columns, `synced = 0`
and a null `pushed_at`. -/
def Table.appendRow {α : Type} (t : Table α) (rec : α) : Table α :=
  { rows := t.rows ++ [{ id := t.seq + 1, data := rec, synced := 0, pushed_at := none }],
    seq := t.seq + 1 }

/-- One `INSERT ... VALUES (..., 0, NULL)` of `InsertBatch`: the row gets the
next id, `synced = 0` and a null `pushed_at`; a `trace_id` already in the table
violates the UNIQUE constraint. -/
def Table.insert {α : Type} [EventRecord α] (t : Table α) (rec : α) : Except String (Table α) :=
  if t.rows.any (fun r => decide (EventRecord.traceID r.data = EventRecord.traceID rec)) then
    .error "UNIQUE constraint failed"
  else .ok (t.appendRow rec)

/-- The loop over one slice of `InsertBatch`. -/
def Table.insertAll {α : Type} [EventRecord α] : Table α → List α → Except String (Table α)
  | t, [] => .ok t
  | t, rec :: rest =>
    match t.insert rec with
    | .error e => .error e
    | .ok t1 => Table.insertAll t1 rest

/-- Embedding of `Manager.InsertBatch`: one transaction over the three slices;
any error (a constraint violation, or the I/O fault `fault` injected by the
environment) rolls everything back. -/
def InsertBatch (fault : Option String) (s : Store) (traces : List TraceInsert)
    (errs : List ErrorInsert) (metrics : List MetricInsert) : Except String Store :=
  match fault with
  | some e => .error e
  | none =>
    match s.llm_traces.insertAll traces with
    | .error e => .error ("insert trace row: " ++ e)
    | .ok t1 =>
      match s.error_events.insertAll errs with
      | .error e => .error ("insert error row: " ++ e)
      | .ok t2 =>
        match s.system_metrics.insertAll metrics with
        | .error e => .error ("insert metric row: " ++ e)
        | .ok t3 => .ok { s with llm_traces := t1, error_events := t2, system_metrics := t3 }

/-- SQLite `json_object(...)` of push.go for the three tables: library code,
taken as a parameter. -/
structure Projection where
  trace : TraceInsert → Bytes
  error : ErrorInsert → Bytes
  metric : MetricInsert → Bytes

/-- One arm of the UNION ALL of `FetchUnsyncedEvents`: the rows with
`synced = 0`, tagged with table name and event type. -/
def Table.unsynced {α : Type} [EventRecord α] (t : Table α) (table typ : String)
    (payload : α → Bytes) : List PushEvent :=
  (t.rows.filter (fun r => decide (r.synced = 0))).map (fun r =>
    { TableName := table, RowID := r.id, CreatedAt := EventRecord.createdAt r.data,
      TraceID := EventRecord.traceID r.data, Type_ := typ, Data := payload r.data })

/-- The whole UNION ALL, before ORDER BY and LIMIT. -/
def Store.unsyncedEvents (proj : Projection) (s : Store) : List PushEvent :=
  s.llm_traces.unsynced "llm_traces" "llm_trace" proj.trace ++
  s.error_events.unsynced "error_events" "error_event" proj.error ++
  s.system_metrics.unsynced "system_metrics" "system_metric" proj.metric

/-- Embedding of `Manager.FetchUnsyncedEvents` when the query succeeds:
`ORDER BY created_at ASC LIMIT limit`. SQLite leaves the order of rows with
equal `created_at` open; the model keeps them in union order. A negative limit
makes `make([]PushEvent, 0, limit)` panic (`none`); a slice of any non-negative
capacity is taken to be allocated. -/
def FetchUnsyncedEvents (proj : Projection) (s : Store) (limit : Int) : Option (List PushEvent) :=
  if limit < 0 then none
  else some (((s.unsyncedEvents proj).insertionSort (fun a b => a.CreatedAt ≤ b.CreatedAt)).take
    limit.toNat)

/-- The row ids of the events that carry exactly the table name `table`. -/
def idsOf (table : String) (events : List PushEvent) : List Int :=
  (events.filter (fun ev => decide (ev.TableName = table))).map PushEvent.RowID

/-- Effect of `UPDATE t SET synced = 1, pushed_at = ? WHERE id IN (ids)` on a row. -/
def markRow {α : Type} (ids : List Int) (pushedAt : Int) (r : Row α) : Row α :=
  if r.id ∈ ids then { r with synced := 1, pushed_at := some pushedAt } else r

/-- Effect of that UPDATE on a table. -/
def Table.mark {α : Type} (t : Table α) (ids : List Int) (pushedAt : Int) : Table α :=
  { t with rows := t.rows.map (markRow ids pushedAt) }

/-- Faults the environment can inject into `MarkEventsSynced`. -/
inductive MarkFault where
  | begin
  | update
  | log
  | commit
deriving DecidableEq

/-- The three table names `MarkEventsSynced` starts its map with, which are
the names of the event tables in the schema. -/
def eventTables : List String := ["llm_traces", "error_events", "system_metrics"]

/-- The event table that `UPDATE <name> SET synced = 1, pushed_at = ? WHERE id
IN (...)` acts on, `name` being the table name as an event spells it. The three
names of the schema denote their tables. For every other spelling `resolve`, the
name resolution of SQLite, says which table the statement updates (`LLM_TRACES`
or a quoted name denotes `llm_traces`); `none`: the statement fails, as it does
for a name that denotes no table or a table without the column `synced`. -/
def tableOf (resolve : String → Option String) (name : String) : Option String :=
  if name ∈ eventTables then some name
  else
    match resolve name with
    | some table => if table ∈ eventTables then some table else none
    | none => none

/-- The ids that the UPDATE statements of `MarkEventsSynced` reach in the table
`table`: the row ids of the events whose table name denotes it. -/
def idsFor (resolve : String → Option String) (table : String) (events : List PushEvent) :
    List Int :=
  (events.filter (fun ev => decide (tableOf resolve ev.TableName = some table))).map
    PushEvent.RowID

/-- Embedding of `Manager.MarkEventsSynced`: one transaction that groups the
row ids by the table name of their event, runs one UPDATE per name and appends
a `push_log` row. `resolve` is the name resolution of SQLite (see `tableOf`); a
table name is taken to be read by SQLite as a name. An UPDATE whose name
denotes none of the three tables fails; every error rolls the transaction back,
except that an error of the `push_log` insert is ignored by the source. `now`
is the clock reading used for the log row. -/
def MarkEventsSynced (resolve : String → Option String) (now : Int)
    (fault : Option MarkFault) (s : Store) (events : List PushEvent) (pushedAt : Int) :
    Except String Store :=
  if fault = some .begin then .error "begin tx"
  else if events.any (fun ev => decide (tableOf resolve ev.TableName = none)) then
    .error "no such table"
  else if fault = some .update then .error "update failed"
  else
    let s1 : Store :=
      { s with
        llm_traces := s.llm_traces.mark (idsFor resolve "llm_traces" events) pushedAt,
        error_events := s.error_events.mark (idsFor resolve "error_events" events) pushedAt,
        system_metrics :=
          s.system_metrics.mark (idsFor resolve "system_metrics" events) pushedAt }
    let s2 : Store :=
      if fault = some .log then s1
      else
        { s1 with
          push_log := s1.push_log ++
            [{ id := s1.push_log_seq + 1, created_at := now, status := "ok",
               events_pushed := (events.length : Nat), error_message := none,
               duration_ms := some 0 }],
          push_log_seq := s1.push_log_seq + 1 }
    if fault = some .commit then .error "commit failed" else .ok s2

/-- Number of rows with `synced = 0` in one table. -/
def Table.pending {α : Type} (t : Table α) : Int :=
  (((t.rows.filter (fun r => decide (r.synced = 0))).length : Nat) : Int)

/-- Embedding of `Manager.PendingCounts`. -/
def PendingCounts (s : Store) : Int × Int × Int :=
  (s.llm_traces.pending, s.error_events.pending, s.system_metrics.pending)

/-- Embedding of `Manager.UnsyncedCount`. -/
def UnsyncedCount (s : Store) : Int :=
  s.llm_traces.pending + s.error_events.pending + s.system_metrics.pending

/-- Go `int64` arithmetic: the value of an integer after wrapping to 64 bits. -/
def wrap64 (x : Int) : Int := (x + 2 ^ 63) % 2 ^ 64 - 2 ^ 63

/-- The cutoff of `CleanupOldSynced`:
`time.Now().Add(-time.Duration(retentionDays) * 24 * time.Hour).UnixMilli()`,
with the clock at `nowNs` nanoseconds since the epoch. -/
def cleanupCutoff (nowNs : Int) (retentionDays : Int) : Int :=
  (nowNs + wrap64 (wrap64 (wrap64 (-retentionDays) * 24) * 3600000000000)) / 1000000

/-- Effect of `DELETE FROM t WHERE synced = 1 AND created_at < cutoff`: the
table left and the number of rows affected. -/
def Table.deleteOldSynced {α : Type} [EventRecord α] (t : Table α) (cutoff : Int) :
    Table α × Int :=
  let old : Row α → Bool :=
    fun r => decide (r.synced = 1 ∧ EventRecord.createdAt r.data < cutoff)
  ({ t with rows := t.rows.filter (fun r => !old r) },
   (((t.rows.filter old).length : Nat) : Int))

/-- Embedding of `Manager.CleanupOldSynced`. The environment supplies the disk
usage percent and the database file size (as exact numbers), the clock, and
`failAt`, the index of the DELETE statement that fails, if any; the three
statements are not in one transaction. Returns `(deleted, didRun, err)` and the
store left. -/
def CleanupOldSynced (usagePct : ℚ) (dbSize : Int) (nowNs : Int) (failAt : Option Nat)
    (s : Store) (retentionDays : Int) (diskThresholdPct : ℚ) (dbThresholdBytes : Int) :
    (Int × Bool × Option String) × Store :=
  if usagePct < diskThresholdPct ∧ dbSize < dbThresholdBytes then ((0, false, none), s)
  else
    let cutoff := cleanupCutoff nowNs retentionDays
    if failAt = some 0 then ((0, true, some "delete failed"), s)
    else
      let d1 := s.llm_traces.deleteOldSynced cutoff
      let s1 : Store := { s with llm_traces := d1.1 }
      if failAt = some 1 then ((d1.2, true, some "delete failed"), s1)
      else
        let d2 := s.error_events.deleteOldSynced cutoff
        let s2 : Store := { s1 with error_events := d2.1 }
        if failAt = some 2 then ((d1.2 + d2.2, true, some "delete failed"), s2)
        else
          let d3 := s.system_metrics.deleteOldSynced cutoff
          ((d1.2 + d2.2 + d3.2, true, none), { s2 with system_metrics := d3.1 })

/-- The operations that write to the event tables. -/
inductive StoreOp where
  | insertBatch (fault : Option String) (traces : List TraceInsert) (errs : List ErrorInsert)
      (metrics : List MetricInsert)
  | markEventsSynced (resolve : String → Option String) (now : Int)
      (fault : Option MarkFault) (events : List PushEvent) (pushedAt : Int)
  | cleanupOldSynced (usagePct : ℚ) (dbSize : Int) (nowNs : Int) (failAt : Option Nat)
      (retentionDays : Int) (diskThresholdPct : ℚ) (dbThresholdBytes : Int)

/-- The store left by one operation (unchanged when the operation fails in a
transaction). -/
def StoreOp.apply (s : Store) : StoreOp → Store
  | .insertBatch fault traces errs metrics =>
    match InsertBatch fault s traces errs metrics with
    | .ok s1 => s1
    | .error _ => s
  | .markEventsSynced resolve now fault events pushedAt =>
    match MarkEventsSynced resolve now fault s events pushedAt with
    | .ok s1 => s1
    | .error _ => s
  | .cleanupOldSynced usagePct dbSize nowNs failAt retentionDays diskPct dbBytes =>
    (CleanupOldSynced usagePct dbSize nowNs failAt s retentionDays diskPct dbBytes).2

/-- The store left by a sequence of operations. -/
def runOps (s : Store) (ops : List StoreOp) : Store := ops.foldl StoreOp.apply s

/-- The `(synced, pushed_at)` pair of the row with the given id, if present. -/
def Table.syncState {α : Type} (t : Table α) (id : Int) : Option (Int × Option Int) :=
  (t.rows.find? (fun r => decide (r.id = id))).map (fun r => (r.synced, r.pushed_at))

/-- The `(synced, pushed_at)` pair of the row `(table, id)`, if present. -/
def Store.syncState (s : Store) (table : String) (id : Int) : Option (Int × Option Int) :=
  if table = "llm_traces" then s.llm_traces.syncState id
  else if table = "error_events" then s.error_events.syncState id
  else if table = "system_metrics" then s.system_metrics.syncState id
  else none

/-! ### The pusher (internal/push) -/

/-- Go `push.Result`. -/
structure Result where
  BatchesSent : Int
  EventsSent : Int
deriving DecidableEq

/-- The configuration fields of Go `push.Pusher`; the database, the HTTP client
and the random source are part of the environment. Durations are nanoseconds. -/
structure Pusher where
  endpoint : String
  maxPayloadBytes : Int
  maxRetries : Int
  baseBackoff : Int
deriving DecidableEq

/-- Embedding of `push.New`. -/
def New (endpoint : String) (maxPayloadBytes : Int) : Pusher :=
  { endpoint := endpoint, maxPayloadBytes := maxPayloadBytes, maxRetries := 5,
    baseBackoff := 500 * 1000000 }

/-- Embedding of `Pusher.SetTestOptions` (the client is part of the environment). -/
def SetTestOptions (p : Pusher) (retries : Int) (backoff : Int) : Pusher :=
  { p with maxRetries := retries, baseBackoff := backoff }

/-- What `httpClient.Do` returns: a response with a status code, or an error. -/
inductive Response where
  | status (code : Int)
  | transportError
deriving DecidableEq

/-- Everything `PushOnce` reads from outside: the answer to the n-th request of
the invocation, whether the context is done when the n-th backoff sleep is
reached, the n-th raw draw of the random source, the clock (milliseconds) at the
n-th `MarkEventsSynced`, the faults of `http.NewRequestWithContext` and of the
database calls, and the name resolution of SQLite (see `tableOf`). -/
structure Env where
  respond : Nat → Response
  cancelled : Nat → Bool
  rand63 : Nat → Nat
  now : Nat → Int
  requestFault : Bool
  fetchFault : Option String
  markFault : Nat → Option MarkFault
  resolveTable : String → Option String

/-- What an invocation does that is visible outside, in order. -/
inductive Action where
  | request (body : Bytes) (resp : Response)
  | sleep (d : Int)
  | mark (events : List PushEvent) (pushedAt : Int) (ok : Bool)
deriving DecidableEq

/-- Number of requests in a trace. -/
def requestCount (tr : List Action) : Nat :=
  (tr.filter (fun a => match a with | .request _ _ => true | _ => false)).length

/-- Number of backoff sleeps in a trace. -/
def sleepCount (tr : List Action) : Nat :=
  (tr.filter (fun a => match a with | .sleep _ => true | _ => false)).length

/-- Number of `MarkEventsSynced` calls in a trace. -/
def markCount (tr : List Action) : Nat :=
  (tr.filter (fun a => match a with | .mark _ _ _ => true | _ => false)).length

/-- How a Go call ends: normally (with a nil error), with an error, or in a panic. -/
inductive Outcome where
  | ok
  | err (msg : String)
  | panic
deriving DecidableEq

/-- The backoff bound of attempt `attempt`:
`maxSleep := p.baseBackoff * time.Duration(1<<attempt)`, capped at 30 seconds. -/
def maxSleep (baseBackoff : Int) (attempt : Nat) : Int :=
  let m := wrap64 (baseBackoff * wrap64 (2 ^ attempt))
  if m > 30 * 1000000000 then 30 * 1000000000 else m

/-- The loop of `sendWithRetry` from attempt `attempt` with `fuel` iterations
left; `tr` is the trace so far. `rand.Int63n` panics when its bound is not
positive. -/
def sendLoop (env : Env) (p : Pusher) (body : Bytes) :
    Nat → Nat → Option String → List Action → Outcome × List Action
  | 0, _, lastErr, tr =>
    (.err ("push failed after retries: " ++ lastErr.getD "%!w(<nil>)"), tr)
  | fuel + 1, attempt, _, tr =>
    if env.requestFault then (.err "new request", tr)
    else
      let resp := env.respond (requestCount tr)
      let tr1 := tr ++ [.request body resp]
      if resp = .status 200 then (.ok, tr1)
      else
        let err : String :=
          match resp with
          | .status code => "push status " ++ toString code
          | .transportError => "transport error"
        let n := maxSleep p.baseBackoff attempt + 1
        if n ≤ 0 then (.panic, tr1)
        else
          let sleep : Int := ((env.rand63 (sleepCount tr1) : Nat) : Int) % n
          let tr2 := tr1 ++ [.sleep sleep]
          if env.cancelled (sleepCount tr1) then (.err "context canceled", tr2)
          else sendLoop env p body fuel (attempt + 1) (some err) tr2

/-- Embedding of `Pusher.sendWithRetry`. -/
def sendWithRetry (env : Env) (p : Pusher) (body : Bytes) (tr : List Action) :
    Outcome × List Action :=
  sendLoop env p body p.maxRetries.toNat 0 none tr

/-- State of an invocation of `PushOnce`: the result so far, how it ended, the
store and the trace. -/
structure PushRun where
  result : Result
  outcome : Outcome
  store : Store
  trace : List Action
deriving DecidableEq

/-- The loop over the batches in `PushOnce`. -/
def pushLoop (env : Env) (p : Pusher) : List batch → Result → Store → List Action → PushRun
  | [], res, s, tr => { result := res, outcome := .ok, store := s, trace := tr }
  | b :: rest, res, s, tr =>
    match sendWithRetry env p b.body tr with
    | (.panic, tr1) => { result := res, outcome := .panic, store := s, trace := tr1 }
    | (.err e, tr1) => { result := res, outcome := .err e, store := s, trace := tr1 }
    | (.ok, tr1) =>
      let pushedAt := env.now (markCount tr1)
      match MarkEventsSynced env.resolveTable pushedAt (env.markFault (markCount tr1)) s
          b.events pushedAt with
      | .error e =>
        { result := res, outcome := .err e, store := s,
          trace := tr1 ++ [.mark b.events pushedAt false] }
      | .ok s1 =>
        pushLoop env p rest
          { BatchesSent := res.BatchesSent + 1,
            EventsSent := res.EventsSent + ((b.events.length : Nat) : Int) }
          s1 (tr1 ++ [.mark b.events pushedAt true])

/-- Embedding of `Pusher.PushOnce`. -/
def PushOnce (enc : item → Except String Bytes) (proj : Projection) (env : Env) (p : Pusher)
    (s : Store) : PushRun :=
  if p.endpoint = "" then
    { result := ⟨0, 0⟩, outcome := .err "push endpoint not configured", store := s, trace := [] }
  else
    match env.fetchFault with
    | some e => { result := ⟨0, 0⟩, outcome := .err e, store := s, trace := [] }
    | none =>
      match FetchUnsyncedEvents proj s 5000 with
      | none => { result := ⟨0, 0⟩, outcome := .panic, store := s, trace := [] }
      | some events =>
        if events.length = 0 then
          { result := ⟨0, 0⟩, outcome := .ok, store := s, trace := [] }
        else
          match buildBatches enc p.maxPayloadBytes events with
          | .error e => { result := ⟨0, 0⟩, outcome := .err e, store := s, trace := [] }
          | .ok batches => pushLoop env p batches ⟨0, 0⟩ s []

/-- Whether an action is a call of `MarkEventsSynced`. -/
def Action.isMark : Action → Bool
  | .mark _ _ _ => true
  | _ => false

/-- What `sendWithRetry` may add to the trace for one body: requests with that
body and sleeps, and no call of `MarkEventsSynced`. -/
def SendExt (body : Bytes) (ext : List Action) : Prop :=
  ∀ a ∈ ext, a.isMark = false ∧ ∀ b r, a = .request b r → b = body

/-- What `PushOnce` may add to the trace for the batches `bs`: every request
carries the body of one of the batches, and every call of `MarkEventsSynced`
comes right after a request that carried the body of a batch with exactly those
events and was answered with status 200. -/
def TraceOK (bs : List batch) (ext : List Action) : Prop :=
  (∀ body resp, Action.request body resp ∈ ext → body ∈ bs.map batch.body) ∧
  (∀ pre evs t ok post, ext = pre ++ Action.mark evs t ok :: post →
    ∃ pre1 b, b ∈ bs ∧ b.events = evs ∧ pre = pre1 ++ [Action.request b.body (.status 200)])

/-- Total number of events in a list of batches. -/
def eventCount (bs : List batch) : Int :=
  (((bs.map (fun b => b.events.length)).sum : Nat) : Int)

/-- The bodies of the requests in a trace, in order. -/
def requestBodies (tr : List Action) : List Bytes :=
  tr.filterMap (fun a => match a with | .request body _ => some body | _ => none)

/-- Row `r2` is row `r1` after the rows with an id in `ids` were marked synced:
such a row has `synced = 1` and a non-null `pushed_at`, its other columns are
unchanged, and every other row is unchanged altogether. -/
def RowMarked {α : Type} (ids : List Int) (r1 r2 : Row α) : Prop :=
  r2.id = r1.id ∧ r2.data = r1.data ∧
  (r1.id ∈ ids → r2.synced = 1 ∧ r2.pushed_at ≠ none) ∧ (r1.id ∉ ids → r2 = r1)

/-- Table `t2` is table `t1` after the rows with an id in `ids` were marked
synced: same rows in the same order, each one related by `RowMarked`. -/
def TableMarked {α : Type} (ids : List Int) (t1 t2 : Table α) : Prop :=
  t2.seq = t1.seq ∧ ∃ f : Row α → Row α, t2.rows = t1.rows.map f ∧ ∀ r, RowMarked ids r (f r)

/-- Store `s2` is store `s1` after exactly the rows named by `events` were
marked synced (the push log aside). -/
def StoreMarked (events : List PushEvent) (s1 s2 : Store) : Prop :=
  TableMarked (idsOf "llm_traces" events) s1.llm_traces s2.llm_traces ∧
  TableMarked (idsOf "error_events" events) s1.error_events s2.error_events ∧
  TableMarked (idsOf "system_metrics" events) s1.system_metrics s2.system_metrics

/-- The events `PushOnce` fetches from a store: the unsynced events in
`created_at` order, cut at 5000. -/
def fetched (proj : Projection) (s : Store) : List PushEvent :=
  ((s.unsyncedEvents proj).insertionSort (fun a b => a.CreatedAt ≤ b.CreatedAt)).take 5000

/-- What holds of an event table in every store the program can reach: ids are
at most the sequence counter and pairwise distinct, and a row is either
unsynced with a null `pushed_at` or synced with `pushed_at` set. -/
def Table.WF {α : Type} (t : Table α) : Prop :=
  (∀ r ∈ t.rows, r.id ≤ t.seq) ∧ (t.rows.map Row.id).Nodup ∧
  ∀ r ∈ t.rows, (r.synced = 0 ∧ r.pushed_at = none) ∨ (r.synced = 1 ∧ r.pushed_at ≠ none)

/-- What one store operation can do to a table: the sequence counter does not
decrease; a row present afterwards either was present before, with its flags
unchanged or now synced with `pushed_at` set, or is new, with an id above the
old counter, `synced = 0` and a null `pushed_at`. -/
def Table.Step {α : Type} (t1 t2 : Table α) : Prop :=
  t1.seq ≤ t2.seq ∧
  ∀ r2 ∈ t2.rows,
    (∃ r1 ∈ t1.rows, r1.id = r2.id ∧
      ((r2.synced = r1.synced ∧ r2.pushed_at = r1.pushed_at) ∨
       (r2.synced = 1 ∧ r2.pushed_at ≠ none))) ∨
    (t1.seq < r2.id ∧ r2.synced = 0 ∧ r2.pushed_at = none)

/-- What any number of store operations can do to a table: the counter does
not decrease, and a row present afterwards either was present before and, if
it was synced then, still is, or has an id above the old counter. -/
def Table.Later {α : Type} (t1 t2 : Table α) : Prop :=
  t1.seq ≤ t2.seq ∧
  ∀ r2 ∈ t2.rows,
    (∃ r1 ∈ t1.rows, r1.id = r2.id ∧ (r1.synced = 1 → r2.synced = 1)) ∨ t1.seq < r2.id

/-- The three event tables are well formed. -/
def Store.WF (s : Store) : Prop :=
  s.llm_traces.WF ∧ s.error_events.WF ∧ s.system_metrics.WF

/-- `Table.Step` on each event table. -/
def Store.Step (s1 s2 : Store) : Prop :=
  s1.llm_traces.Step s2.llm_traces ∧ s1.error_events.Step s2.error_events ∧
  s1.system_metrics.Step s2.system_metrics

/-- `Table.Later` on each event table. -/
def Store.Later (s1 s2 : Store) : Prop :=
  s1.llm_traces.Later s2.llm_traces ∧ s1.error_events.Later s2.error_events ∧
  s1.system_metrics.Later s2.system_metrics

/-! ### Push scheduling in the runtime (internal/app/runtime.go)

The push goroutine of `startBackgroundLoops` and `Runtime.shutdown` as two
processes over a clock in milliseconds. An event is one step of one process or
the passing of time; time cannot pass beyond a pending timer or the end of a
push. The other background loops are taken to exit as soon as they are
cancelled, and the pusher to be configured. -/

/-- Where the push goroutine stands: blocked in its `select` on `ctx.Done()`
and `ticker.C`; inside `runPush(pushCtx, "scheduled")` with `left` milliseconds
to go before `PushOnce` returns; or returned (after `ctx.Done()`). -/
inductive PushLoopPC where
  | selecting
  | pushing (left : Nat)
  | exited
deriving DecidableEq

/-- Where `Runtime.shutdown` stands: not called yet; after `bgCancel()`, in the
`select` on `done` and `time.After(3 * time.Second)` with `left` milliseconds of
grace to go; after `close(r.ingestCh)`, waiting for the worker; inside
`runPush(pushCtx, "shutdown")`; past the final push. -/
inductive ShutdownPC where
  | notStarted
  | waitingLoops (left : Nat)
  | drainingWorker
  | finalPush (left : Nat)
  | finished
deriving DecidableEq

/-- State of the two processes; `timedOut` records that shutdown joined the
error "background loop shutdown timeout". -/
structure RtState where
  loop : PushLoopPC
  shut : ShutdownPC
  cancelled : Bool
  timedOut : Bool
deriving DecidableEq

/-- The runtime after `startBackgroundLoops`. -/
def RtState.init : RtState :=
  { loop := .selecting, shut := .notStarted, cancelled := false, timedOut := false }

/-- The steps of the two processes. `tick d`: the `select` of the push loop
takes `ticker.C` and starts a push that will take `d` ms, at most the 30 s of
its own context (derived from `context.Background()`, so `bgCancel` does not
end it). `pushReturns`: that push returns. `loopSeesCancel`: the `select` takes
`ctx.Done()`. `beginShutdown`: `bgCancel()`. `loopsDone`: `bgWG.Wait()`
returned. `graceExpires`: `time.After(3 * time.Second)` fired first.
`workerDrained d`: the worker wait is over and the final push starts (at most
15 s). `finalReturns`: the final push returns. `elapse dt`: time passes. -/
inductive RtEvent where
  | tick (d : Nat)
  | pushReturns
  | loopSeesCancel
  | beginShutdown
  | loopsDone
  | graceExpires
  | workerDrained (d : Nat)
  | finalReturns
  | elapse (dt : Nat)
deriving DecidableEq

/-- Time left before the push goroutine must act, if it is bound by time. -/
def PushLoopPC.left : PushLoopPC → Option Nat
  | .pushing l => some l
  | _ => none

/-- Time left before shutdown must act, if it is bound by time. -/
def ShutdownPC.left : ShutdownPC → Option Nat
  | .waitingLoops l => some l
  | .finalPush l => some l
  | _ => none

/-- The push goroutine after `dt` milliseconds. -/
def PushLoopPC.after (dt : Nat) : PushLoopPC → PushLoopPC
  | .pushing l => .pushing (l - dt)
  | pc => pc

/-- Shutdown after `dt` milliseconds. -/
def ShutdownPC.after (dt : Nat) : ShutdownPC → ShutdownPC
  | .waitingLoops l => .waitingLoops (l - dt)
  | .finalPush l => .finalPush (l - dt)
  | pc => pc

/-- One step; `none` when the event cannot happen in the state. -/
def RtState.step (st : RtState) : RtEvent → Option RtState
  | .tick d =>
    if st.loop = .selecting ∧ d ≤ 30000 then some { st with loop := .pushing d } else none
  | .pushReturns =>
    if st.loop = .pushing 0 then some { st with loop := .selecting } else none
  | .loopSeesCancel =>
    if st.loop = .selecting ∧ st.cancelled = true then some { st with loop := .exited } else none
  | .beginShutdown =>
    if st.shut = .notStarted then some { st with cancelled := true, shut := .waitingLoops 3000 }
    else none
  | .loopsDone =>
    match st.shut with
    | .waitingLoops _ => if st.loop = .exited then some { st with shut := .drainingWorker } else none
    | _ => none
  | .graceExpires =>
    if st.shut = .waitingLoops 0 then some { st with shut := .drainingWorker, timedOut := true }
    else none
  | .workerDrained d =>
    if st.shut = .drainingWorker ∧ d ≤ 15000 then some { st with shut := .finalPush d } else none
  | .finalReturns =>
    if st.shut = .finalPush 0 then some { st with shut := .finished } else none
  | .elapse dt =>
    if dt ≤ st.loop.left.getD dt ∧ dt ≤ st.shut.left.getD dt then
      some { st with loop := st.loop.after dt, shut := st.shut.after dt }
    else none

/-- A run: the events in order from a state; `none` when one cannot happen. -/
def RtState.run : RtState → List RtEvent → Option RtState
  | st, [] => some st
  | st, ev :: rest =>
    match st.step ev with
    | none => none
    | some st1 => st1.run rest

/-- Two `PushOnce` invocations are in flight: the scheduled one and the final one. -/
def RtState.concurrentPush (st : RtState) : Bool :=
  match st.loop, st.shut with
  | .pushing _, .finalPush _ => true
  | _, _ => false

/-- Shutdown has gone past its wait for the background loops. -/
def ShutdownPC.pastLoops : ShutdownPC → Bool
  | .drainingWorker => true
  | .finalPush _ => true
  | .finished => true
  | _ => false

/-- A scheduled push of 10 s starts, shutdown begins, the 3 s of grace pass
and shutdown goes on to the final push. -/
def overlappingRun : List RtEvent :=
  [.tick 10000, .beginShutdown, .elapse 3000, .graceExpires, .workerDrained 1000]

/-- Shutdown begins while a push of 2 s is in flight; the loop exits within the
grace and the final push starts afterwards. -/
def serialRun : List RtEvent :=
  [.tick 2000, .beginShutdown, .elapse 2000, .pushReturns, .loopSeesCancel, .loopsDone,
   .workerDrained 1000]

/-- Three small events used to evaluate `buildBatches`. -/
def threeEvents : List PushEvent :=
  [sampleEvent "llm_traces" "llm_trace" 1 "1", sampleEvent "error_events" "error_event" 2 "22",
   sampleEvent "system_metrics" "system_metric" 3 "333"]

/-- The batches `buildBatches` makes of `threeEvents` under a cap of 80 bytes. -/
def threeBatches : List batch :=
  [{ events := [sampleEvent "llm_traces" "llm_trace" 1 "1",
                sampleEvent "error_events" "error_event" 2 "22"],
     body := ascii ("\x7b\"events\":[\x7b\"type\":\"llm_trace\",\"data\":1\x7d," ++
       "\x7b\"type\":\"error_event\",\"data\":22\x7d]\x7d") },
   { events := [sampleEvent "system_metrics" "system_metric" 3 "333"],
     body := ascii "\x7b\"events\":[\x7b\"type\":\"system_metric\",\"data\":333\x7d]\x7d" }]

/-- An event whose marshalled item has 69 bytes. -/
def bigEvent : PushEvent :=
  sampleEvent "llm_traces" "llm_trace" 9 "1234567890123456789012345678901234567890"

/-- The marshalled item of `bigEvent`. -/
def bigItemBytes : Bytes :=
  ascii "\x7b\"type\":\"llm_trace\",\"data\":1234567890123456789012345678901234567890\x7d"

/-- A large event between two small ones. -/
def eventsAroundBig : List PushEvent :=
  [sampleEvent "llm_traces" "llm_trace" 1 "1", bigEvent,
   sampleEvent "error_events" "error_event" 2 "22"]

/-- Trace id of the i-th seeded triple (`seedEvents` of pusher_test.go). -/
def seedTraceID (i : Nat) : String :=
  "00000000-0000-4000-8000-00000000000" ++ String.singleton (Char.ofNat (97 + i % 26))

/-- Creation time of the i-th seeded triple, with the clock at 1700000000000. -/
def seedCreatedAt (i : Nat) : String := "170000000000" ++ String.singleton (Char.ofNat (48 + i))

/-- The `json_object` projection of the i-th seeded trace row. -/
def seedTraceData (i : Nat) : String :=
  "\x7b\"trace_id\":\"" ++ seedTraceID i ++ "\",\"created_at\":" ++ seedCreatedAt i ++
  ",\"provider\":\"anthropic\",\"model\":\"claude\",\"input_text\":\"input\"" ++
  ",\"output_text\":\"output\",\"prompt_tokens\":0,\"completion_tokens\":0" ++
  ",\"total_tokens\":0,\"cost_usd\":0.0,\"latency_ms\":0,\"status\":\"ok\"" ++
  ",\"error_type\":\"\",\"metadata\":\"\"\x7d"

/-- The `json_object` projection of the i-th seeded error row. -/
def seedErrorData (i : Nat) : String :=
  "\x7b\"trace_id\":\"" ++ seedTraceID i ++ "\",\"created_at\":" ++ seedCreatedAt i ++
  ",\"error_type\":\"llm_error\",\"message\":\"m\",\"stack_trace\":\"\"" ++
  ",\"severity\":\"error\",\"metadata\":\"\"\x7d"

/-- The `json_object` projection of the i-th seeded metric row. -/
def seedMetricData (i : Nat) : String :=
  "\x7b\"trace_id\":\"" ++ seedTraceID i ++ "\",\"created_at\":" ++ seedCreatedAt i ++
  ",\"cpu_pct\":10.0,\"mem_rss_bytes\":1,\"mem_available\":1,\"mem_total\":2" ++
  ",\"disk_used_bytes\":1,\"disk_total_bytes\":2,\"disk_free_bytes\":1" ++
  ",\"metadata\":\"\"\x7d"

/-- The three events fetched for the i-th seeded triple. -/
def seedTriple (i : Nat) : List PushEvent :=
  [{ TableName := "llm_traces", RowID := i + 1, CreatedAt := 1700000000000 + i,
     TraceID := seedTraceID i, Type_ := "llm_trace", Data := ascii (seedTraceData i) },
   { TableName := "error_events", RowID := i + 1, CreatedAt := 1700000000000 + i,
     TraceID := seedTraceID i, Type_ := "error_event", Data := ascii (seedErrorData i) },
   { TableName := "system_metrics", RowID := i + 1, CreatedAt := 1700000000000 + i,
     TraceID := seedTraceID i, Type_ := "system_metric", Data := ascii (seedMetricData i) }]

/-- The 24 events of `TestPushSplitsPayloadByMaxBytes` (8 seeded triples). -/
def seededEvents : List PushEvent := (List.range 8).flatMap seedTriple

/-- A sample projection: of the members `json_object` writes, only `trace_id`
is kept (the others need number formatting). -/
def sampleProjection : Projection :=
  { trace := fun r => ascii ("\x7b\"trace_id\":\"" ++ r.TraceID ++ "\"\x7d"),
    error := fun r => ascii ("\x7b\"trace_id\":\"" ++ r.TraceID ++ "\"\x7d"),
    metric := fun r => ascii ("\x7b\"trace_id\":\"" ++ r.TraceID ++ "\"\x7d") }

/-- The trace row of `seedEvents` (pusher_test.go) with the given id and time. -/
def seedTrace (traceID : String) (createdAt : Int) : TraceInsert :=
  { TraceID := traceID, CreatedAt := createdAt, Provider := "anthropic", Model := "claude",
    InputText := ascii "input", OutputText := ascii "output", PromptTokens := 0, CompletionTokens := 0,
    TotalTokens := 0, CostUSD := 0, LatencyMS := 0, Status := "ok", ErrorType := "",
    Metadata := "" }

/-- The error row of `seedEvents`. -/
def seedError (traceID : String) (createdAt : Int) : ErrorInsert :=
  { TraceID := traceID, CreatedAt := createdAt, ErrorType := "llm_error", Message := ascii "m",
    StackTrace := "", Severity := "error", Metadata := "" }

/-- The metric row of `seedEvents` (10.0 is 0x4024000000000000). -/
def seedMetric (traceID : String) (createdAt : Int) : MetricInsert :=
  { TraceID := traceID, CreatedAt := createdAt, CPUPct := 0x4024000000000000, MemRSSBytes := 1,
    MemAvailable := 1, MemTotal := 2, DiskUsedBytes := 1, DiskTotal := 2, DiskFreeBytes := 1,
    Metadata := "" }

/-- The store after `seedEvents(t, dbm, 1)` on a new database. -/
def seededStore : Store :=
  StoreOp.apply Store.empty
    (.insertBatch none [seedTrace (seedTraceID 0) 1700000000000]
      [seedError (seedTraceID 0) 1700000000000] [seedMetric (seedTraceID 0) 1700000000000])

/-- The name resolution of SQLite on unquoted names: ASCII letters match
without regard to case. -/
def foldCase (name : String) : Option String :=
  some (String.mk (name.data.map Char.toLower))

/-- A receiver that answers every request with the given status; nothing else
in the environment fails. -/
def constEnv (code : Int) : Env :=
  { respond := fun _ => .status code, cancelled := fun _ => false, rand63 := fun n => n,
    now := fun n => 1700000001000 + n, requestFault := false, fetchFault := none,
    markFault := fun _ => none, resolveTable := foldCase }

/-- The pusher of the tests: `New(dbm, url, 5*1024*1024)` followed by
`SetTestOptions(client, 2, 1*time.Millisecond)`. -/
def testPusher : Pusher :=
  SetTestOptions (New "http://push.local/v1/ingest" (5 * 1024 * 1024)) 2 1000000

/-- The single batch `PushOnce` builds from `seededStore`. -/
def seededBatch : batch :=
  { events := fetched sampleProjection seededStore,
    body :=
      match marshalEnvelope plainMarshal ((fetched sampleProjection seededStore).map toItem) with
      | .ok body => body
      | .error _ => [] }

/-- The first `n` unsynced error rows: ids 1 to `n`, in ascending `created_at`
order, each with its own `trace_id`. -/
def errorRows (n : Nat) : List (Row ErrorInsert) :=
  (List.range n).map (fun (i : Nat) =>
    { id := ((i : Nat) : Int) + 1,
      data := seedError (toString i) (1700000000000 + ((i : Nat) : Int)),
      synced := 0, pushed_at := none })

/-- A store that holds 5001 unsynced error rows and nothing else. -/
def crowdedStore : Store :=
  { Store.empty with error_events := { rows := errorRows 5001, seq := 5001 } }

/-- The operation that inserts the first seeded triple. -/
def seedInsertOp : StoreOp :=
  .insertBatch none [seedTrace (seedTraceID 0) 1700000000000]
    [seedError (seedTraceID 0) 1700000000000] [seedMetric (seedTraceID 0) 1700000000000]

/-- The operation that marks the seeded triple as pushed at 1700000001000. -/
def seedMarkOp : StoreOp :=
  .markEventsSynced foldCase 1700000001000 none (fetched sampleProjection seededStore)
    1700000001000

/-- A retention pass far in the future that is forced to run. -/
def seedCleanupOp : StoreOp :=
  .cleanupOldSynced 0 0 (1800000000000 * 1000000) none 1 0 0

/-- Length of the marshalled item of an event (0 when it does not marshal). -/
def itemLen (enc : item → Except String Bytes) (ev : PushEvent) : Int :=
  match enc (toItem ev) with
  | .ok bs => (bs.length : Nat)
  | .error _ => 0

/-- Length of the envelope around the given events: the two brackets, the
items, and one comma between neighbours. -/
def envelopeLen (enc : item → Except String Bytes) (evs : List PushEvent) : Int :=
  baseEnvelope + (evs.map (itemLen enc)).sum + ((evs.length - 1 : Nat) : Int)

/-- Loop invariant of `buildBatches` once the events `done` are consumed. -/
structure BuilderInv (enc : item → Except String Bytes) (cap : Int)
    (done : List PushEvent) (st : builder) : Prop where
  concat : (st.out.map batch.events).flatten ++ st.curEvents = done
  nonempty : ∀ b ∈ st.out, b.events ≠ []
  body : ∀ b ∈ st.out, marshalEnvelope enc (b.events.map toItem) = .ok b.body
  fits : ∀ b ∈ st.out, 2 ≤ b.events.length → ((b.body.length : Nat) : Int) ≤ cap
  items : st.curItems = st.curEvents.map toItem
  size : ∃ parts, marshalAll enc st.curItems = .ok parts ∧
    baseEnvelope + ((joinComma parts).length : Nat) ≤ st.curSize ∧
    st.curSize ≤ baseEnvelope + ((joinComma parts).length : Nat) + 1 ∧
    (st.out = [] → st.curSize = baseEnvelope + ((joinComma parts).length : Nat))
  curFits : 2 ≤ st.curItems.length → st.curSize ≤ cap
  emptySize : st.curItems = [] → st.curSize = baseEnvelope

/-! ### Retention and checkpoints (internal/db/maintenance.go) -/

/-- The WHERE clause of the retention DELETE: `synced = 1 AND created_at < cutoff`. -/
def Row.expired {α : Type} [EventRecord α] (cutoff : Int) (r : Row α) : Bool :=
  decide (r.synced = 1 ∧ EventRecord.createdAt r.data < cutoff)

/-- A trace row as the retention test inserts it: provider, model and status
set, the other business columns left at their defaults. -/
def retentionTrace (id : Int) (traceID : String) (createdAt : Int) : Row TraceInsert :=
  { id := id,
    data := { seedTrace traceID createdAt with InputText := [], OutputText := [] },
    synced := 1, pushed_at := none }

/-- The store of `TestCleanupOldSyncedDeletesRowsWhenThresholdForced`, with the
clock at 1700000000000 ms: two synced traces, one 48 h old and one new. -/
def retentionStore : Store :=
  { Store.empty with
    llm_traces :=
      { rows := [retentionTrace 1 "aaaaaaaa-aaaa-4aaa-8aaa-aaaaaaaaaaaa" (1700000000000 - 172800000),
                 retentionTrace 2 "bbbbbbbb-bbbb-4bbb-8bbb-bbbbbbbbbbbb" 1700000000000],
        seq := 2 } }

/-- Embedding of `Manager.WALSizeBytes`: the size `os.Stat` reports for the
`-wal` file, and 0 when the call fails (`none`: the file is absent). -/
def WALSizeBytes (wal : Option Int) : Int :=
  match wal with
  | some size => size
  | none => 0

/-- Embedding of `Manager.CheckpointIfWALExceeds`. `wal` is what `os.Stat`
finds, `execFault` the error of the PRAGMA, if the environment makes it fail.
Returns `(didRun, err)` and the statements issued on the writer. -/
def CheckpointIfWALExceeds (wal : Option Int) (execFault : Option String) (thresholdBytes : Int) :
    (Bool × Option String) × List String :=
  if WALSizeBytes wal ≤ thresholdBytes then ((false, none), [])
  else
    match execFault with
    | some e => ((false, some ("wal restart checkpoint: " ++ e)), ["PRAGMA wal_checkpoint(RESTART)"])
    | none => ((true, none), ["PRAGMA wal_checkpoint(RESTART)"])

/-! ### Ingest (internal/ingest) -/

/-- Embedding of `ingest.TruncateBytes`; a Go string is its bytes. -/
def TruncateBytes (input : Bytes) (maxBytes : Int) : Bytes :=
  if maxBytes ≤ 0 then []
  else if ((input.length : Nat) : Int) ≤ maxBytes then input
  else input.take maxBytes.toNat

/-- The UTF-8 encoding of a string. -/
def utf8Encode (s : String) : Bytes := s.data.flatMap String.utf8EncodeChar

/-- `ingest.QueueCapacity`. -/
def QueueCapacity : Nat := 512

/-- Go `ingest.TracePayload` (types.go). -/
structure TracePayload where
  Provider : String
  Model : String
  InputText : Bytes
  OutputText : Bytes
  PromptTokens : Int
  CompletionTokens : Int
  TotalTokens : Int
  CostUSD : float64
  LatencyMS : Int
  Status : String
  ErrorType : String
  Metadata : String
deriving DecidableEq

/-- Go `ingest.ErrorPayload`. -/
structure ErrorPayload where
  ErrorType : String
  Message : Bytes
  StackTrace : String
  Severity : String
  Metadata : String
deriving DecidableEq

/-- Go `ingest.MetricPayload`. -/
structure MetricPayload where
  CPUPct : float64
  MemRSSBytes : Int
  MemAvailable : Int
  MemTotal : Int
  DiskUsedBytes : Int
  DiskTotal : Int
  DiskFreeBytes : Int
  Metadata : String
deriving DecidableEq

/-- Go `ingest.Event`; a nil pointer is `none`. -/
structure Event where
  Kind : String
  CreatedAt : Int
  Trace : Option TracePayload
  Error : Option ErrorPayload
  Metric : Option MetricPayload
deriving DecidableEq

/-- An open buffered channel `chan Event`: its capacity and the events in its
buffer, oldest first. -/
structure Chan where
  cap : Nat
  buf : List Event
deriving DecidableEq

/-- `make(chan Event, cap)`. -/
def Chan.make (cap : Nat) : Chan := { cap := cap, buf := [] }

/-- Embedding of `ingest.TryEnqueue`: the `select` takes the send when the
buffer has room and the `default` branch otherwise. Returns the result and the
channel afterwards. -/
def TryEnqueue (ch : Chan) (event : Event) : Bool × Chan :=
  if ch.buf.length < ch.cap then (true, { ch with buf := ch.buf ++ [event] })
  else (false, ch)

/-- Calls of `TryEnqueue` one after the other with no receiver: the results in
order and the channel afterwards. -/
def enqueueAll : Chan → List Event → List Bool × Chan
  | ch, [] => ([], ch)
  | ch, e :: rest =>
    let r := TryEnqueue ch e
    let rs := enqueueAll r.2 rest
    (r.1 :: rs.1, rs.2)

/-- The event of `TestTryEnqueueSaturation`. -/
def saturationEvent : Event :=
  { Kind := "trace", CreatedAt := 0,
    Trace := some { Provider := "a", Model := "b", InputText := [], OutputText := [],
                    PromptTokens := 0, CompletionTokens := 0, TotalTokens := 0, CostUSD := 0,
                    LatencyMS := 0, Status := "", ErrorType := "", Metadata := "" },
    Error := none, Metric := none }

/-! ### The ingest side of the runtime (internal/app/runtime.go) -/

/-- The fields of `app.Runtime` that `Enqueue` reads and writes. `ingestCh` is
`none` once shutdown has closed the channel and set the field to nil; the two
`atomic.Int64` counters are taken without wraparound. -/
structure Runtime where
  ingestCh : Option Chan
  eventsReceived : Int
  eventsDropped : Int
deriving DecidableEq

/-- A runtime whose queue has capacity `cap` and whose counters are zero. -/
def Runtime.start (cap : Nat) : Runtime :=
  { ingestCh := some (Chan.make cap), eventsReceived := 0, eventsDropped := 0 }

/-- Embedding of `Runtime.Enqueue`. -/
def Runtime.Enqueue (r : Runtime) (event : Event) : Bool × Runtime :=
  match r.ingestCh with
  | none => (false, { r with eventsDropped := r.eventsDropped + 1 })
  | some ch =>
    let res := TryEnqueue ch event
    if res.1 then (true, { r with ingestCh := some res.2, eventsReceived := r.eventsReceived + 1 })
    else (false, { r with ingestCh := some res.2, eventsDropped := r.eventsDropped + 1 })

/-- What happens to the queue of a runtime: a call of `Enqueue`, the worker
receiving the oldest event, and the step of `shutdown` that closes the channel
and sets `ingestCh` to nil (taken as one step: no call of `Enqueue` runs
between the two statements). -/
inductive QueueOp where
  | enqueue (event : Event)
  | receive
  | close
deriving DecidableEq

/-- One operation on the runtime. -/
def QueueOp.apply (r : Runtime) : QueueOp → Runtime
  | .enqueue event => (r.Enqueue event).2
  | .receive =>
    match r.ingestCh with
    | some ch => { r with ingestCh := some { ch with buf := ch.buf.tail } }
    | none => r
  | .close => { r with ingestCh := none }

/-- A sequence of operations. -/
def runQueueOps (r : Runtime) (ops : List QueueOp) : Runtime :=
  ops.foldl QueueOp.apply r

/-- Whether the operation is a call of `Enqueue`. -/
def QueueOp.isEnqueue : QueueOp → Bool
  | .enqueue _ => true
  | _ => false

/-- The number of calls of `Enqueue` in a sequence of operations. -/
def enqueueCalls (ops : List QueueOp) : Nat := (ops.filter QueueOp.isEnqueue).length

/-! ### The ingest handlers (internal/server/ingest_handlers.go) -/

/-- Go `server.traceRequest`. -/
structure traceRequest where
  Provider : String
  Model : String
  InputText : Bytes
  OutputText : Bytes
  PromptTokens : Int
  CompletionTokens : Int
  TotalTokens : Int
  CostUSD : float64
  LatencyMS : Int
  Status : String
  ErrorType : String
  Metadata : String
deriving DecidableEq

/-- Go `server.errorRequest`. -/
structure errorRequest where
  ErrorType : String
  Message : Bytes
  StackTrace : String
  Severity : String
  Metadata : String
deriving DecidableEq

/-- `http.StatusAccepted`. -/
def StatusAccepted : Int := 202

/-- `http.StatusBadRequest`. -/
def StatusBadRequest : Int := 400

/-- What a handler did: the status code and the text written, the event it
passed to `Enqueue`, if it called it, and the enqueuer afterwards. -/
structure Reply (σ : Type) where
  code : Int
  message : String
  offered : Option Event
  enqueuer : σ

/-- The event `PostTrace` builds from a request. -/
def traceEvent (now : Int) (req : traceRequest) : Event :=
  { Kind := "trace", CreatedAt := now,
    Trace := some { Provider := req.Provider, Model := req.Model, InputText := req.InputText,
                    OutputText := req.OutputText, PromptTokens := req.PromptTokens,
                    CompletionTokens := req.CompletionTokens, TotalTokens := req.TotalTokens,
                    CostUSD := req.CostUSD, LatencyMS := req.LatencyMS, Status := req.Status,
                    ErrorType := req.ErrorType, Metadata := req.Metadata },
    Error := none, Metric := none }

/-- The event `PostError` builds from a request. -/
def errorEvent (now : Int) (req : errorRequest) : Event :=
  { Kind := "error", CreatedAt := now, Trace := none,
    Error := some { ErrorType := req.ErrorType, Message := req.Message,
                    StackTrace := req.StackTrace, Severity := req.Severity,
                    Metadata := req.Metadata },
    Metric := none }

/-- Embedding of `IngestHandlers.PostTrace`. `decode` is
`json.NewDecoder(r.Body).Decode(&req)` (`none`: it returned an error),
`enqueue` the `Enqueue` of the enqueuer acting on its state `st`, `now` the
value of `time.Now().UnixMilli()`. -/
def PostTrace {σ : Type} (decode : Bytes → Option traceRequest)
    (enqueue : σ → Event → Bool × σ) (now : Int) (body : Bytes) (st : σ) : Reply σ :=
  match decode body with
  | none => { code := StatusBadRequest, message := "invalid json", offered := none, enqueuer := st }
  | some req =>
    if req.Provider = "" ∨ req.Model = "" then
      { code := StatusBadRequest, message := "provider and model are required", offered := none,
        enqueuer := st }
    else
      let req1 := if req.Status = "" then { req with Status := "ok" } else req
      let event := traceEvent now req1
      { code := StatusAccepted, message := "", offered := some event,
        enqueuer := (enqueue st event).2 }

/-- Embedding of `IngestHandlers.PostError`, with the parameters of `PostTrace`. -/
def PostError {σ : Type} (decode : Bytes → Option errorRequest)
    (enqueue : σ → Event → Bool × σ) (now : Int) (body : Bytes) (st : σ) : Reply σ :=
  match decode body with
  | none => { code := StatusBadRequest, message := "invalid json", offered := none, enqueuer := st }
  | some req =>
    if req.ErrorType = "" ∨ req.Message = [] then
      { code := StatusBadRequest, message := "error_type and message are required",
        offered := none, enqueuer := st }
    else
      let req1 := if req.Severity = "" then { req with Severity := "error" } else req
      let event := errorEvent now req1
      { code := StatusAccepted, message := "", offered := some event,
        enqueuer := (enqueue st event).2 }

/-- The body of `TestPostTraceQueueSaturationStillReturns202`. -/
def saturationBody : Bytes :=
  ascii "\x7b\"model\":\"claude-sonnet-4\",\"provider\":\"anthropic\"\x7d"

/-- The request that body decodes to. -/
def saturationRequest : traceRequest :=
  { Provider := "anthropic", Model := "claude-sonnet-4", InputText := [], OutputText := [],
    PromptTokens := 0, CompletionTokens := 0, TotalTokens := 0, CostUSD := 0, LatencyMS := 0,
    Status := "", ErrorType := "", Metadata := "" }

/-- A decoder for the examples: what `encoding/json` does on `saturationBody`
and on text that is not JSON. -/
def sampleDecode (body : Bytes) : Option traceRequest :=
  if body = saturationBody then some saturationRequest else none

/-- A receiver that answers the first `k` requests with status 500 and every
later one with status 200; nothing else in the environment fails. -/
def lateEnv (k : Nat) : Env :=
  { constEnv 200 with respond := fun i => if i < k then .status 500 else .status 200 }

/-- The pusher of `New` with the number of attempts set by `SetTestOptions` and
the default base backoff of 500 ms. -/
def patientPusher (retries : Int) : Pusher :=
  SetTestOptions (New "http://push.local/v1/ingest" (5 * 1024 * 1024)) retries (500 * 1000000)

/-- A request body for the examples of `sendWithRetry`: an envelope with no
events. -/
def emptyEnvelope : Bytes := ascii "\x7b\"events\":[]\x7d"

/-- A store with unsynced rows in all three tables, inserted out of time order,
and one synced trace. -/
def mixedStore : Store :=
  { Store.empty with
    llm_traces :=
      { rows := [{ id := 1, data := seedTrace (seedTraceID 0) 1700000000300, synced := 0,
                   pushed_at := none },
                 { id := 2, data := seedTrace (seedTraceID 1) 1700000000050, synced := 1,
                   pushed_at := some 1700000000900 }],
        seq := 2 },
    error_events :=
      { rows := [{ id := 1, data := seedError (seedTraceID 2) 1700000000100, synced := 0,
                   pushed_at := none }],
        seq := 1 },
    system_metrics :=
      { rows := [{ id := 1, data := seedMetric (seedTraceID 3) 1700000000200, synced := 0,
                   pushed_at := none }],
        seq := 1 } }

/-- The events fetched from the seeded store, the first of them (the trace)
spelling its table in capitals, as SQLite also accepts it. -/
def shoutedEvents : List PushEvent :=
  match fetched sampleProjection seededStore with
  | [] => []
  | ev :: rest => { ev with TableName := "LLM_TRACES" } :: rest

/-- Row `r2` is row `r1` of table `table` after `MarkEventsSynced(events,
pushedAt)`: a row named by an event (its table name denotes `table`, same row
id) has `synced = 1` and `pushed_at = pushedAt` and its other columns unchanged;
every other row is unchanged altogether. -/
def RowMarkedAt {α : Type} (resolve : String → Option String) (table : String)
    (events : List PushEvent) (pushedAt : Int) (r1 r2 : Row α) : Prop :=
  r2.id = r1.id ∧ r2.data = r1.data ∧
  ((∃ ev ∈ events, tableOf resolve ev.TableName = some table ∧ ev.RowID = r1.id) →
    r2.synced = 1 ∧ r2.pushed_at = some pushedAt) ∧
  ((¬ ∃ ev ∈ events, tableOf resolve ev.TableName = some table ∧ ev.RowID = r1.id) → r2 = r1)

/-- Table `t2` is table `t1` after `MarkEventsSynced(events, pushedAt)`: the
same rows in the same order, each related by `RowMarkedAt`, and the same
sequence counter. -/
def TableMarkedAt {α : Type} (resolve : String → Option String) (table : String)
    (events : List PushEvent) (pushedAt : Int) (t1 t2 : Table α) : Prop :=
  t2.seq = t1.seq ∧ List.Forall₂ (RowMarkedAt resolve table events pushedAt) t1.rows t2.rows

/-- A slice that cannot be inserted into a table: one of its records carries a
`trace_id` that a row of the table, or an earlier record of the slice, already
has. -/
def Table.conflict {α : Type} [EventRecord α] (t : Table α) (recs : List α) : Prop :=
  ∃ pre rec post, recs = pre ++ rec :: post ∧
    (EventRecord.traceID rec ∈ t.rows.map (fun r => EventRecord.traceID r.data) ∨
      EventRecord.traceID rec ∈ pre.map EventRecord.traceID)

/-- Table `t2` is table `t1` with one new row for each record of `recs`, in
order, each with a new id, `synced = 0` and a null `pushed_at`. -/
def Table.Extended {α : Type} (t1 t2 : Table α) (recs : List α) : Prop :=
  t2.seq = t1.seq + ((recs.length : Nat) : Int) ∧
  ∃ news : List (Row α), t2.rows = t1.rows ++ news ∧ news.map Row.data = recs ∧
    ∀ r ∈ news, r.synced = 0 ∧ r.pushed_at = none ∧ t1.seq < r.id

/-- The trace row of `TestLatestRowQueries` (query_test.go). -/
def latestTrace : TraceInsert :=
  { seedTrace "11111111-1111-4111-8111-111111111111" 1 with
    Model := "claude-sonnet-4", InputText := [], OutputText := [] }

/-- The error row of `TestLatestRowQueries`. -/
def latestError : ErrorInsert :=
  { seedError "22222222-2222-4222-8222-222222222222" 2 with Message := ascii "rate limited" }

/-- A trace row with a `trace_id` not used before. -/
def freshTrace : TraceInsert :=
  { seedTrace "33333333-3333-4333-8333-333333333333" 3 with
    Model := "claude-sonnet-4", InputText := [], OutputText := [] }

/-- An error row that repeats the `trace_id` of `latestError`. -/
def repeatedError : ErrorInsert :=
  { seedError "22222222-2222-4222-8222-222222222222" 4 with Message := ascii "again" }

/-- The store after the insert of `TestLatestRowQueries` into a new database. -/
def latestRowsStore : Store :=
  StoreOp.apply Store.empty (.insertBatch none [latestTrace] [latestError] [])

/-- Four events whose items have 29 bytes each, used to evaluate `buildBatches`
under a cap of 72 bytes, the size of an envelope with two of them. -/
def fourEvents : List PushEvent :=
  [sampleEvent "llm_traces" "llm_trace" 1 "1", sampleEvent "llm_traces" "llm_trace" 2 "2",
   sampleEvent "llm_traces" "llm_trace" 3 "3", sampleEvent "llm_traces" "llm_trace" 4 "4"]

/-! ### The ingest worker (internal/ingest/worker.go) -/

/-- `ingest.MaxBatchSize`. -/
def MaxBatchSize : Nat := 50

/-- The field of `ingest.Worker` that `Run` computes with. -/
structure Worker where
  maxTextBytes : Int
deriving DecidableEq

/-- What the `select` of `Worker.Run` takes next, with the wall clock
(milliseconds) at that moment: an event received from the queue, or a tick of
the flush window. -/
inductive WorkerInput where
  | receive (clock : Int) (ev : Event)
  | tick (clock : Int)
deriving DecidableEq

/-- The three slices `flush` fills. -/
structure slices where
  traces : List TraceInsert
  errs : List ErrorInsert
  metrics : List MetricInsert
deriving DecidableEq

/-- One call of `InsertBatch` by `flush`: the wall clock of the flush, the
buffer it was given and the three slices it passed. -/
structure FlushCall where
  clock : Int
  batch : List Event
  traces : List TraceInsert
  errs : List ErrorInsert
  metrics : List MetricInsert
deriving DecidableEq

/-- The `db.TraceInsert` literal of `flush`. -/
def traceRow (w : Worker) (traceID : String) (createdAt : Int) (p : TracePayload) : TraceInsert :=
  { TraceID := traceID, CreatedAt := createdAt, Provider := p.Provider, Model := p.Model,
    InputText := TruncateBytes p.InputText w.maxTextBytes,
    OutputText := TruncateBytes p.OutputText w.maxTextBytes,
    PromptTokens := p.PromptTokens, CompletionTokens := p.CompletionTokens,
    TotalTokens := p.TotalTokens, CostUSD := p.CostUSD, LatencyMS := p.LatencyMS,
    Status := p.Status, ErrorType := p.ErrorType, Metadata := p.Metadata }

/-- The `db.ErrorInsert` literal of `flush`. -/
def errorRow (traceID : String) (createdAt : Int) (p : ErrorPayload) : ErrorInsert :=
  { TraceID := traceID, CreatedAt := createdAt, ErrorType := p.ErrorType, Message := p.Message,
    StackTrace := p.StackTrace, Severity := p.Severity, Metadata := p.Metadata }

/-- The `db.MetricInsert` literal of `flush`. -/
def metricRow (traceID : String) (createdAt : Int) (p : MetricPayload) : MetricInsert :=
  { TraceID := traceID, CreatedAt := createdAt, CPUPct := p.CPUPct,
    MemRSSBytes := p.MemRSSBytes, MemAvailable := p.MemAvailable, MemTotal := p.MemTotal,
    DiskUsedBytes := p.DiskUsedBytes, DiskTotal := p.DiskTotal,
    DiskFreeBytes := p.DiskFreeBytes, Metadata := p.Metadata }

/-- The `created_at` that `flush` gives an event: the producer's, or the clock
read in `flush` when the producer's is zero. -/
def flushCreatedAt (now : Int) (ev : Event) : Int :=
  if ev.CreatedAt = 0 then now else ev.CreatedAt

/-- The body of the loop of `flush` for one event: `traceID` is the value of
`uuid.NewString()`, `now` the value of `time.Now().UnixMilli()`. -/
def flushOne (w : Worker) (traceID : String) (now : Int) (acc : slices) (ev : Event) : slices :=
  let createdAt := flushCreatedAt now ev
  if ev.Kind = "trace" then
    match ev.Trace with
    | none => acc
    | some p => { acc with traces := acc.traces ++ [traceRow w traceID createdAt p] }
  else if ev.Kind = "error" then
    match ev.Error with
    | none => acc
    | some p => { acc with errs := acc.errs ++ [errorRow traceID createdAt p] }
  else if ev.Kind = "metric" then
    match ev.Metric with
    | none => acc
    | some p => { acc with metrics := acc.metrics ++ [metricRow traceID createdAt p] }
  else acc

/-- The loop of `flush` over the batch; `k` counts the calls of
`uuid.NewString()` made so far. -/
def flushLoop (w : Worker) (uuid : Nat → String) (now : Int) :
    Nat → slices → List Event → slices
  | _, acc, [] => acc
  | k, acc, ev :: rest => flushLoop w uuid now (k + 1) (flushOne w (uuid k) now acc ev) rest

/-- The local state of `Worker.Run`: the buffer, the calls of `InsertBatch`
made so far, and the number of ids drawn so far. -/
structure WorkerState where
  buffer : List Event
  calls : List FlushCall
  uuids : Nat
deriving DecidableEq

/-- The closure `flush` of `Worker.Run`, called at wall clock `now`, which every
clock reading of the call returns. `uuid n` is the n-th id `uuid.NewString()`
returns, `insertErr n` the error of the n-th call of `InsertBatch`, if it
fails. Returns the error and the state with the call recorded. -/
def Worker.flush (w : Worker) (uuid : Nat → String) (insertErr : Nat → Option String)
    (now : Int) (st : WorkerState) (batch : List Event) : Option String × WorkerState :=
  if batch.length = 0 then (none, st)
  else
    let sl := flushLoop w uuid now st.uuids { traces := [], errs := [], metrics := [] } batch
    let st1 : WorkerState :=
      { st with
        calls := st.calls ++
          [{ clock := now, batch := batch, traces := sl.traces, errs := sl.errs,
             metrics := sl.metrics }],
        uuids := st.uuids + batch.length }
    match insertErr st.calls.length with
    | some e => (some ("insert batch: " ++ e), st1)
    | none => (none, st1)

/-- The `for`/`select` loop of `Worker.Run` over what the `select` takes, until
the queue is closed at wall clock `closedAt`. -/
def Worker.loop (w : Worker) (uuid : Nat → String) (insertErr : Nat → Option String)
    (closedAt : Int) : WorkerState → List WorkerInput → Option String × WorkerState
  | st, [] => w.flush uuid insertErr closedAt st st.buffer
  | st, .receive clock ev :: rest =>
    let st1 : WorkerState := { st with buffer := st.buffer ++ [ev] }
    if st1.buffer.length ≥ MaxBatchSize then
      match w.flush uuid insertErr clock st1 st1.buffer with
      | (some e, st2) => (some e, st2)
      | (none, st2) => Worker.loop w uuid insertErr closedAt { st2 with buffer := [] } rest
    else Worker.loop w uuid insertErr closedAt st1 rest
  | st, .tick clock :: rest =>
    if st.buffer.length = 0 then Worker.loop w uuid insertErr closedAt st rest
    else
      match w.flush uuid insertErr clock st st.buffer with
      | (some e, st2) => (some e, st2)
      | (none, st2) => Worker.loop w uuid insertErr closedAt { st2 with buffer := [] } rest

/-- Embedding of `Worker.Run`: the error returned and the calls of `InsertBatch`
made, in order. -/
def Worker.Run (w : Worker) (uuid : Nat → String) (insertErr : Nat → Option String)
    (inputs : List WorkerInput) (closedAt : Int) : Option String × List FlushCall :=
  let r := w.loop uuid insertErr closedAt { buffer := [], calls := [], uuids := 0 } inputs
  (r.1, r.2.calls)

/-- The events among what the `select` takes, in order. -/
def receivedEvents : List WorkerInput → List Event
  | [] => []
  | .receive _ ev :: rest => ev :: receivedEvents rest
  | .tick _ :: rest => receivedEvents rest

/-- An event of kind trace that carries a trace payload. -/
def Event.isTrace (ev : Event) : Bool := decide (ev.Kind = "trace") && ev.Trace.isSome

/-- An event of kind error that carries an error payload. -/
def Event.isError (ev : Event) : Bool := decide (ev.Kind = "error") && ev.Error.isSome

/-- An event of kind metric that carries a metric payload. -/
def Event.isMetric (ev : Event) : Bool := decide (ev.Kind = "metric") && ev.Metric.isSome

/-- A call of `InsertBatch` as `flush` makes it: the batch has between 1 and
`MaxBatchSize` events, and each slice holds, in the order of the batch, one row
for each event of its kind that carries the payload of that kind, with the
payload's columns, and as `created_at` the producer's value or, when that is
zero, the clock of the flush. -/
def FlushCall.WellFormed (w : Worker) (c : FlushCall) : Prop :=
  1 ≤ c.batch.length ∧ c.batch.length ≤ MaxBatchSize ∧
  List.Forall₂ (fun (row : TraceInsert) (ev : Event) =>
      ∃ p id, ev.Trace = some p ∧ row = traceRow w id (flushCreatedAt c.clock ev) p)
    c.traces (c.batch.filter Event.isTrace) ∧
  List.Forall₂ (fun (row : ErrorInsert) (ev : Event) =>
      ∃ p id, ev.Error = some p ∧ row = errorRow id (flushCreatedAt c.clock ev) p)
    c.errs (c.batch.filter Event.isError) ∧
  List.Forall₂ (fun (row : MetricInsert) (ev : Event) =>
      ∃ p id, ev.Metric = some p ∧ row = metricRow id (flushCreatedAt c.clock ev) p)
    c.metrics (c.batch.filter Event.isMetric)

/-- The event of `TestWorkerFlushesOnWindow`: the producer leaves `CreatedAt`
zero. -/
def windowEvent : Event :=
  { Kind := "trace", CreatedAt := 0,
    Trace := some { Provider := "anthropic", Model := "claude-sonnet-4", InputText := [],
                    OutputText := [], PromptTokens := 0, CompletionTokens := 0,
                    TotalTokens := 0, CostUSD := 0, LatencyMS := 0, Status := "ok",
                    ErrorType := "", Metadata := "" },
    Error := none, Metric := none }

/-- Ids for the examples: the decimal numerals. -/
def countingUuid (n : Nat) : String := toString n

/-- The worker of the tests: `NewWorker(logger, dbm, 1024)`. -/
def testWorker : Worker := { maxTextBytes := 1024 }

/-- No call of `InsertBatch` fails. -/
def noInsertErr : Nat → Option String := fun _ => none

/-- An event of kind error that carries no error payload. -/
def emptyErrorEvent : Event :=
  { Kind := "error", CreatedAt := 1700000000001, Trace := none, Error := none, Metric := none }

/-- An event of kind error from the log parser, stamped by its producer. -/
def stampedErrorEvent : Event :=
  { Kind := "error", CreatedAt := 1700000000002, Trace := none,
    Error := some { ErrorType := "gateway_error", Message := ascii "request failed timeout",
                    StackTrace := "", Severity := "info", Metadata := "" },
    Metric := none }

/-- The call of `InsertBatch` that the flush-window tick at clock 1500 makes
for `windowEvent`. -/
def windowCall : FlushCall :=
  { clock := 1500, batch := [windowEvent],
    traces := [{ TraceID := "0", CreatedAt := 1500, Provider := "anthropic",
                 Model := "claude-sonnet-4", InputText := [], OutputText := [],
                 PromptTokens := 0, CompletionTokens := 0, TotalTokens := 0, CostUSD := 0,
                 LatencyMS := 0, Status := "ok", ErrorType := "", Metadata := "" }],
    errs := [], metrics := [] }

/-! ### The log parser (internal/logparse/parser.go) -/

/-- `strings.Contains` on Go strings: `substr` occurs in `s` as a run of
consecutive bytes. -/
def Contains : Bytes → Bytes → Bool
  | [], substr => substr.isEmpty
  | c :: rest, substr => substr.isPrefixOf (c :: rest) || Contains rest substr

/-- Embedding of `classifyLine`. `toLower` is `strings.ToLower`. -/
def classifyLine (toLower : Bytes → Bytes) (line : Bytes) : String × Bool :=
  let l := toLower line
  if Contains l (ascii "channel") then ("channel_event", true)
  else if Contains l (ascii "config") || Contains l (ascii "reload") then ("config_change", true)
  else if Contains l (ascii "error") || Contains l (ascii "exception") ||
      Contains l (ascii "timeout") || Contains l (ascii "failed") then ("gateway_error", true)
  else ("", false)

/-- The classification table of the specification, in order: the event type
and the substrings that select it. -/
def classifyTable : List (String × List String) :=
  [("channel_event", ["channel"]), ("config_change", ["config", "reload"]),
   ("gateway_error", ["error", "exception", "timeout", "failed"])]

/-- The first-match reference of the specification, applied to a lower-cased
line: the type of the first group one of whose substrings the line contains. -/
def classifyReference (l : Bytes) : Option String :=
  (classifyTable.find? (fun g => g.2.any (fun word => Contains l (ascii word)))).map Prod.fst

/-- Embedding of `limit`: `none` is the panic of `s[:max]` for a negative
`max`. -/
def limit (s : Bytes) (max : Int) : Option Bytes :=
  if ((s.length : Nat) : Int) ≤ max then some s
  else if max < 0 then none
  else some (s.take max.toNat)

/-- What the scan loop of `readFromOffset` does with one scanned line. -/
inductive LineResult where
  | skipped
  | emitted (ev : Event)
  | panicked
deriving DecidableEq

/-- The message of the event emitted for a line, if one was. -/
def LineResult.message : LineResult → Option Bytes
  | .emitted ev => ev.Error.map ErrorPayload.Message
  | _ => none

/-- The body of the scan loop of `readFromOffset` for the scanned text `text`.
`trimSpace` is `strings.TrimSpace`, `toLower` is `strings.ToLower`,
`marshalMeta line` is what `json.Marshal` returns for the map with the keys
`source` and `raw_line`, `now` is the value of `time.Now().UnixMilli()`. -/
def parseLine (toLower trimSpace : Bytes → Bytes) (marshalMeta : Bytes → String) (now : Int)
    (text : Bytes) : LineResult :=
  let line := trimSpace text
  if line = [] then .skipped
  else
    let c := classifyLine toLower line
    if c.2 = false then .skipped
    else
      match limit line 500 with
      | none => .panicked
      | some message =>
        .emitted
          { Kind := "error", CreatedAt := now, Trace := none,
            Error := some { ErrorType := c.1, Message := message, StackTrace := "",
                            Severity := "info", Metadata := marshalMeta line },
            Metric := none }

/-- What `strings.ToLower` does to ASCII text, and to text whose other
characters have no upper case: the letters A to Z are mapped to a to z. -/
def asciiLower (s : Bytes) : Bytes :=
  s.map (fun b => if 65 ≤ b ∧ b ≤ 90 then b + 32 else b)

/-- ASCII white space, as `strings.TrimSpace` sees it: tab, line feed, vertical
tab, form feed, carriage return and space. -/
def isAsciiSpace (b : UInt8) : Bool := (9 ≤ b && b ≤ 13) || b = 32

/-- What `strings.TrimSpace` does to text that neither starts nor ends with a
non-ASCII space. -/
def asciiTrimSpace (s : Bytes) : Bytes :=
  ((s.dropWhile isAsciiSpace).reverse.dropWhile isAsciiSpace).reverse

/-- What `json.Marshal` writes for the metadata map of a line that needs no
escaping, given as text. -/
def rawLineMeta (line : String) : String :=
  "\x7b\"raw_line\":\"" ++ line ++ "\",\"source\":\"log_parser\"\x7d"

/-- The four lines of `TestParserEmitsEventsForRelevantLines`. -/
def testLines : List String :=
  ["channel connected", "normal info line", "config reloaded", "request failed timeout"]

/-- A line of 257 characters and 508 bytes: 251 times the two-byte letter é,
followed by " error". -/
def accentLine : String := String.mk (List.replicate 251 'é') ++ " error"

/-- `bufio.MaxScanTokenSize`. -/
def MaxScanTokenSize : Nat := 65536

/-- The `dropCR` of bufio: one trailing carriage return is removed. -/
def dropCR (line : Bytes) : Bytes :=
  if line.getLast? = some 13 then line.dropLast else line

/-- What a `bufio.Scanner` with the default `ScanLines` yields on the bytes
`data`, `cur` being the bytes of the line read so far: the lines, and whether
the scan reached the end of the data (`false`: a line of `MaxScanTokenSize`
bytes or more ended it with `ErrTooLong`). -/
def scanLines : Bytes → Bytes → List Bytes × Bool
  | cur, [] =>
    if cur = [] then ([], true)
    else if cur.length ≥ MaxScanTokenSize then ([], false)
    else ([dropCR cur], true)
  | cur, b :: rest =>
    if b = 10 then
      if cur.length ≥ MaxScanTokenSize then ([], false)
      else
        let r := scanLines [] rest
        (dropCR cur :: r.1, r.2)
    else scanLines (cur ++ [b]) rest

/-- The library functions the parser calls: `strings.ToLower`,
`strings.TrimSpace`, `json.Marshal` of the metadata map of a line, and the
`bufio.Scanner` over the rest of the file (the lines, and whether `Err()` is
nil). -/
structure ParserLib where
  toLower : Bytes → Bytes
  trimSpace : Bytes → Bytes
  marshalMeta : Bytes → String
  scan : Bytes → List Bytes × Bool

/-- What is at the path of the log when the parser looks: the inode number and
the content of the file. -/
structure LogFile where
  ino : Nat
  content : Bytes
deriving DecidableEq

/-- The size `os.Stat` reports. -/
def LogFile.size (f : LogFile) : Int := ((f.content.length : Nat) : Int)

/-- The event `readFromOffset` passes to `Enqueue` for a scanned line, if any. -/
def lineEvent (lib : ParserLib) (now : Int) (text : Bytes) : Option Event :=
  match parseLine lib.toLower lib.trimSpace lib.marshalMeta now text with
  | .emitted ev => some ev
  | _ => none

/-- Embedding of `Parser.readFromOffset` on the file `f`: the events passed to
`Enqueue`, in order, and the new offset (`none`: an error is returned with it,
and `Run` drops the offset). `openFault` makes `os.Open` fail; `now` is the
wall clock of the call. -/
def readFromOffset (lib : ParserLib) (now : Int) (openFault : Bool) (f : LogFile)
    (offset : Int) : List Event × Option Int :=
  if openFault then ([], none)
  else if offset < 0 then ([], none)
  else
    let r := lib.scan (f.content.drop offset.toNat)
    let events := r.1.filterMap (lineEvent lib now)
    if r.2 then (events, some (max offset f.size)) else (events, none)

/-- The locals `offset` and `lastInode` of `Parser.Run`. -/
structure ParserState where
  offset : Int
  lastInode : Nat
deriving DecidableEq

/-- What one tick of `Parser.Run` finds: the wall clock, the file at the path
(`none`: `os.Stat` fails) and whether `os.Open` fails. -/
structure Poll where
  clock : Int
  file : Option LogFile
  openFault : Bool
deriving DecidableEq

/-- The inode and size checks of one tick of `Parser.Run` (on a Unix system,
where `fi.Sys()` is a `*syscall.Stat_t`). -/
def Parser.checks (st : ParserState) (f : LogFile) : ParserState :=
  let lastInode1 := if st.lastInode = 0 then f.ino else st.lastInode
  let st1 : ParserState :=
    if f.ino ≠ lastInode1 then { offset := 0, lastInode := f.ino }
    else { offset := st.offset, lastInode := lastInode1 }
  if f.size < st1.offset then { st1 with offset := 0 } else st1

/-- One tick of `Parser.Run`: the state afterwards and the events passed to
`Enqueue`. The file is the same for `os.Stat` and `os.Open`. -/
def Parser.poll (lib : ParserLib) (st : ParserState) (p : Poll) : ParserState × List Event :=
  match p.file with
  | none => (st, [])
  | some f =>
    let st1 := Parser.checks st f
    let r := readFromOffset lib p.clock p.openFault f st1.offset
    match r.2 with
    | none => (st1, r.1)
    | some newOffset => ({ st1 with offset := newOffset }, r.1)

/-- Embedding of `Parser.Run` over the ticks that happen before the context is
done: the final state and all events passed to `Enqueue`. -/
def Parser.Run (lib : ParserLib) : ParserState → List Poll → ParserState × List Event
  | st, [] => (st, [])
  | st, p :: rest =>
    let r := Parser.poll lib st p
    let r2 := Parser.Run lib r.1 rest
    (r2.1, r.2 ++ r2.2)

/-- The library functions on plain ASCII lines that JSON does not escape. -/
def asciiParserLib : ParserLib :=
  { toLower := asciiLower, trimSpace := asciiTrimSpace,
    marshalMeta := fun line => rawLineMeta (String.mk (line.map (fun b => Char.ofNat b.toNat))),
    scan := scanLines [] }

/-- The two ticks of `TestParserHandlesRotation`: the first log, then, after
the rename, a new file with another inode at the same path. -/
def rotationPolls : List Poll :=
  [{ clock := 1000, file := some { ino := 11, content := ascii "channel one\n" },
     openFault := false },
   { clock := 1200, file := some { ino := 12, content := ascii "config changed\n" },
     openFault := false }]

/-! ### The health handler (internal/server/health.go) -/

/-- Go `server.RuntimeSnapshot`; a nil `LastPushTime` is `none`. -/
structure RuntimeSnapshot where
  QueueDepth : Int
  EventsReceived : Int
  EventsDropped : Int
  LastPushTime : Option Int
  LastPushStatus : String
deriving DecidableEq

/-- Go `db.HealthStats`, as `Manager.Stats` returns it. -/
structure HealthStats where
  DBStatus : String
  DBSizeBytes : Int
  WALSize : Int
deriving DecidableEq

/-- Go `server.HealthResponse`. -/
structure HealthResponse where
  Status : String
  UptimeSeconds : Int
  Version : String
  DBStatus : String
  DBSizeBytes : Int
  WALSizeBytes : Int
  QueueDepth : Int
  EventsReceived : Int
  EventsDropped : Int
  LastPushTime : Option Int
  LastPushStatus : String
  UnsyncedCount : Int
  GeneratedAt : String
  Warnings : List String
deriving DecidableEq

/-- The fields of `server.HealthHandler` that `ServeHTTP` computes with. -/
structure HealthHandler where
  version : String
  pushDisabled : Bool
deriving DecidableEq

/-- The JSON values a health response is made of. -/
inductive JSONValue where
  | null
  | number (n : Int)
  | text (s : String)
  | texts (xs : List String)
deriving DecidableEq

/-- The JSON object `encoding/json` writes for a `HealthResponse`, by its
struct tags: one member per field, in order; a nil pointer is written as null,
and the field tagged `omitempty` is left out when it is empty. -/
def HealthResponse.encode (r : HealthResponse) : List (String × JSONValue) :=
  [("status", .text r.Status), ("uptime_seconds", .number r.UptimeSeconds),
   ("version", .text r.Version), ("db_status", .text r.DBStatus),
   ("db_size_bytes", .number r.DBSizeBytes), ("wal_size_bytes", .number r.WALSizeBytes),
   ("queue_depth", .number r.QueueDepth), ("events_received", .number r.EventsReceived),
   ("events_dropped", .number r.EventsDropped),
   ("last_push_time", match r.LastPushTime with
                      | none => .null
                      | some t => .number t),
   ("last_push_status", .text r.LastPushStatus), ("unsynced_count", .number r.UnsyncedCount),
   ("generated_at", .text r.GeneratedAt)] ++
  (if r.Warnings = [] then [] else [("warnings", .texts r.Warnings)])

/-- The value `ServeHTTP` builds before it encodes it. `snapshot`, `dbStats`
and `unsynced` are what `Snapshot()`, `Stats()` and `UnsyncedCount` return,
`uptimeSeconds` is `int64(time.Since(h.startTime).Seconds())` and
`generatedAt` the formatted clock. -/
def HealthHandler.response (h : HealthHandler) (snapshot : RuntimeSnapshot)
    (dbStats : HealthStats) (unsynced : Except String Int) (uptimeSeconds : Int)
    (generatedAt : String) : HealthResponse :=
  let resp : HealthResponse :=
    { Status := "ok", UptimeSeconds := uptimeSeconds, Version := h.version,
      DBStatus := dbStats.DBStatus, DBSizeBytes := dbStats.DBSizeBytes,
      WALSizeBytes := dbStats.WALSize, QueueDepth := snapshot.QueueDepth,
      EventsReceived := snapshot.EventsReceived, EventsDropped := snapshot.EventsDropped,
      LastPushTime := snapshot.LastPushTime, LastPushStatus := snapshot.LastPushStatus,
      UnsyncedCount := match unsynced with
                       | .ok n => n
                       | .error _ => 0,
      GeneratedAt := generatedAt, Warnings := [] }
  let resp1 : HealthResponse :=
    if h.pushDisabled ∧ resp.LastPushStatus = "" then { resp with LastPushStatus := "disabled" }
    else resp
  let resp2 : HealthResponse :=
    match unsynced with
    | .error _ =>
      { resp1 with Status := "degraded",
                   Warnings := resp1.Warnings ++ ["unsynced_count_unavailable"],
                   UnsyncedCount := 0 }
    | .ok _ => resp1
  if resp2.DBStatus ≠ "ok" then { resp2 with Status := "degraded" } else resp2

/-- Embedding of `HealthHandler.ServeHTTP`: the status code written and the
JSON object of the body. -/
def HealthHandler.ServeHTTP (h : HealthHandler) (snapshot : RuntimeSnapshot)
    (dbStats : HealthStats) (unsynced : Except String Int) (uptimeSeconds : Int)
    (generatedAt : String) : Int × List (String × JSONValue) :=
  (200, (h.response snapshot dbStats unsynced uptimeSeconds generatedAt).encode)

/-- The keys of a JSON object. -/
def jsonKeys (obj : List (String × JSONValue)) : List String := obj.map Prod.fst

/-- The keys the health contract names apart from `warnings`. -/
def healthKeys : List String :=
  ["status", "uptime_seconds", "version", "db_status", "db_size_bytes", "wal_size_bytes",
   "queue_depth", "events_received", "events_dropped", "last_push_time", "last_push_status",
   "unsynced_count", "generated_at"]

/-- The handler of `TestHealthAlwaysReturnsContract`. -/
def testHealthHandler : HealthHandler := { version := "test-version", pushDisabled := true }

/-- The snapshot of `staticSnapshot` in health_test.go. -/
def staticSnapshot : RuntimeSnapshot :=
  { QueueDepth := 0, EventsReceived := 0, EventsDropped := 0, LastPushTime := none,
    LastPushStatus := "disabled" }

/-- With the item of `ev` appended after a comma, the body of `b` would have at
least `cap` bytes: the batch was closed at most one byte early. -/
def NearFull (enc : item → Except String Bytes) (cap : Int) (b : batch) (ev : PushEvent) : Prop :=
  cap ≤ ((b.body.length : Nat) : Int) + 1 + itemLen enc ev

/-- What the loop of `buildBatches` keeps true of the batches closed so far:
each one was nearly full for the first event of the next, the last one for the
first event of the current batch, and when the current batch is empty the last
one has at least `cap` bytes. -/
structure GreedyInv (enc : item → Except String Bytes) (cap : Int) (st : builder) : Prop where
  chain : List.Chain' (fun b1 b2 => ∀ ev ∈ b2.events.head?, NearFull enc cap b1 ev) st.out
  last : ∀ b ∈ st.out.getLast?, ∀ ev ∈ st.curEvents.head?, NearFull enc cap b ev
  closed : st.curEvents = [] → ∀ b ∈ st.out.getLast?, cap ≤ ((b.body.length : Nat) : Int)

/-- The pusher the program builds: `New(dbm, url, 5*1024*1024)`, with 5 attempts
and a base backoff of 500 ms. -/
def defaultPusher : Pusher := New "http://push.local/v1/ingest" (5 * 1024 * 1024)

/-- A receiver that answers the first three requests with status 201, a
transport error and status 503, and every later one with status 200; nothing
else in the environment fails. -/
def falteringEnv : Env :=
  { constEnv 200 with
    respond := fun i =>
      match i with
      | 0 => .status 201
      | 1 => .transportError
      | 2 => .status 503
      | _ => .status 200 }

/-- An environment in which `http.NewRequestWithContext` fails, as it does for
an endpoint that does not parse as a URL, while the receiver would answer every
request with status 200. -/
def unparsedEnv : Env := { constEnv 200 with requestFault := true }

/-- The trace of `sendWithRetry` after four failed attempts of the default
pusher against a receiver that answers 500: four requests, each followed by its
backoff sleep. -/
def fourFailures : List Action :=
  (sendLoop (constEnv 500) defaultPusher emptyEnvelope 4 0 none []).2

/-! ## Part 2. Theorems -/

/-! ### Serialization lemmas -/

theorem baseEnvelope_eq : baseEnvelope = 13 := by decide

theorem length_joinComma_snoc (parts : List Bytes) (x : Bytes) :
    (joinComma (parts ++ [x])).length =
      (joinComma parts).length + x.length + (if parts = [] then 0 else 1) := by
  induction parts with
  | nil => simp [joinComma]
  | cons p rest ih =>
    cases rest with
    | nil => simp [joinComma]; omega
    | cons q rest2 =>
      have h1 : (p :: q :: rest2) ++ [x] = p :: q :: (rest2 ++ [x]) := rfl
      have h2 : (q :: rest2) ++ [x] = q :: (rest2 ++ [x]) := rfl
      rw [h1]
      simp only [joinComma, List.length_append, List.length_cons]
      rw [← h2, ih]
      simp
      omega

theorem marshalAll_snoc (enc : item → Except String Bytes) (items : List item) (it : item)
    (parts : List Bytes) (bs : Bytes)
    (h1 : marshalAll enc items = .ok parts) (h2 : enc it = .ok bs) :
    marshalAll enc (items ++ [it]) = .ok (parts ++ [bs]) := by
  induction items generalizing parts with
  | nil =>
    simp only [marshalAll] at h1
    cases h1
    simp [marshalAll, h2]
  | cons a rest ih =>
    simp only [marshalAll, List.cons_append] at h1 ⊢
    cases ha : enc a with
    | error e => simp [ha] at h1
    | ok b =>
      simp only [ha] at h1 ⊢
      cases hr : marshalAll enc rest with
      | error e => simp [hr] at h1
      | ok more =>
        simp only [hr] at h1
        cases h1
        simp [ih more hr]

theorem marshalAll_length (enc : item → Except String Bytes) (items : List item)
    (parts : List Bytes) (h : marshalAll enc items = .ok parts) :
    parts.length = items.length := by
  induction items generalizing parts with
  | nil => simp only [marshalAll] at h; cases h; rfl
  | cons a rest ih =>
    simp only [marshalAll] at h
    cases ha : enc a with
    | error e => simp [ha] at h
    | ok b =>
      simp only [ha] at h
      cases hr : marshalAll enc rest with
      | error e => simp [hr] at h
      | ok more =>
        simp only [hr] at h
        cases h
        simp [ih more hr]

theorem length_envelope (parts : List Bytes) :
    (((envelopeOpen ++ joinComma parts ++ envelopeClose).length : Nat) : Int) =
      baseEnvelope + ((joinComma parts).length : Nat) := by
  simp only [baseEnvelope, List.length_append]
  push_cast
  ring

/-! ### The loop invariant of `buildBatches` -/

theorem builderInv_init (enc : item → Except String Bytes) (cap : Int) :
    BuilderInv enc cap [] builder.init where
  concat := rfl
  nonempty := by intro b hb; cases hb
  body := by intro b hb; cases hb
  fits := by intro b hb; cases hb
  items := rfl
  size := ⟨[], rfl, by simp [builder.init, joinComma], by simp [builder.init, joinComma],
    by simp [builder.init, joinComma]⟩
  curFits := by intro h; simp [builder.init] at h
  emptySize := fun _ => rfl

theorem flush_inv (enc : item → Except String Bytes) (cap : Int) (done : List PushEvent)
    (st st1 : builder) (hinv : BuilderInv enc cap done st) (h : flush enc st = .ok st1) :
    BuilderInv enc cap done st1 ∧ st1.curEvents = [] ∧ (st.curItems ≠ [] → st1.out ≠ []) := by
  unfold flush at h
  by_cases h0 : st.curItems.length = 0
  · rw [if_pos h0] at h
    cases h
    refine ⟨hinv, ?_, ?_⟩
    · have hi := hinv.items
      have : (st.curEvents.map toItem).length = 0 := by rw [← hi]; exact h0
      simpa using this
    · intro hne
      exact absurd (List.length_eq_zero.mp h0) hne
  · rw [if_neg h0] at h
    obtain ⟨parts, hparts, hsize, -, -⟩ := hinv.size
    simp only [marshalEnvelope, hparts] at h
    cases h
    have hlen : st.curEvents.length = st.curItems.length := by
      rw [hinv.items]; simp
    refine ⟨?_, rfl, fun _ => by simp⟩
    constructor
    · simp only [List.map_append, List.flatten_append, List.map_cons, List.map_nil,
        List.flatten_cons, List.flatten_nil, List.append_nil]
      exact hinv.concat
    · intro b hb
      rcases List.mem_append.mp hb with hb | hb
      · exact hinv.nonempty b hb
      · simp only [List.mem_singleton] at hb
        subst hb
        intro hnil
        simp only at hnil
        rw [hnil] at hlen
        exact h0 hlen.symm
    · intro b hb
      rcases List.mem_append.mp hb with hb | hb
      · exact hinv.body b hb
      · simp only [List.mem_singleton] at hb
        subst hb
        simp only [marshalEnvelope, ← hinv.items, hparts]
    · intro b hb h2
      rcases List.mem_append.mp hb with hb | hb
      · exact hinv.fits b hb h2
      · simp only [List.mem_singleton] at hb
        subst hb
        simp only at h2 ⊢
        rw [length_envelope]
        have := hinv.curFits (by omega)
        omega
    · rfl
    · exact ⟨[], rfl, by simp [joinComma], by simp [joinComma], by simp [joinComma]⟩
    · intro h2; simp at h2
    · intro _; rfl

theorem push_inv (enc : item → Except String Bytes) (cap : Int) (done : List PushEvent)
    (st1 : builder) (ev : PushEvent) (bs : Bytes) (add : Int)
    (hinv : BuilderInv enc cap done st1) (hbs : enc (toItem ev) = .ok bs)
    (hlo : ((bs.length : Nat) : Int) + (if st1.curItems = [] then 0 else 1) ≤ add)
    (hhi : add ≤ ((bs.length : Nat) : Int) + 1)
    (hex : st1.out = [] → add = ((bs.length : Nat) : Int) + (if st1.curItems = [] then 0 else 1))
    (hfit : st1.curItems ≠ [] → st1.curSize + add ≤ cap) :
    BuilderInv enc cap (done ++ [ev]) (st1.push ev add) := by
  unfold builder.push
  obtain ⟨parts, hparts, hsz1, hsz2, hsz3⟩ := hinv.size
  have hpl := marshalAll_length enc _ _ hparts
  have hpe : (parts = []) ↔ (st1.curItems = []) := by
    rw [← List.length_eq_zero, ← List.length_eq_zero (l := st1.curItems), hpl]
  have hjl := length_joinComma_snoc parts bs
  constructor
  · simp only
    rw [← List.append_assoc, hinv.concat]
  · exact hinv.nonempty
  · exact hinv.body
  · exact hinv.fits
  · simp only [List.map_append, List.map_cons, List.map_nil, hinv.items]
  · refine ⟨parts ++ [bs], marshalAll_snoc enc _ _ _ _ hparts hbs, ?_⟩
    have hes := hinv.emptySize
    simp only
    by_cases hc : st1.curItems = []
    · have hp : parts = [] := hpe.mpr hc
      subst hp
      have hj : (joinComma ([] : List Bytes)).length = 0 := rfl
      simp only [if_true, Nat.add_zero] at hjl
      simp only [hc, if_true] at hlo hex
      have h0 := hes hc
      rw [hjl, hj]
      refine ⟨by push_cast; omega, by push_cast; omega, fun ho => ?_⟩
      have h4 := hex ho
      push_cast
      omega
    · have hp : ¬ parts = [] := fun h => hc (hpe.mp h)
      simp only [hp, if_false] at hjl
      simp only [hc, if_false] at hlo hex
      rw [hjl]
      refine ⟨by push_cast; omega, by push_cast; omega, fun ho => ?_⟩
      have h3 := hsz3 ho
      have h4 := hex ho
      push_cast
      omega
  · intro h2
    simp only [List.length_append, List.length_singleton] at h2
    simp only
    apply hfit
    intro hc
    rw [hc] at h2
    simp at h2
  · intro hc
    simp at hc

theorem batchStep_inv (enc : item → Except String Bytes) (cap : Int) (done : List PushEvent)
    (st st1 : builder) (ev : PushEvent) (hinv : BuilderInv enc cap done st)
    (h : batchStep enc cap st ev = .ok st1) :
    BuilderInv enc cap (done ++ [ev]) st1 := by
  unfold batchStep at h
  cases hbs : enc (toItem ev) with
  | error e => simp [hbs] at h
  | ok bs =>
    simp only [hbs] at h
    have key : ∀ (s1 : builder) (add : Int),
        BuilderInv enc cap (done ++ [ev]) (s1.push ev add) →
        (if (s1.push ev add).curItems.length = 1 ∧ (s1.push ev add).curSize > cap then
            flush enc (s1.push ev add)
          else .ok (s1.push ev add)) = .ok st1 →
        BuilderInv enc cap (done ++ [ev]) st1 := by
      intro s1 add hi hres
      split at hres
      · exact (flush_inv enc cap _ _ _ hi hres).1
      · cases hres
        exact hi
    by_cases hpos : st.curItems.length > 0
    · have hne : st.curItems ≠ [] := by
        intro hc; rw [hc] at hpos; simp at hpos
      simp only [hpos, if_true, true_and] at h
      by_cases hov : st.curSize + ((bs.length : Int) + 1) > cap
      · rw [if_pos hov] at h
        cases hf : flush enc st with
        | error e => simp [hf] at h
        | ok s1 =>
          simp only [hf] at h
          obtain ⟨hi1, hce, hout⟩ := flush_inv enc cap done st s1 hinv hf
          have hci : s1.curItems = [] := by rw [hi1.items, hce]; rfl
          refine key s1 _ (push_inv enc cap done s1 ev bs _ hi1 hbs ?_ ?_ ?_ ?_) h
          · simp [hci]
          · simp
          · intro ho; exact absurd ho (hout hne)
          · intro hc; exact absurd hci hc
      · rw [if_neg hov] at h
        simp only at h
        refine key st _ (push_inv enc cap done st ev bs _ hinv hbs ?_ ?_ ?_ ?_) h
        · simp [hne]
        · simp
        · intro _; simp [hne]
        · intro _; omega
    · have he : st.curItems = [] := by
        cases hl : st.curItems with
        | nil => rfl
        | cons a l => rw [hl] at hpos; simp at hpos
      simp only [hpos, if_false, false_and] at h
      refine key st _ (push_inv enc cap done st ev bs _ hinv hbs ?_ ?_ ?_ ?_) h
      · simp [he]
      · simp
      · intro _; simp [he]
      · intro hc; exact absurd he hc

theorem batchLoop_inv (enc : item → Except String Bytes) (cap : Int) (rest : List PushEvent) :
    ∀ (done : List PushEvent) (st st1 : builder), BuilderInv enc cap done st →
      batchLoop enc cap st rest = .ok st1 → BuilderInv enc cap (done ++ rest) st1 := by
  induction rest with
  | nil =>
    intro done st st1 hinv h
    simp only [batchLoop] at h
    cases h
    simpa using hinv
  | cons ev rest ih =>
    intro done st st1 hinv h
    simp only [batchLoop] at h
    cases hs : batchStep enc cap st ev with
    | error e => simp [hs] at h
    | ok s1 =>
      simp only [hs] at h
      have := ih (done ++ [ev]) s1 st1 (batchStep_inv enc cap done st s1 ev hinv hs) h
      simpa using this

/-- Everything the invariant says about the result of `buildBatches`. -/
theorem buildBatches_spec (enc : item → Except String Bytes) (cap : Int)
    (events : List PushEvent) (out : List batch) (h : buildBatches enc cap events = .ok out) :
    (out.map batch.events).flatten = events ∧
    (∀ b ∈ out, b.events ≠ []) ∧
    (∀ b ∈ out, marshalEnvelope enc (b.events.map toItem) = .ok b.body) ∧
    (∀ b ∈ out, 2 ≤ b.events.length → ((b.body.length : Nat) : Int) ≤ cap) := by
  unfold buildBatches at h
  cases hl : batchLoop enc cap builder.init events with
  | error e => simp [hl] at h
  | ok st =>
    simp only [hl] at h
    cases hf : flush enc st with
    | error e => simp [hf] at h
    | ok s1 =>
      simp only [hf] at h
      cases h
      have hi := batchLoop_inv enc cap events [] _ st (builderInv_init enc cap) hl
      simp only [List.nil_append] at hi
      obtain ⟨hi1, hce, -⟩ := flush_inv enc cap events st s1 hi hf
      refine ⟨?_, hi1.nonempty, hi1.body, hi1.fits⟩
      have := hi1.concat
      rw [hce, List.append_nil] at this
      exact this

/-! ### Sizes of serialized envelopes -/

theorem length_joinComma (parts : List Bytes) :
    (joinComma parts).length = (parts.map List.length).sum + (parts.length - 1) := by
  induction parts with
  | nil => rfl
  | cons p rest ih =>
    cases rest with
    | nil => simp [joinComma]
    | cons q rest2 =>
      simp only [joinComma, List.length_append, List.length_cons] at ih ⊢
      rw [ih]
      simp only [List.map_cons, List.sum_cons, List.length_cons]
      omega

theorem marshalAll_map_sum (enc : item → Except String Bytes) (evs : List PushEvent) :
    ∀ parts, marshalAll enc (evs.map toItem) = .ok parts →
      (((parts.map List.length).sum : Nat) : Int) = (evs.map (itemLen enc)).sum := by
  induction evs with
  | nil =>
    intro parts h
    simp only [List.map_nil, marshalAll] at h
    cases h
    simp
  | cons ev rest ih =>
    intro parts h
    simp only [List.map_cons, marshalAll] at h
    cases ha : enc (toItem ev) with
    | error e => simp [ha] at h
    | ok b =>
      simp only [ha] at h
      cases hr : marshalAll enc (rest.map toItem) with
      | error e => simp [hr] at h
      | ok more =>
        simp only [hr] at h
        cases h
        have := ih more hr
        simp only [List.map_cons, List.sum_cons]
        rw [Nat.cast_add, this]
        simp only [itemLen, ha]

/-- The body of a marshalled envelope has the length `envelopeLen` predicts. -/
theorem length_marshalEnvelope (enc : item → Except String Bytes) (evs : List PushEvent)
    (body : Bytes) (h : marshalEnvelope enc (evs.map toItem) = .ok body) :
    ((body.length : Nat) : Int) = envelopeLen enc evs := by
  unfold marshalEnvelope at h
  cases hp : marshalAll enc (evs.map toItem) with
  | error e => simp [hp] at h
  | ok parts =>
    simp only [hp] at h
    cases h
    have hl := marshalAll_length enc _ _ hp
    have hs := marshalAll_map_sum enc evs parts hp
    rw [length_envelope, length_joinComma, envelopeLen, ← hs, hl]
    simp only [List.length_map]
    push_cast
    ring

theorem marshalAll_mem (enc : item → Except String Bytes) (items : List item) :
    ∀ parts, marshalAll enc items = .ok parts → ∀ it ∈ items, ∀ bs, enc it = .ok bs →
      bs ∈ parts := by
  induction items with
  | nil => intro parts _ it hit; cases hit
  | cons a rest ih =>
    intro parts h it hit bs hbs
    simp only [marshalAll] at h
    cases ha : enc a with
    | error e => simp [ha] at h
    | ok b =>
      simp only [ha] at h
      cases hr : marshalAll enc rest with
      | error e => simp [hr] at h
      | ok more =>
        simp only [hr] at h
        cases h
        rcases List.mem_cons.mp hit with hit | hit
        · subst hit
          rw [ha] at hbs
          cases hbs
          exact List.mem_cons_self _ _
        · exact List.mem_cons_of_mem _ (ih more hr it hit bs hbs)

theorem length_le_joinComma (parts : List Bytes) (x : Bytes) (hx : x ∈ parts) :
    x.length ≤ (joinComma parts).length := by
  rw [length_joinComma]
  have := List.single_le_sum (l := parts.map List.length) (fun _ _ => Nat.zero_le _)
    x.length (List.mem_map_of_mem _ hx)
  omega

/-- An envelope is longer than each of the items it holds. -/
theorem item_lt_envelope (enc : item → Except String Bytes) (evs : List PushEvent)
    (body : Bytes) (h : marshalEnvelope enc (evs.map toItem) = .ok body)
    (ev : PushEvent) (hev : ev ∈ evs) (bs : Bytes) (hbs : enc (toItem ev) = .ok bs) :
    bs.length < body.length := by
  unfold marshalEnvelope at h
  cases hp : marshalAll enc (evs.map toItem) with
  | error e => simp [hp] at h
  | ok parts =>
    simp only [hp] at h
    cases h
    have hm := marshalAll_mem enc _ parts hp (toItem ev) (List.mem_map_of_mem _ hev) bs hbs
    have := length_le_joinComma parts bs hm
    have hb := length_envelope parts
    rw [baseEnvelope_eq] at hb
    omega

/-! ### `buildBatches` fails only when an item fails to marshal -/

theorem flush_ok (enc : item → Except String Bytes) (st : builder) (parts : List Bytes)
    (h : marshalAll enc st.curItems = .ok parts) : ∃ st1, flush enc st = .ok st1 := by
  unfold flush
  by_cases h0 : st.curItems.length = 0
  · exact ⟨st, by rw [if_pos h0]⟩
  · rw [if_neg h0]
    simp only [marshalEnvelope, h]
    exact ⟨_, rfl⟩

theorem batchStep_ok (enc : item → Except String Bytes) (cap : Int) (done : List PushEvent)
    (st : builder) (ev : PushEvent) (bs : Bytes) (hinv : BuilderInv enc cap done st)
    (hbs : enc (toItem ev) = .ok bs) : ∃ st1, batchStep enc cap st ev = .ok st1 := by
  unfold batchStep
  simp only [hbs]
  have key : ∀ (s1 : builder) (add : Int), BuilderInv enc cap done s1 →
      ∃ st1, (if (s1.push ev add).curItems.length = 1 ∧ (s1.push ev add).curSize > cap then
            flush enc (s1.push ev add)
          else .ok (s1.push ev add)) = .ok st1 := by
    intro s1 add hi
    obtain ⟨parts, hparts, -⟩ := hi.size
    split
    · exact flush_ok enc _ (parts ++ [bs]) (marshalAll_snoc enc _ _ _ _ hparts hbs)
    · exact ⟨_, rfl⟩
  by_cases hc : st.curItems.length > 0 ∧ st.curSize +
      (if st.curItems.length > 0 then ((bs.length : Nat) : Int) + 1 else ((bs.length : Nat) : Int))
        > cap
  · obtain ⟨parts, hparts, -⟩ := hinv.size
    obtain ⟨s1, hs1⟩ := flush_ok enc st parts hparts
    rw [if_pos hc]
    simp only [hs1]
    exact key s1 _ (flush_inv enc cap done st s1 hinv hs1).1
  · rw [if_neg hc]
    exact key st _ hinv

theorem batchLoop_ok (enc : item → Except String Bytes) (cap : Int) (rest : List PushEvent) :
    ∀ (done : List PushEvent) (st : builder), BuilderInv enc cap done st →
      (∀ ev ∈ rest, ∃ bs, enc (toItem ev) = .ok bs) →
      ∃ st1, batchLoop enc cap st rest = .ok st1 := by
  induction rest with
  | nil => intro done st _ _; exact ⟨st, rfl⟩
  | cons ev rest ih =>
    intro done st hinv hall
    obtain ⟨bs, hbs⟩ := hall ev (List.mem_cons_self _ _)
    obtain ⟨s1, hs1⟩ := batchStep_ok enc cap done st ev bs hinv hbs
    simp only [batchLoop, hs1]
    exact ih (done ++ [ev]) s1 (batchStep_inv enc cap done st s1 ev hinv hs1)
      (fun e he => hall e (List.mem_cons_of_mem _ he))

/-- When every item marshals, `buildBatches` returns batches and no error. -/
theorem buildBatches_ok (enc : item → Except String Bytes) (cap : Int) (events : List PushEvent)
    (hall : ∀ ev ∈ events, ∃ bs, enc (toItem ev) = .ok bs) :
    ∃ out, buildBatches enc cap events = .ok out := by
  obtain ⟨st, hst⟩ := batchLoop_ok enc cap events [] builder.init (builderInv_init enc cap) hall
  have hi := batchLoop_inv enc cap events [] _ st (builderInv_init enc cap) hst
  obtain ⟨parts, hparts, -⟩ := hi.size
  obtain ⟨s1, hs1⟩ := flush_ok enc st parts hparts
  exact ⟨s1.out, by simp only [buildBatches, hst, hs1]⟩

theorem marshalAll_ok_mem (enc : item → Except String Bytes) (items : List item) :
    ∀ parts, marshalAll enc items = .ok parts → ∀ it ∈ items, ∃ bs, enc it = .ok bs := by
  induction items with
  | nil => intro parts _ it hit; cases hit
  | cons a rest ih =>
    intro parts h it hit
    simp only [marshalAll] at h
    cases ha : enc a with
    | error e => simp [ha] at h
    | ok b =>
      simp only [ha] at h
      cases hr : marshalAll enc rest with
      | error e => simp [hr] at h
      | ok more =>
        rcases List.mem_cons.mp hit with hit | hit
        · subst hit; exact ⟨b, ha⟩
        · exact ih more hr it hit

theorem marshalEnvelope_ok_mem (enc : item → Except String Bytes) (evs : List PushEvent)
    (body : Bytes) (h : marshalEnvelope enc (evs.map toItem) = .ok body) :
    ∀ ev ∈ evs, ∃ bs, enc (toItem ev) = .ok bs := by
  intro ev hev
  unfold marshalEnvelope at h
  cases hp : marshalAll enc (evs.map toItem) with
  | error e => simp [hp] at h
  | ok parts => exact marshalAll_ok_mem enc _ parts hp _ (List.mem_map_of_mem _ hev)

/-! ### A list that fits in one envelope is never split -/

theorem itemLen_nonneg (enc : item → Except String Bytes) (ev : PushEvent) :
    0 ≤ itemLen enc ev := by
  unfold itemLen
  split
  · exact Int.natCast_nonneg _
  · exact le_refl _

theorem envelopeLen_snoc (enc : item → Except String Bytes) (l : List PushEvent)
    (ev : PushEvent) :
    envelopeLen enc (l ++ [ev]) =
      envelopeLen enc l + itemLen enc ev + (if l = [] then 0 else 1) := by
  unfold envelopeLen
  cases l with
  | nil => simp
  | cons a rest =>
    simp only [List.map_append, List.sum_append, List.map_cons, List.map_nil, List.sum_cons,
      List.sum_nil, List.length_append, List.length_cons, List.length_nil]
    simp only [Nat.add_sub_cancel, reduceCtorEq, if_false]
    push_cast
    ring

theorem envelopeLen_mono (enc : item → Except String Bytes) (l1 l2 : List PushEvent) :
    envelopeLen enc l1 ≤ envelopeLen enc (l1 ++ l2) := by
  unfold envelopeLen
  have h : 0 ≤ (l2.map (itemLen enc)).sum :=
    List.sum_nonneg (fun x hx => by
      obtain ⟨ev, -, rfl⟩ := List.mem_map.mp hx
      exact itemLen_nonneg enc ev)
  simp only [List.map_append, List.sum_append, List.length_append]
  have h2 : (((l1.length - 1 : Nat) : Int)) ≤ ((l1.length + l2.length - 1 : Nat) : Int) := by
    exact_mod_cast Nat.sub_le_sub_right (Nat.le_add_right _ _) 1
  linarith

theorem curSize_eq_envelopeLen (enc : item → Except String Bytes) (cap : Int)
    (done : List PushEvent) (st : builder) (hinv : BuilderInv enc cap done st)
    (ho : st.out = []) : st.curSize = envelopeLen enc st.curEvents := by
  obtain ⟨parts, hparts, -, -, hex⟩ := hinv.size
  rw [hex ho, ← length_envelope]
  apply length_marshalEnvelope
  rw [← hinv.items]
  simp only [marshalEnvelope, hparts]

theorem batchLoop_fits (enc : item → Except String Bytes) (cap : Int) (rest : List PushEvent) :
    ∀ (done : List PushEvent) (st : builder), BuilderInv enc cap done st → st.out = [] →
      (∀ ev ∈ rest, ∃ bs, enc (toItem ev) = .ok bs) →
      envelopeLen enc (st.curEvents ++ rest) ≤ cap →
      ∃ st1, batchLoop enc cap st rest = .ok st1 ∧ st1.out = [] ∧
        st1.curEvents = st.curEvents ++ rest := by
  induction rest with
  | nil => intro done st _ ho _ _; exact ⟨st, rfl, ho, by simp⟩
  | cons ev rest ih =>
    intro done st hinv ho hall hfit
    obtain ⟨bs, hbs⟩ := hall ev (List.mem_cons_self _ _)
    have hcs := curSize_eq_envelopeLen enc cap done st hinv ho
    have hsn := envelopeLen_snoc enc st.curEvents ev
    have hmo := envelopeLen_mono enc (st.curEvents ++ [ev]) rest
    rw [List.append_assoc, List.singleton_append] at hmo
    have hil : itemLen enc ev = ((bs.length : Nat) : Int) := by simp only [itemLen, hbs]
    have hlen : st.curItems.length = st.curEvents.length := by rw [hinv.items]; simp
    have hstep : batchStep enc cap st ev =
        .ok (st.push ev (if st.curItems.length > 0 then ((bs.length : Nat) : Int) + 1
          else ((bs.length : Nat) : Int))) := by
      unfold batchStep
      simp only [hbs]
      by_cases hpos : st.curItems.length > 0
      · have hne : ¬ st.curEvents = [] := by
          intro hc; rw [hlen, hc] at hpos; simp at hpos
        simp only [hne, if_false] at hsn
        simp only [hpos, if_true, true_and]
        have h1 : ¬ (st.curSize + (((bs.length : Nat) : Int) + 1) > cap) := by omega
        rw [if_neg h1]
        simp only
        rw [if_neg]
        simp only [builder.push]
        intro hc
        exact h1 hc.2
      · have he : st.curEvents = [] := by
          cases hl : st.curEvents with
          | nil => rfl
          | cons a l => rw [hlen, hl] at hpos; simp at hpos
        have hif : (if st.curEvents = [] then (0 : Int) else 1) = 0 := by simp [he]
        rw [hif] at hsn
        simp only [hpos, if_false, false_and]
        rw [if_neg]
        simp only [builder.push]
        intro hc
        have := hc.2
        omega
    have hi1 := batchStep_inv enc cap done st _ ev hinv hstep
    have hfit1 : envelopeLen enc ((st.push ev (if st.curItems.length > 0 then
        ((bs.length : Nat) : Int) + 1 else ((bs.length : Nat) : Int))).curEvents ++ rest) ≤ cap := by
      simp only [builder.push, List.append_assoc, List.singleton_append]
      exact hfit
    obtain ⟨st1, h1, h2, h3⟩ := ih (done ++ [ev]) _ hi1 ho
      (fun e he => hall e (List.mem_cons_of_mem _ he)) hfit1
    refine ⟨st1, ?_, h2, ?_⟩
    · simp only [batchLoop, hstep]
      exact h1
    · rw [h3]
      simp [builder.push]

/-! ### Claims about `buildBatches` -/

/-- C1: whenever `buildBatches` succeeds, the batches it returns are a
contiguous partition of the input: no batch is empty, and the events of the
batches, concatenated in order, are exactly the input list. -/
theorem buildBatches_partition (enc : item → Except String Bytes) (cap : Int)
    (events : List PushEvent) (out : List batch)
    (h : buildBatches enc cap events = .ok out) :
    (∀ b ∈ out, b.events ≠ []) ∧ (out.map batch.events).flatten = events :=
  ⟨(buildBatches_spec enc cap events out h).2.1, (buildBatches_spec enc cap events out h).1⟩

/-- Witness of C1: three events under a cap of 80 bytes. -/
theorem buildBatches_partition_witness :
    buildBatches plainMarshal 80 threeEvents = .ok threeBatches ∧
    (∀ b ∈ threeBatches, b.events ≠ []) ∧
    (threeBatches.map batch.events).flatten = threeEvents :=
  ⟨by decide!, buildBatches_partition plainMarshal 80 threeEvents threeBatches (by decide!)⟩

/-- C2: every batch returned by `buildBatches` carries as body the envelope
of its own events (the items joined by single commas between `{"events":[`
and `]}`); a batch of two or more events has a body of at most
`maxPayloadBytes` bytes, so a batch whose body exceeds the cap holds exactly
one event. -/
theorem buildBatches_multi_within_cap (enc : item → Except String Bytes) (cap : Int)
    (events : List PushEvent) (out : List batch)
    (h : buildBatches enc cap events = .ok out) (b : batch) (hb : b ∈ out) :
    marshalEnvelope enc (b.events.map toItem) = .ok b.body ∧
    (2 ≤ b.events.length → ((b.body.length : Nat) : Int) ≤ cap) ∧
    (cap < ((b.body.length : Nat) : Int) → b.events.length = 1) := by
  obtain ⟨-, hne, hbody, hfit⟩ := buildBatches_spec enc cap events out h
  refine ⟨hbody b hb, hfit b hb, fun hbig => ?_⟩
  have h1 : b.events.length ≠ 0 := fun h0 => hne b hb (List.length_eq_zero.mp h0)
  by_contra h2
  have := hfit b hb (by omega)
  omega

/-- Witness of C2: the first batch of `threeBatches` holds two events in 77 bytes. -/
theorem buildBatches_multi_within_cap_witness :
    buildBatches plainMarshal 80 threeEvents = .ok threeBatches ∧
    (∀ b ∈ threeBatches.head?,
      marshalEnvelope plainMarshal (b.events.map toItem) = .ok b.body ∧
      (2 ≤ b.events.length → ((b.body.length : Nat) : Int) ≤ 80) ∧
      ((80 : Int) < ((b.body.length : Nat) : Int) → b.events.length = 1)) :=
  ⟨by decide!, fun b hb =>
    buildBatches_multi_within_cap plainMarshal 80 threeEvents threeBatches (by decide!) b
      (by
        simp only [threeBatches, List.head?_cons, Option.mem_def, Option.some.injEq] at hb
        rw [← hb]
        exact List.mem_cons_self _ _)⟩

/-- C3: an event whose marshalled item alone is longer than `maxPayloadBytes`
is still emitted, and every batch that contains it contains nothing else,
whatever the rest of the input is. -/
theorem buildBatches_oversized_alone (enc : item → Except String Bytes) (cap : Int)
    (events : List PushEvent) (out : List batch)
    (h : buildBatches enc cap events = .ok out)
    (ev : PushEvent) (hev : ev ∈ events) (bs : Bytes) (hbs : enc (toItem ev) = .ok bs)
    (hbig : cap < ((bs.length : Nat) : Int)) :
    (∃ b ∈ out, b.events = [ev]) ∧ (∀ b ∈ out, ev ∈ b.events → b.events = [ev]) := by
  obtain ⟨hcat, hne, hbody, hfit⟩ := buildBatches_spec enc cap events out h
  have alone : ∀ b ∈ out, ev ∈ b.events → b.events = [ev] := by
    intro b hb hin
    have hlt := item_lt_envelope enc b.events b.body (hbody b hb) ev hin bs hbs
    have hlen : b.events.length = 1 := by
      by_contra h2
      have h1 : b.events.length ≠ 0 := fun h0 => hne b hb (List.length_eq_zero.mp h0)
      have := hfit b hb (by omega)
      omega
    obtain ⟨a, ha⟩ := List.length_eq_one.mp hlen
    rw [ha] at hin ⊢
    simp only [List.mem_singleton] at hin
    rw [hin]
  refine ⟨?_, alone⟩
  rw [← hcat] at hev
  obtain ⟨l, hl, hin⟩ := List.mem_flatten.mp hev
  obtain ⟨b, hb, rfl⟩ := List.mem_map.mp hl
  exact ⟨b, hb, alone b hb hin⟩

/-- Witness of C3: a 69-byte item between two small events, cap 60. -/
theorem buildBatches_oversized_alone_witness :
    plainMarshal (toItem bigEvent) = .ok bigItemBytes ∧
    (60 : Int) < ((bigItemBytes.length : Nat) : Int) ∧
    (∃ out, buildBatches plainMarshal 60 eventsAroundBig = .ok out ∧
      (∃ b ∈ out, b.events = [bigEvent]) ∧ (∀ b ∈ out, bigEvent ∈ b.events → b.events = [bigEvent])) :=
  ⟨by decide!, by decide!, _, rfl,
    buildBatches_oversized_alone plainMarshal 60 eventsAroundBig _ rfl bigEvent (by decide!)
      bigItemBytes (by decide!) (by decide!)⟩

/-- C4: when the single envelope around all events marshals, `buildBatches`
succeeds; it returns at least two batches if there are two or more events
and that envelope is longer than `maxPayloadBytes`, and exactly one batch if
the list is non-empty and the envelope fits in the cap. -/
theorem buildBatches_splits_iff_needed (enc : item → Except String Bytes) (cap : Int)
    (events : List PushEvent) (body : Bytes)
    (hbody : marshalEnvelope enc (events.map toItem) = .ok body) :
    ∃ out, buildBatches enc cap events = .ok out ∧
      (2 ≤ events.length → cap < ((body.length : Nat) : Int) → 2 ≤ out.length) ∧
      (events ≠ [] → ((body.length : Nat) : Int) ≤ cap → out.length = 1) := by
  have hall := marshalEnvelope_ok_mem enc events body hbody
  obtain ⟨out, hout⟩ := buildBatches_ok enc cap events hall
  obtain ⟨hcat, hne, hb, hfit⟩ := buildBatches_spec enc cap events out hout
  refine ⟨out, hout, ?_, ?_⟩
  · intro h2 hbig
    by_contra hlt
    have hle : out.length ≤ 1 := by omega
    match out, hle, hcat, hb, hfit with
    | [], _, hcat, _, _ =>
      simp only [List.map_nil, List.flatten_nil] at hcat
      rw [← hcat] at h2
      simp at h2
    | [b], _, hcat, hb, hfit =>
      simp only [List.map_cons, List.map_nil, List.flatten_cons, List.flatten_nil,
        List.append_nil] at hcat
      have h3 := hb b (List.mem_singleton_self b)
      have h4 := hfit b (List.mem_singleton_self b) (by rw [hcat]; exact h2)
      rw [hcat, hbody] at h3
      cases h3
      omega
  · intro hnonempty hfits
    have hlen := length_marshalEnvelope enc events body hbody
    obtain ⟨st, hst, hso, hsc⟩ := batchLoop_fits enc cap events [] builder.init
      (builderInv_init enc cap) rfl hall (by simp only [builder.init, List.nil_append]; omega)
    have hi := batchLoop_inv enc cap events [] _ st (builderInv_init enc cap) hst
    simp only [builder.init, List.nil_append] at hsc
    have hitems : st.curItems = events.map toItem := by rw [hi.items, hsc]
    have hflush : flush enc st = .ok
        { out := st.out ++ [{ events := st.curEvents, body := body }],
          curItems := [], curEvents := [], curSize := baseEnvelope } := by
      unfold flush
      have h0 : ¬ st.curItems.length = 0 := by
        rw [hitems, List.length_map]
        exact fun h0 => hnonempty (List.length_eq_zero.mp h0)
      rw [if_neg h0, hitems, hbody]
    have hres : buildBatches enc cap events =
        .ok (st.out ++ [{ events := st.curEvents, body := body }]) := by
      simp only [buildBatches, hst, hflush]
    rw [hout] at hres
    cases hres
    simp [hso]

/-- Witness of C4: the 24 seeded events under a cap of 600 bytes are split,
and three small events under the default cap are sent as one batch. -/
theorem buildBatches_splits_iff_needed_witness :
    (∃ body, marshalEnvelope plainMarshal (seededEvents.map toItem) = .ok body ∧
      (600 : Int) < ((body.length : Nat) : Int) ∧
      ∃ out, buildBatches plainMarshal 600 seededEvents = .ok out ∧ 2 ≤ out.length) ∧
    (∃ body, marshalEnvelope plainMarshal (threeEvents.map toItem) = .ok body ∧
      ((body.length : Nat) : Int) ≤ 5242880 ∧
      ∃ out, buildBatches plainMarshal 5242880 threeEvents = .ok out ∧ out.length = 1) := by
  refine ⟨⟨_, rfl, by decide!, ?_⟩, ⟨_, rfl, by decide!, ?_⟩⟩
  · obtain ⟨out, h1, h2, -⟩ :=
      buildBatches_splits_iff_needed plainMarshal 600 seededEvents _ rfl
    exact ⟨out, h1, h2 (by decide!) (by decide!)⟩
  · obtain ⟨out, h1, -, h3⟩ :=
      buildBatches_splits_iff_needed plainMarshal 5242880 threeEvents _ rfl
    exact ⟨out, h1, h3 (by decide!) (by decide!)⟩

/-! ### Marking rows -/

theorem idsOf_append (table : String) (e1 e2 : List PushEvent) :
    idsOf table (e1 ++ e2) = idsOf table e1 ++ idsOf table e2 := by
  simp [idsOf]

theorem rowMarked_refl {α : Type} (r : Row α) : RowMarked [] r r :=
  ⟨rfl, rfl, fun h => absurd h (List.not_mem_nil _), fun _ => rfl⟩

theorem rowMarked_markRow {α : Type} (ids : List Int) (t : Int) (r : Row α) :
    RowMarked ids r (markRow ids t r) := by
  unfold markRow
  by_cases h : r.id ∈ ids
  · rw [if_pos h]
    exact ⟨rfl, rfl, fun _ => ⟨rfl, by simp⟩, fun hn => absurd h hn⟩
  · rw [if_neg h]
    exact ⟨rfl, rfl, fun hh => absurd hh h, fun _ => rfl⟩

theorem rowMarked_trans {α : Type} (ids1 ids2 : List Int) (r1 r2 r3 : Row α)
    (h12 : RowMarked ids1 r1 r2) (h23 : RowMarked ids2 r2 r3) :
    RowMarked (ids1 ++ ids2) r1 r3 := by
  obtain ⟨hid1, hd1, hin1, hout1⟩ := h12
  obtain ⟨hid2, hd2, hin2, hout2⟩ := h23
  refine ⟨by rw [hid2, hid1], by rw [hd2, hd1], ?_, ?_⟩
  · intro hmem
    by_cases h2 : r2.id ∈ ids2
    · exact hin2 h2
    · rw [hout2 h2]
      rcases List.mem_append.mp hmem with h | h
      · exact hin1 h
      · rw [hid1] at h2
        exact absurd h h2
  · intro hmem
    have h1 : r1.id ∉ ids1 := fun h => hmem (List.mem_append_left _ h)
    have h2 : r1.id ∉ ids2 := fun h => hmem (List.mem_append_right _ h)
    have e1 := hout1 h1
    rw [hout2 (by rw [e1]; exact h2), e1]

theorem tableMarked_refl {α : Type} (t : Table α) : TableMarked [] t t :=
  ⟨rfl, id, by simp, fun r => rowMarked_refl r⟩

theorem tableMarked_mark {α : Type} (ids : List Int) (ts : Int) (t : Table α) :
    TableMarked ids t (t.mark ids ts) :=
  ⟨rfl, markRow ids ts, rfl, fun r => rowMarked_markRow ids ts r⟩

theorem tableMarked_trans {α : Type} (ids1 ids2 : List Int) (t1 t2 t3 : Table α)
    (h12 : TableMarked ids1 t1 t2) (h23 : TableMarked ids2 t2 t3) :
    TableMarked (ids1 ++ ids2) t1 t3 := by
  obtain ⟨hs1, f, hf, hr1⟩ := h12
  obtain ⟨hs2, g, hg, hr2⟩ := h23
  refine ⟨by rw [hs2, hs1], g ∘ f, by rw [hg, hf, List.map_map], fun r => ?_⟩
  exact rowMarked_trans ids1 ids2 r (f r) (g (f r)) (hr1 r) (hr2 (f r))

theorem storeMarked_refl (s : Store) : StoreMarked [] s s :=
  ⟨tableMarked_refl _, tableMarked_refl _, tableMarked_refl _⟩

theorem storeMarked_trans (e1 e2 : List PushEvent) (s1 s2 s3 : Store)
    (h12 : StoreMarked e1 s1 s2) (h23 : StoreMarked e2 s2 s3) :
    StoreMarked (e1 ++ e2) s1 s3 := by
  unfold StoreMarked at *
  simp only [idsOf_append]
  exact ⟨tableMarked_trans _ _ _ _ _ h12.1 h23.1, tableMarked_trans _ _ _ _ _ h12.2.1 h23.2.1,
    tableMarked_trans _ _ _ _ _ h12.2.2 h23.2.2⟩

theorem tableOf_literal (resolve : String → Option String) (name : String)
    (h : name ∈ eventTables) : tableOf resolve name = some name := by
  unfold tableOf
  rw [if_pos h]

/-- A name that denotes a table denotes one of the three event tables. -/
theorem tableOf_mem (resolve : String → Option String) (name table : String)
    (h : tableOf resolve name = some table) : table ∈ eventTables := by
  unfold tableOf at h
  split at h
  · cases h
    assumption
  · split at h
    · split at h
      · cases h
        assumption
      · cases h
    · cases h

theorem mem_idsFor (resolve : String → Option String) (table : String)
    (events : List PushEvent) (id : Int) :
    id ∈ idsFor resolve table events ↔
      ∃ ev ∈ events, tableOf resolve ev.TableName = some table ∧ ev.RowID = id := by
  simp [idsFor, and_assoc]

/-- On events that spell the table names as the schema does, the ids an UPDATE
reaches are the ids grouped under the literal name. -/
theorem idsFor_literal (resolve : String → Option String) (table : String)
    (events : List PushEvent) (h : ∀ ev ∈ events, ev.TableName ∈ eventTables) :
    idsFor resolve table events = idsOf table events := by
  unfold idsFor idsOf
  congr 1
  apply List.filter_congr
  intro ev hev
  rw [tableOf_literal resolve ev.TableName (h ev hev)]
  simp

theorem resolved_literal (resolve : String → Option String) (events : List PushEvent)
    (h : ∀ ev ∈ events, ev.TableName ∈ eventTables) :
    events.any (fun ev => decide (tableOf resolve ev.TableName = none)) = false := by
  rw [List.any_eq_false]
  intro ev hev
  rw [tableOf_literal resolve ev.TableName (h ev hev)]
  simp

/-- A successful `MarkEventsSynced` marks exactly the rows its events name. -/
theorem MarkEventsSynced_marked (resolve : String → Option String) (now : Int)
    (fault : Option MarkFault) (s s1 : Store)
    (events : List PushEvent) (pushedAt : Int)
    (hn : ∀ ev ∈ events, ev.TableName ∈ eventTables)
    (h : MarkEventsSynced resolve now fault s events pushedAt = .ok s1) :
    StoreMarked events s s1 := by
  unfold MarkEventsSynced at h
  rw [idsFor_literal resolve "llm_traces" events hn,
    idsFor_literal resolve "error_events" events hn,
    idsFor_literal resolve "system_metrics" events hn] at h
  split at h
  · cases h
  · split at h
    · cases h
    · split at h
      · cases h
      · simp only at h
        split at h
        · cases h
        · cases h
          unfold StoreMarked
          split
          · exact ⟨tableMarked_mark _ _ _, tableMarked_mark _ _ _, tableMarked_mark _ _ _⟩
          · exact ⟨tableMarked_mark _ _ _, tableMarked_mark _ _ _, tableMarked_mark _ _ _⟩

/-- Without a fault, `MarkEventsSynced` succeeds on events of the three tables. -/
theorem MarkEventsSynced_ok (resolve : String → Option String) (now : Int) (s : Store)
    (events : List PushEvent) (pushedAt : Int)
    (h : ∀ ev ∈ events, ev.TableName ∈ eventTables) :
    ∃ s1, MarkEventsSynced resolve now none s events pushedAt = .ok s1 := by
  unfold MarkEventsSynced
  simp only [resolved_literal resolve events h]
  simp

/-! ### `sendWithRetry` -/

theorem sendLoop_ext (env : Env) (p : Pusher) (body : Bytes) (fuel : Nat) :
    ∀ (attempt : Nat) (lastErr : Option String) (tr : List Action),
      ∃ ext, (sendLoop env p body fuel attempt lastErr tr).2 = tr ++ ext ∧ SendExt body ext ∧
        ((sendLoop env p body fuel attempt lastErr tr).1 = .ok →
          ∃ mid, ext = mid ++ [Action.request body (.status 200)]) := by
  induction fuel with
  | zero =>
    intro attempt lastErr tr
    refine ⟨[], by simp [sendLoop], fun a ha => absurd ha (List.not_mem_nil _), ?_⟩
    intro h
    simp [sendLoop] at h
  | succ n ih =>
    intro attempt lastErr tr
    unfold sendLoop
    by_cases hrf : env.requestFault = true
    · simp only [hrf, if_true]
      refine ⟨[], by simp, fun a ha => absurd ha (List.not_mem_nil _), ?_⟩
      intro h
      cases h
    · simp only [hrf]
      by_cases h200 : env.respond (requestCount tr) = .status 200
      · simp only [h200, if_true, Bool.false_eq_true, if_false]
        refine ⟨[Action.request body (.status 200)], rfl, ?_, fun _ => ⟨[], rfl⟩⟩
        intro a ha
        simp only [List.mem_singleton] at ha
        subst ha
        refine ⟨rfl, fun b r h => ?_⟩
        cases h
        rfl
      · simp only [h200, if_false, Bool.false_eq_true]
        have hreq : SendExt body [Action.request body (env.respond (requestCount tr))] := by
          intro a ha
          simp only [List.mem_singleton] at ha
          subst ha
          refine ⟨rfl, fun b r h => ?_⟩
          cases h
          rfl
        by_cases hn : maxSleep p.baseBackoff attempt + 1 ≤ 0
        · simp only [hn, if_true]
          refine ⟨_, rfl, hreq, ?_⟩
          intro h
          cases h
        · simp only [hn, if_false]
          have hext2 : ∀ d, SendExt body
              [Action.request body (env.respond (requestCount tr)), Action.sleep d] := by
            intro d a ha
            simp only [List.mem_cons, List.mem_singleton, List.not_mem_nil, or_false] at ha
            rcases ha with ha | ha
            · exact hreq a (by rw [ha]; exact List.mem_singleton_self _)
            · subst ha
              exact ⟨rfl, fun b r h => by cases h⟩
          split
          · refine ⟨_, by rw [List.append_assoc]; rfl, hext2 _, ?_⟩
            intro h
            cases h
          · obtain ⟨ext, he, hs, hok⟩ := ih (attempt + 1)
              (some (match env.respond (requestCount tr) with
                | .status code => "push status " ++ toString code
                | .transportError => "transport error"))
              (tr ++ [Action.request body (env.respond (requestCount tr))] ++
                [Action.sleep (((env.rand63 (sleepCount
                  (tr ++ [Action.request body (env.respond (requestCount tr))])) : Nat) : Int) %
                    (maxSleep p.baseBackoff attempt + 1))])
            refine ⟨[Action.request body (env.respond (requestCount tr)),
              Action.sleep (((env.rand63 (sleepCount
                  (tr ++ [Action.request body (env.respond (requestCount tr))])) : Nat) : Int) %
                    (maxSleep p.baseBackoff attempt + 1))] ++ ext, ?_, ?_, ?_⟩
            · rw [he]
              simp
            · intro a ha
              rcases List.mem_append.mp ha with ha | ha
              · exact hext2 _ a ha
              · exact hs a ha
            · intro h
              obtain ⟨mid, hmid⟩ := hok h
              exact ⟨_ ++ mid, by rw [hmid, List.append_assoc]⟩

/-- What `sendWithRetry` adds to the trace; a nil error means the last action
was a request answered with status 200. -/
theorem sendWithRetry_ext (env : Env) (p : Pusher) (body : Bytes) (tr : List Action) :
    ∃ ext, (sendWithRetry env p body tr).2 = tr ++ ext ∧ SendExt body ext ∧
      ((sendWithRetry env p body tr).1 = .ok →
        ∃ mid, ext = mid ++ [Action.request body (.status 200)]) :=
  sendLoop_ext env p body _ 0 none tr

/-- A first attempt answered with status 200 ends `sendWithRetry` at once. -/
theorem sendWithRetry_200 (env : Env) (p : Pusher) (body : Bytes) (tr : List Action)
    (hr : 1 ≤ p.maxRetries) (hf : env.requestFault = false)
    (h200 : env.respond (requestCount tr) = .status 200) :
    sendWithRetry env p body tr = (.ok, tr ++ [Action.request body (.status 200)]) := by
  unfold sendWithRetry
  obtain ⟨n, hn⟩ : ∃ n, p.maxRetries.toNat = n + 1 := ⟨p.maxRetries.toNat - 1, by omega⟩
  rw [hn]
  simp [sendLoop, hf, h200]

/-! ### The loop of `PushOnce` -/

theorem mark_split (e1 ext2 pre post : List Action) (m m2 : Action)
    (hno : ∀ a ∈ e1, a.isMark = false) (hm2 : m2.isMark = true)
    (h : e1 ++ m :: ext2 = pre ++ m2 :: post) :
    (pre = e1 ∧ m2 = m ∧ post = ext2) ∨ (∃ pre2, pre = e1 ++ m :: pre2 ∧ ext2 = pre2 ++ m2 :: post) := by
  rcases List.append_eq_append_iff.mp h with ⟨a, ha1, ha2⟩ | ⟨c, hc1, hc2⟩
  · cases a with
    | nil =>
      simp only [List.nil_append, List.cons.injEq] at ha2
      left
      exact ⟨by simpa using ha1, ha2.1.symm, ha2.2.symm⟩
    | cons y a2 =>
      simp only [List.cons_append, List.cons.injEq] at ha2
      right
      exact ⟨a2, by rw [ha1, ha2.1], ha2.2⟩
  · cases c with
    | nil =>
      simp only [List.nil_append, List.cons.injEq] at hc2
      left
      exact ⟨by simpa using hc1.symm, hc2.1, hc2.2⟩
    | cons x c2 =>
      simp only [List.cons_append, List.cons.injEq] at hc2
      have hx : x ∈ e1 := by rw [hc1]; simp
      have := hno x hx
      rw [← hc2.1, hm2] at this
      cases this

theorem no_mark_split (e1 pre post : List Action) (m2 : Action)
    (hno : ∀ a ∈ e1, a.isMark = false) (hm2 : m2.isMark = true)
    (h : e1 = pre ++ m2 :: post) : False := by
  have hx : m2 ∈ e1 := by rw [h]; simp
  have := hno m2 hx
  rw [hm2] at this
  cases this

theorem eventCount_cons (b : batch) (bs : List batch) :
    eventCount (b :: bs) = ((b.events.length : Nat) : Int) + eventCount bs := by
  simp [eventCount]

/-- Where `pushLoop` stands when it returns: `k` batches were sent and marked,
the result counts them, the store has exactly their events marked, a nil error
means all batches were done, and the trace obeys `TraceOK`. -/
theorem pushLoop_spec (env : Env) (p : Pusher) (bs : List batch)
    (hn : ∀ b ∈ bs, ∀ ev ∈ b.events, ev.TableName ∈ eventTables) :
    ∀ (res : Result) (s : Store) (tr : List Action), ∃ k, k ≤ bs.length ∧
      (pushLoop env p bs res s tr).result =
        ⟨res.BatchesSent + (k : Nat), res.EventsSent + eventCount (bs.take k)⟩ ∧
      StoreMarked ((bs.take k).flatMap batch.events) s (pushLoop env p bs res s tr).store ∧
      ((pushLoop env p bs res s tr).outcome = .ok → k = bs.length) ∧
      ∃ ext, (pushLoop env p bs res s tr).trace = tr ++ ext ∧ TraceOK bs ext := by
  induction bs with
  | nil =>
    intro res s tr
    refine ⟨0, le_refl _, ?_, ?_, fun _ => rfl, [], by simp [pushLoop], ?_⟩
    · simp [pushLoop, eventCount]
    · simpa [pushLoop] using storeMarked_refl s
    · exact ⟨fun _ _ h => absurd h (List.not_mem_nil _),
        fun pre evs t ok post h => by simp at h⟩
  | cons b rest ih =>
    intro res s tr
    obtain ⟨e1, he1, hs1, hok1⟩ := sendWithRetry_ext env p b.body tr
    have hno : ∀ a ∈ e1, a.isMark = false := fun a ha => (hs1 a ha).1
    have hreq1 : ∀ body resp, Action.request body resp ∈ e1 →
        body ∈ (b :: rest).map batch.body := by
      intro body resp hmem
      have := (hs1 _ hmem).2 body resp rfl
      rw [this]
      simp
    have stop : ∀ (o : Outcome), TraceOK (b :: rest) e1 :=
      fun _ => ⟨hreq1, fun pre evs t ok post h => (no_mark_split e1 pre post (Action.mark evs t ok) hno rfl h).elim⟩
    cases hsw : sendWithRetry env p b.body tr with
    | mk o tr1 =>
      rw [hsw] at he1 hok1
      simp only at he1 hok1
      cases o with
      | panic =>
        refine ⟨0, Nat.zero_le _, ?_, ?_, ?_, e1, ?_, stop .panic⟩
        · simp [pushLoop, hsw, eventCount]
        · simpa [pushLoop, hsw] using storeMarked_refl s
        · intro h; simp [pushLoop, hsw] at h
        · simp [pushLoop, hsw, he1]
      | err e =>
        refine ⟨0, Nat.zero_le _, ?_, ?_, ?_, e1, ?_, stop .panic⟩
        · simp [pushLoop, hsw, eventCount]
        · simpa [pushLoop, hsw] using storeMarked_refl s
        · intro h; simp [pushLoop, hsw] at h
        · simp [pushLoop, hsw, he1]
      | ok =>
        obtain ⟨mid, hmid⟩ := hok1 rfl
        subst he1
        have hmarkOK : ∀ t ok, TraceOK (b :: rest) (e1 ++ [Action.mark b.events t ok]) := by
          intro t ok
          constructor
          · intro body resp hmem
            rcases List.mem_append.mp hmem with h | h
            · exact hreq1 body resp h
            · simp at h
          · intro pre evs t2 ok2 post h
            rcases mark_split e1 [] pre post _ (Action.mark evs t2 ok2) hno rfl h with ⟨h1, h2, -⟩ | ⟨pre2, -, h2⟩
            · cases h2
              exact ⟨mid, b, List.mem_cons_self _ _, rfl, by rw [h1, hmid]⟩
            · simp at h2
        cases hmk : MarkEventsSynced env.resolveTable (env.now (markCount (tr ++ e1)))
            (env.markFault (markCount (tr ++ e1))) s b.events
            (env.now (markCount (tr ++ e1))) with
        | error e =>
          refine ⟨0, Nat.zero_le _, ?_, ?_, ?_,
            e1 ++ [Action.mark b.events (env.now (markCount (tr ++ e1))) false], ?_, hmarkOK _ _⟩
          · simp [pushLoop, hsw, hmk, eventCount]
          · simpa [pushLoop, hsw, hmk] using storeMarked_refl s
          · intro h; simp [pushLoop, hsw, hmk] at h
          · simp [pushLoop, hsw, hmk]
        | ok s1 =>
          obtain ⟨k, hk, hres, hst, hout, ext, hext, htr⟩ := ih
            (fun b2 hb2 => hn b2 (List.mem_cons_of_mem _ hb2))
            { BatchesSent := res.BatchesSent + 1,
              EventsSent := res.EventsSent + ((b.events.length : Nat) : Int) }
            s1 (tr ++ e1 ++ [Action.mark b.events (env.now (markCount (tr ++ e1))) true])
          have hunf : pushLoop env p (b :: rest) res s tr = pushLoop env p rest
              { BatchesSent := res.BatchesSent + 1,
                EventsSent := res.EventsSent + ((b.events.length : Nat) : Int) }
              s1 (tr ++ e1 ++ [Action.mark b.events (env.now (markCount (tr ++ e1))) true]) := by
            simp only [pushLoop, hsw, hmk]
          rw [hunf]
          refine ⟨k + 1, by simpa using hk, ?_, ?_, ?_,
            e1 ++ Action.mark b.events (env.now (markCount (tr ++ e1))) true :: ext, ?_, ?_⟩
          · rw [hres]
            simp only [List.take_succ_cons, eventCount_cons, Result.mk.injEq]
            constructor
            · push_cast; ring
            · ring
          · simp only [List.take_succ_cons, List.flatMap_cons]
            exact storeMarked_trans _ _ s s1 _ (MarkEventsSynced_marked _ _ _ _ _ _ _
              (hn b (List.mem_cons_self _ _)) hmk) hst
          · intro h
            rw [hout h]
            rfl
          · rw [hext]
            simp
          · constructor
            · intro body resp hmem
              rcases List.mem_append.mp hmem with h | h
              · exact hreq1 body resp h
              · rcases List.mem_cons.mp h with h | h
                · cases h
                · exact List.mem_map.mpr (by
                    obtain ⟨b2, hb2, hb3⟩ := List.mem_map.mp (htr.1 body resp h)
                    exact ⟨b2, List.mem_cons_of_mem _ hb2, hb3⟩)
            · intro pre evs t2 ok2 post h
              rcases mark_split e1 ext pre post _ (Action.mark evs t2 ok2) hno rfl h with ⟨h1, h2, -⟩ | ⟨pre2, h1, h2⟩
              · cases h2
                exact ⟨mid, b, List.mem_cons_self _ _, rfl, by rw [h1, hmid]⟩
              · obtain ⟨pre1, b2, hb2, hev, hpre⟩ := htr.2 pre2 evs t2 ok2 post h2
                refine ⟨e1 ++ Action.mark b.events (env.now (markCount (tr ++ e1))) true :: pre1, b2,
                  List.mem_cons_of_mem _ hb2, hev, ?_⟩
                rw [h1, hpre]
                simp

theorem pushLoop_cons (env : Env) (p : Pusher) (b : batch) (rest : List batch) (res : Result)
    (s : Store) (tr : List Action) :
    pushLoop env p (b :: rest) res s tr =
      match sendWithRetry env p b.body tr with
      | (.panic, tr1) => { result := res, outcome := .panic, store := s, trace := tr1 }
      | (.err e, tr1) => { result := res, outcome := .err e, store := s, trace := tr1 }
      | (.ok, tr1) =>
        match MarkEventsSynced env.resolveTable (env.now (markCount tr1))
            (env.markFault (markCount tr1)) s b.events (env.now (markCount tr1)) with
        | .error e =>
          { result := res, outcome := .err e, store := s,
            trace := tr1 ++ [.mark b.events (env.now (markCount tr1)) false] }
        | .ok s1 =>
          pushLoop env p rest
            { BatchesSent := res.BatchesSent + 1,
              EventsSent := res.EventsSent + ((b.events.length : Nat) : Int) }
            s1 (tr1 ++ [.mark b.events (env.now (markCount tr1)) true]) := by
  rw [pushLoop]

theorem pushLoop_append (env : Env) (p : Pusher) (pre rest : List batch) :
    ∀ (res : Result) (s : Store) (tr : List Action),
      (pushLoop env p pre res s tr).outcome = .ok →
      pushLoop env p (pre ++ rest) res s tr =
        pushLoop env p rest (pushLoop env p pre res s tr).result
          (pushLoop env p pre res s tr).store (pushLoop env p pre res s tr).trace := by
  induction pre with
  | nil => intro res s tr _; simp [pushLoop]
  | cons b pre2 ih =>
    intro res s tr hok
    simp only [List.cons_append]
    cases hsw : sendWithRetry env p b.body tr with
    | mk o tr1 =>
      cases o with
      | panic => simp [pushLoop_cons, hsw] at hok
      | err e => simp [pushLoop_cons, hsw] at hok
      | ok =>
        cases hmk : MarkEventsSynced env.resolveTable (env.now (markCount tr1))
            (env.markFault (markCount tr1)) s b.events (env.now (markCount tr1)) with
        | error e => simp [pushLoop_cons, hsw, hmk] at hok
        | ok s1 =>
          simp only [pushLoop_cons, hsw, hmk] at hok ⊢
          exact ih _ _ _ hok

/-- With a receiver that answers 200 to every request and a database that
does not fail, `pushLoop` sends every batch once and ends without error. -/
theorem pushLoop_all200 (env : Env) (p : Pusher) (hr : 1 ≤ p.maxRetries)
    (hf : env.requestFault = false) (h200 : ∀ n, env.respond n = .status 200)
    (hmf : ∀ n, env.markFault n = none) (bs : List batch) :
    ∀ (res : Result) (s : Store) (tr : List Action),
      (∀ b ∈ bs, ∀ ev ∈ b.events, ev.TableName ∈ eventTables) →
      (pushLoop env p bs res s tr).outcome = .ok ∧
      requestBodies (pushLoop env p bs res s tr).trace = requestBodies tr ++ bs.map batch.body := by
  induction bs with
  | nil => intro res s tr _; simp [pushLoop]
  | cons b rest ih =>
    intro res s tr htn
    have hsw := sendWithRetry_200 env p b.body tr hr hf (h200 _)
    obtain ⟨s1, hs1⟩ := MarkEventsSynced_ok env.resolveTable
      (env.now (markCount (tr ++ [Action.request b.body (.status 200)]))) s b.events
      (env.now (markCount (tr ++ [Action.request b.body (.status 200)])))
      (htn b (List.mem_cons_self _ _))
    have hunf : pushLoop env p (b :: rest) res s tr = pushLoop env p rest
        { BatchesSent := res.BatchesSent + 1,
          EventsSent := res.EventsSent + ((b.events.length : Nat) : Int) }
        s1 (tr ++ [Action.request b.body (.status 200)] ++
          [Action.mark b.events
            (env.now (markCount (tr ++ [Action.request b.body (.status 200)]))) true]) := by
      simp only [pushLoop, hsw, hmf, hs1]
    rw [hunf]
    obtain ⟨h1, h2⟩ := ih _ s1 _ (fun b2 hb2 => htn b2 (List.mem_cons_of_mem _ hb2))
    refine ⟨h1, ?_⟩
    rw [h2]
    simp [requestBodies, List.filterMap_append]

/-! ### `FetchUnsyncedEvents` and the pending counts -/

theorem fetch_eq (proj : Projection) (s : Store) :
    FetchUnsyncedEvents proj s 5000 = some (fetched proj s) := by
  simp [FetchUnsyncedEvents, fetched]

theorem mem_fetched (proj : Projection) (s : Store) (ev : PushEvent)
    (h : ev ∈ fetched proj s) : ev ∈ s.unsyncedEvents proj :=
  (List.perm_insertionSort _ _).subset (List.take_subset _ _ h)

theorem fetched_all (proj : Projection) (s : Store)
    (h : (s.unsyncedEvents proj).length ≤ 5000) :
    fetched proj s =
      (s.unsyncedEvents proj).insertionSort (fun a b => a.CreatedAt ≤ b.CreatedAt) := by
  apply List.take_of_length_le
  rw [List.length_insertionSort]
  exact h

theorem fetched_perm (proj : Projection) (s : Store)
    (h : (s.unsyncedEvents proj).length ≤ 5000) :
    List.Perm (fetched proj s) (s.unsyncedEvents proj) := by
  rw [fetched_all proj s h]
  exact List.perm_insertionSort _ _

theorem length_fetched_le (proj : Projection) (s : Store) : (fetched proj s).length ≤ 5000 := by
  simp [fetched, List.length_take]

theorem length_unsynced {α : Type} [EventRecord α] (t : Table α) (table typ : String)
    (payload : α → Bytes) : (((t.unsynced table typ payload).length : Nat) : Int) = t.pending := by
  simp [Table.unsynced, Table.pending]

theorem unsyncedCount_eq (proj : Projection) (s : Store) :
    UnsyncedCount s = (((s.unsyncedEvents proj).length : Nat) : Int) := by
  simp only [UnsyncedCount, Store.unsyncedEvents, List.length_append, Nat.cast_add,
    length_unsynced]

theorem tableName_unsynced (proj : Projection) (s : Store) :
    ∀ ev ∈ s.unsyncedEvents proj, ev.TableName ∈ eventTables := by
  intro ev hev
  simp only [Store.unsyncedEvents, Table.unsynced, List.mem_append, List.mem_map] at hev
  rcases hev with (⟨r, -, rfl⟩ | ⟨r, -, rfl⟩) | ⟨r, -, rfl⟩ <;> simp [eventTables]

theorem mem_idsOf (table : String) (events : List PushEvent) (id : Int) :
    id ∈ idsOf table events ↔ ∃ ev ∈ events, ev.TableName = table ∧ ev.RowID = id := by
  simp [idsOf, and_assoc]

theorem mem_unsynced {α : Type} [EventRecord α] (t : Table α) (table typ : String)
    (payload : α → Bytes) (r : Row α) (hr : r ∈ t.rows) (h0 : r.synced = 0) :
    ∃ ev ∈ t.unsynced table typ payload, ev.TableName = table ∧ ev.RowID = r.id :=
  ⟨{ TableName := table, RowID := r.id, CreatedAt := EventRecord.createdAt r.data,
     TraceID := EventRecord.traceID r.data, Type_ := typ, Data := payload r.data },
    List.mem_map.mpr ⟨r, List.mem_filter.mpr ⟨hr, by simpa using h0⟩, rfl⟩, rfl, rfl⟩

/-- Every row with `synced = 0` is named by one of the unsynced events. -/
theorem unsynced_covers (proj : Projection) (s : Store) :
    (∀ r ∈ s.llm_traces.rows, r.synced = 0 →
      r.id ∈ idsOf "llm_traces" (s.unsyncedEvents proj)) ∧
    (∀ r ∈ s.error_events.rows, r.synced = 0 →
      r.id ∈ idsOf "error_events" (s.unsyncedEvents proj)) ∧
    (∀ r ∈ s.system_metrics.rows, r.synced = 0 →
      r.id ∈ idsOf "system_metrics" (s.unsyncedEvents proj)) := by
  refine ⟨fun r hr h0 => ?_, fun r hr h0 => ?_, fun r hr h0 => ?_⟩
  · obtain ⟨ev, hev, h1, h2⟩ := mem_unsynced _ "llm_traces" "llm_trace" proj.trace r hr h0
    exact (mem_idsOf _ _ _).mpr ⟨ev, by simp [Store.unsyncedEvents, hev], h1, h2⟩
  · obtain ⟨ev, hev, h1, h2⟩ := mem_unsynced _ "error_events" "error_event" proj.error r hr h0
    exact (mem_idsOf _ _ _).mpr ⟨ev, by simp [Store.unsyncedEvents, hev], h1, h2⟩
  · obtain ⟨ev, hev, h1, h2⟩ :=
      mem_unsynced _ "system_metrics" "system_metric" proj.metric r hr h0
    exact (mem_idsOf _ _ _).mpr ⟨ev, by simp [Store.unsyncedEvents, hev], h1, h2⟩

theorem pending_zero_of_marked {α : Type} (ids : List Int) (t1 t2 : Table α)
    (hm : TableMarked ids t1 t2) (hcov : ∀ r ∈ t1.rows, r.synced = 0 → r.id ∈ ids) :
    t2.pending = 0 := by
  obtain ⟨-, f, hf, hr⟩ := hm
  unfold Table.pending
  rw [hf]
  have : (t1.rows.map f).filter (fun r => decide (r.synced = 0)) = [] := by
    rw [List.filter_eq_nil_iff]
    intro r2 hr2
    obtain ⟨r, hmem, rfl⟩ := List.mem_map.mp hr2
    obtain ⟨-, -, hin, hout⟩ := hr r
    by_cases hid : r.id ∈ ids
    · rw [(hin hid).1]; simp
    · rw [hout hid]
      intro h0
      exact hid (hcov r hmem (by simpa using h0))
  rw [this]
  rfl

theorem unsynced_nil_of_pending {α : Type} [EventRecord α] (t : Table α) (table typ : String)
    (payload : α → Bytes) (h : t.pending = 0) : t.unsynced table typ payload = [] := by
  have := length_unsynced t table typ payload
  rw [h] at this
  exact List.length_eq_zero.mp (by exact_mod_cast this)

/-! ### `PushOnce` -/

theorem buildBatches_nil (enc : item → Except String Bytes) (cap : Int) :
    buildBatches enc cap [] = .ok [] := by
  simp [buildBatches, batchLoop, flush, builder.init]

/-- Past its guards, `PushOnce` is the loop over the batches. -/
theorem PushOnce_eq_pushLoop (enc : item → Except String Bytes) (proj : Projection) (env : Env)
    (p : Pusher) (s : Store) (batches : List batch)
    (hep : p.endpoint ≠ "") (hff : env.fetchFault = none) (hne : fetched proj s ≠ [])
    (hbb : buildBatches enc p.maxPayloadBytes (fetched proj s) = .ok batches) :
    PushOnce enc proj env p s = pushLoop env p batches ⟨0, 0⟩ s [] := by
  unfold PushOnce
  rw [if_neg hep, hff]
  simp only [fetch_eq]
  rw [if_neg (fun h => hne (List.length_eq_zero.mp h)), hbb]

/-- When nothing is unsynced, `PushOnce` makes no request and changes nothing. -/
theorem PushOnce_nothing (enc : item → Except String Bytes) (proj : Projection) (env : Env)
    (p : Pusher) (s : Store) (h : s.unsyncedEvents proj = []) :
    (PushOnce enc proj env p s).result = ⟨0, 0⟩ ∧ (PushOnce enc proj env p s).trace = [] ∧
    (PushOnce enc proj env p s).store = s := by
  have hf : fetched proj s = [] := by simp [fetched, h]
  unfold PushOnce
  by_cases hep : p.endpoint = ""
  · simp [hep]
  · rw [if_neg hep]
    cases hff : env.fetchFault with
    | some e => simp
    | none => simp [fetch_eq, hf]

/-- The events of the batches built from the fetched events spell their table
names as the schema does: the fetch writes the literal names. -/
theorem buildBatches_literal (enc : item → Except String Bytes) (proj : Projection)
    (s : Store) (maxBytes : Int) (batches : List batch)
    (hbb : buildBatches enc maxBytes (fetched proj s) = .ok batches) :
    ∀ b ∈ batches, ∀ ev ∈ b.events, ev.TableName ∈ eventTables := by
  intro b hb ev hev
  have hcat := (buildBatches_spec enc _ _ _ hbb).1
  exact tableName_unsynced proj s ev (mem_fetched proj s ev (by
    rw [← hcat]
    exact List.mem_flatten.mpr ⟨b.events, List.mem_map_of_mem _ hb, hev⟩))

/-- A nil error from `PushOnce` means every fetched event was marked. -/
theorem PushOnce_ok_marked (enc : item → Except String Bytes) (proj : Projection) (env : Env)
    (p : Pusher) (s : Store) (hok : (PushOnce enc proj env p s).outcome = .ok) :
    StoreMarked (fetched proj s) s (PushOnce enc proj env p s).store := by
  by_cases hep : p.endpoint = ""
  · simp [PushOnce, hep] at hok
  · cases hff : env.fetchFault with
    | some e => simp [PushOnce, hep, hff] at hok
    | none =>
      by_cases hne : fetched proj s = []
      · have : (PushOnce enc proj env p s).store = s := by
          simp [PushOnce, hep, hff, fetch_eq, hne]
        rw [this, hne]
        exact storeMarked_refl s
      · cases hbb : buildBatches enc p.maxPayloadBytes (fetched proj s) with
        | error e =>
          have hl : ¬ (fetched proj s).length = 0 := fun h => hne (List.length_eq_zero.mp h)
          simp [PushOnce, hep, hff, fetch_eq, hl, hbb] at hok
        | ok batches =>
          rw [PushOnce_eq_pushLoop enc proj env p s batches hep hff hne hbb] at hok ⊢
          obtain ⟨k, -, -, hst, hk, -⟩ := pushLoop_spec env p batches
            (buildBatches_literal enc proj s _ batches hbb) ⟨0, 0⟩ s []
          rw [hk hok, List.take_length] at hst
          have hcat := (buildBatches_spec enc _ _ _ hbb).1
          rw [← hcat]
          exact hst

/-- Once every unsynced row is among the marked ones, nothing is pending. -/
theorem pending_zero_of_storeMarked (proj : Projection) (s s1 : Store) (events : List PushEvent)
    (hm : StoreMarked events s s1) (hsub : ∀ ev ∈ s.unsyncedEvents proj, ev ∈ events) :
    PendingCounts s1 = (0, 0, 0) ∧ s1.unsyncedEvents proj = [] := by
  obtain ⟨h1, h2, h3⟩ := unsynced_covers proj s
  have lift : ∀ (table : String) (id : Int), id ∈ idsOf table (s.unsyncedEvents proj) →
      id ∈ idsOf table events := by
    intro table id hid
    obtain ⟨ev, hev, ht, hi⟩ := (mem_idsOf _ _ _).mp hid
    exact (mem_idsOf _ _ _).mpr ⟨ev, hsub ev hev, ht, hi⟩
  have p1 := pending_zero_of_marked _ _ _ hm.1 (fun r hr h0 => lift _ _ (h1 r hr h0))
  have p2 := pending_zero_of_marked _ _ _ hm.2.1 (fun r hr h0 => lift _ _ (h2 r hr h0))
  have p3 := pending_zero_of_marked _ _ _ hm.2.2 (fun r hr h0 => lift _ _ (h3 r hr h0))
  refine ⟨by simp [PendingCounts, p1, p2, p3], ?_⟩
  simp [Store.unsyncedEvents, unsynced_nil_of_pending, p1, p2, p3]

theorem plainMarshal_ok (it : item) (h : it.Data ≠ []) : ∃ bs, plainMarshal it = .ok bs := by
  unfold plainMarshal
  rw [if_neg h]
  exact ⟨_, rfl⟩

/-- C5: if the batches before batch `b` were all sent and marked and the send
of `b` fails, `PushOnce` returns that error, its result counts exactly the
batches before `b`, the store has exactly their events marked synced with every
other row unchanged, and no request carries a later batch; when `b` is the first
batch the store and the pending counts are unchanged. -/
theorem PushOnce_aborts_at_failed_send (enc : item → Except String Bytes) (proj : Projection)
    (env : Env) (p : Pusher) (s : Store) (before after : List batch) (b : batch)
    (res : Result) (sk : Store) (trk tr1 : List Action) (e : String)
    (hep : p.endpoint ≠ "") (hff : env.fetchFault = none)
    (hbb : buildBatches enc p.maxPayloadBytes (fetched proj s) = .ok (before ++ b :: after))
    (hpre : pushLoop env p before ⟨0, 0⟩ s [] = ⟨res, .ok, sk, trk⟩)
    (hsend : sendWithRetry env p b.body trk = (.err e, tr1)) :
    FetchUnsyncedEvents proj s 5000 = some (fetched proj s) ∧
    (PushOnce enc proj env p s).outcome = .err e ∧
    (PushOnce enc proj env p s).result = ⟨((before.length : Nat) : Int), eventCount before⟩ ∧
    (PushOnce enc proj env p s).store = sk ∧
    StoreMarked (before.flatMap batch.events) s sk ∧
    (before = [] → sk = s ∧
      PendingCounts (PushOnce enc proj env p s).store = PendingCounts s) ∧
    (∀ body resp, Action.request body resp ∈ (PushOnce enc proj env p s).trace →
      body ∈ (before ++ [b]).map batch.body) := by
  have hne : fetched proj s ≠ [] := by
    intro h
    rw [h, buildBatches_nil] at hbb
    cases before <;> simp at hbb
  have hrun : PushOnce enc proj env p s = ⟨res, .err e, sk, tr1⟩ := by
    rw [PushOnce_eq_pushLoop enc proj env p s _ hep hff hne hbb,
      pushLoop_append env p before (b :: after) ⟨0, 0⟩ s [] (by rw [hpre]), hpre]
    simp only [pushLoop_cons, hsend]
  obtain ⟨k, -, hres, hst, hk, ext, hext, htr⟩ := pushLoop_spec env p before
    (fun b2 hb2 => buildBatches_literal enc proj s _ _ hbb b2 (List.mem_append_left _ hb2))
    ⟨0, 0⟩ s []
  rw [hpre] at hres hst hk hext
  simp only at hres hst hk hext
  have hk2 := hk trivial
  rw [hk2, List.take_length] at hres hst
  obtain ⟨e1, he1, hs1, -⟩ := sendWithRetry_ext env p b.body trk
  rw [hsend] at he1
  simp only at he1
  refine ⟨fetch_eq proj s, by rw [hrun], ?_, by rw [hrun], hst, ?_, ?_⟩
  · rw [hrun, hres]
    simp
  · intro hb
    subst hb
    simp only [pushLoop] at hpre
    have : sk = s := by cases hpre; rfl
    exact ⟨this, by rw [hrun, this]⟩
  · intro body resp hmem
    rw [hrun] at hmem
    simp only at hmem
    rw [he1, hext, List.nil_append] at hmem
    rw [List.map_append]
    rcases List.mem_append.mp hmem with h | h
    · exact List.mem_append_left _ (htr.1 body resp h)
    · have := (hs1 _ h).2 body resp rfl
      rw [this]
      simp

/-- Witness of C5: one seeded triple, a receiver that always answers 500 and
two attempts (`TestPushOnceFailureKeepsUnsynced`): `PushOnce` returns an error
and the pending counts stay (1, 1, 1). -/
theorem PushOnce_aborts_at_failed_send_witness :
    (PushOnce plainMarshal sampleProjection (constEnv 500) testPusher seededStore).outcome =
      .err "push failed after retries: push status 500" ∧
    (PushOnce plainMarshal sampleProjection (constEnv 500) testPusher seededStore).result =
      ⟨0, 0⟩ ∧
    PendingCounts seededStore = (1, 1, 1) ∧
    PendingCounts
      (PushOnce plainMarshal sampleProjection (constEnv 500) testPusher seededStore).store =
      (1, 1, 1) := by
  obtain ⟨-, h1, h2, -, -, h5, -⟩ :=
    PushOnce_aborts_at_failed_send plainMarshal sampleProjection (constEnv 500) testPusher
      seededStore [] [] seededBatch ⟨0, 0⟩ seededStore []
      [.request seededBatch.body (.status 500), .sleep 0,
       .request seededBatch.body (.status 500), .sleep 1]
      "push failed after retries: push status 500"
      (by decide!) rfl (by decide!) rfl (by decide!)
  have h6 : PendingCounts seededStore = (1, 1, 1) := by decide!
  exact ⟨h1, h2, h6, by rw [(h5 rfl).2, h6]⟩

/-- With a receiver that answers 200 to every request, a configured endpoint,
at least one attempt allowed, items that marshal and a database that does not
fail, `PushOnce` returns no error and sends every fetched event. -/
theorem PushOnce_all200_core (enc : item → Except String Bytes) (proj : Projection)
    (env : Env) (p : Pusher) (s : Store)
    (hep : p.endpoint ≠ "") (hr : 1 ≤ p.maxRetries) (hrf : env.requestFault = false)
    (hff : env.fetchFault = none) (hmf : ∀ n, env.markFault n = none)
    (h200 : ∀ n, env.respond n = .status 200)
    (henc : ∀ ev ∈ s.unsyncedEvents proj, ∃ bs, enc (toItem ev) = .ok bs) :
    (PushOnce enc proj env p s).outcome = .ok ∧
    (PushOnce enc proj env p s).result.EventsSent = (((fetched proj s).length : Nat) : Int) ∧
    ∃ batches : List batch,
      requestBodies (PushOnce enc proj env p s).trace = batches.map batch.body ∧
      (∀ b ∈ batches, marshalEnvelope enc (b.events.map toItem) = .ok b.body) ∧
      (batches.map batch.events).flatten = fetched proj s := by
  by_cases hne : fetched proj s = []
  · have hrun : PushOnce enc proj env p s = ⟨⟨0, 0⟩, .ok, s, []⟩ := by
      simp [PushOnce, hep, hff, fetch_eq, hne]
    rw [hrun, hne]
    exact ⟨rfl, rfl, [], rfl, fun b hb => absurd hb (List.not_mem_nil _), rfl⟩
  · obtain ⟨batches, hbb⟩ := buildBatches_ok enc p.maxPayloadBytes (fetched proj s)
      (fun ev hev => henc ev (mem_fetched proj s ev hev))
    obtain ⟨hcat, -, hbody, -⟩ := buildBatches_spec enc _ _ _ hbb
    rw [PushOnce_eq_pushLoop enc proj env p s batches hep hff hne hbb]
    obtain ⟨ho, hreq⟩ := pushLoop_all200 env p hr hrf h200 hmf batches ⟨0, 0⟩ s []
      (fun b hb ev hev => tableName_unsynced proj s ev (mem_fetched proj s ev (by
        rw [← hcat]
        exact List.mem_flatten.mpr ⟨b.events, List.mem_map_of_mem _ hb, hev⟩)))
    obtain ⟨k, -, hres, -, hk, -⟩ := pushLoop_spec env p batches
      (buildBatches_literal enc proj s _ batches hbb) ⟨0, 0⟩ s []
    rw [hk ho, List.take_length] at hres
    refine ⟨ho, ?_, batches, by simpa [requestBodies] using hreq, hbody, hcat⟩
    rw [hres, ← hcat]
    simp [eventCount, List.length_flatten, Function.comp_def]

/-- C6: a store with at most 5000 unsynced events, a receiver that answers 200
to every request, a configured endpoint, at least one attempt allowed, items
that marshal and a database that does not fail: `PushOnce` returns no error,
`EventsSent` is the number of unsynced events, the requests carry, in order,
the envelopes of batches whose events together are exactly the unsynced
events, and afterwards the pending counts are (0, 0, 0). -/
theorem PushOnce_success_marks_all (enc : item → Except String Bytes) (proj : Projection)
    (env : Env) (p : Pusher) (s : Store)
    (hep : p.endpoint ≠ "") (hr : 1 ≤ p.maxRetries) (hrf : env.requestFault = false)
    (hff : env.fetchFault = none) (hmf : ∀ n, env.markFault n = none)
    (h200 : ∀ n, env.respond n = .status 200)
    (henc : ∀ ev ∈ s.unsyncedEvents proj, ∃ bs, enc (toItem ev) = .ok bs)
    (hN : UnsyncedCount s ≤ 5000) :
    (PushOnce enc proj env p s).outcome = .ok ∧
    (PushOnce enc proj env p s).result.EventsSent = UnsyncedCount s ∧
    PendingCounts (PushOnce enc proj env p s).store = (0, 0, 0) ∧
    ∃ batches : List batch,
      requestBodies (PushOnce enc proj env p s).trace = batches.map batch.body ∧
      (∀ b ∈ batches, marshalEnvelope enc (b.events.map toItem) = .ok b.body) ∧
      List.Perm (batches.map batch.events).flatten (s.unsyncedEvents proj) := by
  have hlen : (s.unsyncedEvents proj).length ≤ 5000 := by
    rw [unsyncedCount_eq proj s] at hN
    exact_mod_cast hN
  have hperm := fetched_perm proj s hlen
  obtain ⟨ho, hsent, batches, hreq, hbody, hcat⟩ :=
    PushOnce_all200_core enc proj env p s hep hr hrf hff hmf h200 henc
  refine ⟨ho, ?_, ?_, batches, hreq, hbody, by rw [hcat]; exact hperm⟩
  · rw [hsent, unsyncedCount_eq proj s, hperm.length_eq]
  · exact (pending_zero_of_storeMarked proj s _ (fetched proj s)
      (PushOnce_ok_marked enc proj env p s ho) (fun ev hev => hperm.symm.subset hev)).1

/-- Witness of C6: one seeded triple and a receiver that always answers 200
(`TestPushOnceSuccessMarksSynced`). -/
theorem PushOnce_success_marks_all_witness :
    UnsyncedCount seededStore = 3 ∧
    (PushOnce plainMarshal sampleProjection (constEnv 200) testPusher seededStore).outcome = .ok ∧
    (PushOnce plainMarshal sampleProjection (constEnv 200) testPusher seededStore).result.EventsSent
      = 3 ∧
    PendingCounts
      (PushOnce plainMarshal sampleProjection (constEnv 200) testPusher seededStore).store =
      (0, 0, 0) := by
  have h3 : UnsyncedCount seededStore = 3 := by decide!
  obtain ⟨h1, h2, h4, -⟩ :=
    PushOnce_success_marks_all plainMarshal sampleProjection (constEnv 200) testPusher seededStore
      (by decide!) (by decide!) rfl rfl (fun _ => rfl) (fun _ => rfl)
      (fun ev hev => plainMarshal_ok (toItem ev)
        ((by decide! : ∀ e ∈ Store.unsyncedEvents sampleProjection seededStore, e.Data ≠ [])
          ev hev))
      (by decide!)
  exact ⟨h3, h1, by rw [h2, h3], h4⟩

/-- C7, amended: if the store holds at most 5000 unsynced events and a
`PushOnce` on it returns no error, a second `PushOnce` on the resulting store
(no new events inserted, whatever the environment then does) sends nothing: its
result is {0, 0} and it makes no request. -/
theorem PushOnce_second_sends_nothing (enc : item → Except String Bytes) (proj : Projection)
    (env env2 : Env) (p : Pusher) (s : Store) (hN : UnsyncedCount s ≤ 5000)
    (hok : (PushOnce enc proj env p s).outcome = .ok) :
    (PushOnce enc proj env2 p (PushOnce enc proj env p s).store).result = ⟨0, 0⟩ ∧
    (PushOnce enc proj env2 p (PushOnce enc proj env p s).store).trace = [] := by
  have hlen : (s.unsyncedEvents proj).length ≤ 5000 := by
    rw [unsyncedCount_eq proj s] at hN
    exact_mod_cast hN
  have hnil := (pending_zero_of_storeMarked proj s _ (fetched proj s)
    (PushOnce_ok_marked enc proj env p s hok)
    (fun ev hev => (fetched_perm proj s hlen).symm.subset hev)).2
  have := PushOnce_nothing enc proj env2 p _ hnil
  exact ⟨this.1, this.2.1⟩

/-- Witness of C7 (amended): the seeded triple, pushed twice. -/
theorem PushOnce_second_sends_nothing_witness :
    UnsyncedCount seededStore ≤ 5000 ∧
    (PushOnce plainMarshal sampleProjection (constEnv 200) testPusher seededStore).outcome = .ok ∧
    (PushOnce plainMarshal sampleProjection (constEnv 200) testPusher
      (PushOnce plainMarshal sampleProjection (constEnv 200) testPusher seededStore).store).result
      = ⟨0, 0⟩ ∧
    (PushOnce plainMarshal sampleProjection (constEnv 200) testPusher
      (PushOnce plainMarshal sampleProjection (constEnv 200) testPusher seededStore).store).trace
      = [] :=
  ⟨by decide!, by decide!,
    PushOnce_second_sends_nothing plainMarshal sampleProjection (constEnv 200) (constEnv 200)
      testPusher seededStore (by decide!) (by decide!)⟩

/-- C8: every call of `MarkEventsSynced` in an invocation of `PushOnce` comes
right after a request of the same invocation that was answered with status 200
and carried the envelope of a batch holding exactly the events passed to the
call. -/
theorem PushOnce_marks_only_after_200 (enc : item → Except String Bytes) (proj : Projection)
    (env : Env) (p : Pusher) (s : Store) (pre post : List Action) (evs : List PushEvent)
    (t : Int) (ok : Bool)
    (h : (PushOnce enc proj env p s).trace = pre ++ Action.mark evs t ok :: post) :
    ∃ (batches : List batch) (b : batch) (pre1 : List Action),
      buildBatches enc p.maxPayloadBytes (fetched proj s) = .ok batches ∧ b ∈ batches ∧
      b.events = evs ∧ pre = pre1 ++ [Action.request b.body (.status 200)] := by
  by_cases hep : p.endpoint = ""
  · simp [PushOnce, hep] at h
  · cases hff : env.fetchFault with
    | some e => simp [PushOnce, hep, hff] at h
    | none =>
      by_cases hne : fetched proj s = []
      · simp [PushOnce, hep, hff, fetch_eq, hne] at h
      · cases hbb : buildBatches enc p.maxPayloadBytes (fetched proj s) with
        | error e =>
          have hl : ¬ (fetched proj s).length = 0 := fun h => hne (List.length_eq_zero.mp h)
          simp [PushOnce, hep, hff, fetch_eq, hl, hbb] at h
        | ok batches =>
          rw [PushOnce_eq_pushLoop enc proj env p s batches hep hff hne hbb] at h
          obtain ⟨k, -, -, -, -, ext, hext, htr⟩ := pushLoop_spec env p batches
            (buildBatches_literal enc proj s _ batches hbb) ⟨0, 0⟩ s []
          rw [hext, List.nil_append] at h
          obtain ⟨pre1, b, hb, hev, hpre⟩ := htr.2 pre evs t ok post h
          exact ⟨batches, b, pre1, rfl, hb, hev, hpre⟩

/-- Witness of C8: in the successful push of the seeded triple the only call
of `MarkEventsSynced` follows the request answered with 200. -/
theorem PushOnce_marks_only_after_200_witness :
    (PushOnce plainMarshal sampleProjection (constEnv 200) testPusher seededStore).trace =
      [Action.request seededBatch.body (.status 200)] ++
        Action.mark seededBatch.events 1700000001000 true :: [] ∧
    ∃ (batches : List batch) (b : batch) (pre1 : List Action),
      buildBatches plainMarshal testPusher.maxPayloadBytes (fetched sampleProjection seededStore) =
        .ok batches ∧ b ∈ batches ∧ b.events = seededBatch.events ∧
      [Action.request seededBatch.body (.status 200)] =
        pre1 ++ [Action.request b.body (.status 200)] :=
  ⟨by decide!,
    PushOnce_marks_only_after_200 plainMarshal sampleProjection (constEnv 200) testPusher
      seededStore _ [] _ 1700000001000 true (by decide!)⟩

/-! ### More than 5000 unsynced events -/

theorem filter_length_le_split {β : Type} (l : List β) (p q r : β → Bool)
    (h : ∀ x ∈ l, p x = true → q x = true ∨ r x = true) :
    (l.filter p).length ≤ (l.filter q).length + (l.filter r).length := by
  induction l with
  | nil => simp
  | cons a l ih =>
    have ih2 := ih (fun x hx => h x (List.mem_cons_of_mem _ hx))
    have ha := h a (List.mem_cons_self _ _)
    simp only [List.filter_cons]
    cases hp : p a <;> cases hq : q a <;> cases hr : r a <;> simp [hp, hq, hr] at ha ⊢ <;> omega

/-- Marking the rows named by `ids` lowers the pending count of a table with
distinct ids by at most the number of ids. -/
theorem pending_le_of_marked {α : Type} (ids : List Int) (t1 t2 : Table α)
    (hm : TableMarked ids t1 t2) (hnd : (t1.rows.map Row.id).Nodup) :
    t1.pending ≤ t2.pending + ((ids.length : Nat) : Int) := by
  obtain ⟨-, f, hf, hr⟩ := hm
  unfold Table.pending
  rw [hf, List.filter_map, List.length_map]
  have h1 := filter_length_le_split t1.rows (fun r => decide (r.synced = 0))
    ((fun r => decide (r.synced = 0)) ∘ f) (fun r => decide (r.id ∈ ids)) (by
      intro x _ hx
      by_cases hid : x.id ∈ ids
      · right; simpa using hid
      · left
        simp only [Function.comp_apply]
        rw [(hr x).2.2.2 hid]
        exact hx)
  have h2 : (t1.rows.filter (fun r => decide (r.id ∈ ids))).length ≤ ids.length := by
    have hnd2 : ((t1.rows.filter (fun r => decide (r.id ∈ ids))).map Row.id).Nodup :=
      hnd.sublist ((List.filter_sublist _).map _)
    have hsub : (t1.rows.filter (fun r => decide (r.id ∈ ids))).map Row.id ⊆ ids := by
      intro x hx
      obtain ⟨r, hr1, rfl⟩ := List.mem_map.mp hx
      simpa using (List.mem_filter.mp hr1).2
    have := (List.subperm_of_subset hnd2 hsub).length_le
    simpa using this
  exact_mod_cast (by omega : (t1.rows.filter (fun r => decide (r.synced = 0))).length ≤
    (t1.rows.filter ((fun r => decide (r.synced = 0)) ∘ f)).length + ids.length)

theorem length_idsOf_le (table : String) (events : List PushEvent) :
    (idsOf table events).length ≤ events.length := by
  simp only [idsOf, List.length_map]
  exact List.length_filter_le _ _

theorem ascii_ne_nil (a b c : String) (h : a.data ≠ []) : ascii (a ++ b ++ c) ≠ [] := by
  intro hn
  have hl := congrArg List.length hn
  simp only [ascii, List.length_map, String.toList, String.data_append, List.length_append,
    List.length_nil] at hl
  have : a.data.length ≠ 0 := fun h0 => h (List.length_eq_zero.mp h0)
  omega

theorem sampleProjection_marshals (s : Store) :
    ∀ ev ∈ s.unsyncedEvents sampleProjection, ∃ bs, plainMarshal (toItem ev) = .ok bs := by
  intro ev hev
  apply plainMarshal_ok
  simp only [Store.unsyncedEvents, Table.unsynced, List.mem_append, List.mem_map] at hev
  rcases hev with (⟨r, -, rfl⟩ | ⟨r, -, rfl⟩) | ⟨r, -, rfl⟩ <;>
    exact ascii_ne_nil _ _ _ (by decide)

theorem errorRows_pending (n : Nat) :
    ((errorRows n).filter (fun r => decide (r.synced = 0))).length = n := by
  simp [errorRows, List.filter_map, Function.comp_def]

theorem errorRows_nodup (n : Nat) : ((errorRows n).map Row.id).Nodup := by
  simp only [errorRows, List.map_map]
  apply List.Nodup.map _ (List.nodup_range n)
  intro a b hab
  simp only [Function.comp_apply] at hab
  omega

theorem crowdedStore_error_events :
    crowdedStore.error_events = { rows := errorRows 5001, seq := 5001 } := rfl

theorem crowdedStore_pending : crowdedStore.error_events.pending = 5001 := by
  rw [crowdedStore_error_events]
  unfold Table.pending
  rw [errorRows_pending]
  rfl

theorem crowdedStore_llm_pending : crowdedStore.llm_traces.pending = 0 := rfl

theorem crowdedStore_metrics_pending : crowdedStore.system_metrics.pending = 0 := rfl

theorem crowdedStore_nodup : (crowdedStore.error_events.rows.map Row.id).Nodup := by
  rw [crowdedStore_error_events]
  dsimp only
  exact errorRows_nodup 5001

/-- C7 as stated fails: on a store with 5001 unsynced events and a receiver
that always answers 200, the first `PushOnce` returns no error, yet a second
`PushOnce` on the resulting store still sends events (its result is not {0, 0}
and it makes a request). -/
theorem PushOnce_second_sends_more :
    (PushOnce plainMarshal sampleProjection (constEnv 200) testPusher crowdedStore).outcome = .ok ∧
    (PushOnce plainMarshal sampleProjection (constEnv 200) testPusher crowdedStore).result.EventsSent
      = 5000 ∧
    (PushOnce plainMarshal sampleProjection (constEnv 200) testPusher
      (PushOnce plainMarshal sampleProjection (constEnv 200) testPusher crowdedStore).store).result
      ≠ ⟨0, 0⟩ ∧
    (PushOnce plainMarshal sampleProjection (constEnv 200) testPusher
      (PushOnce plainMarshal sampleProjection (constEnv 200) testPusher crowdedStore).store).trace
      ≠ [] := by
  have hep : testPusher.endpoint ≠ "" := by decide
  have hr : 1 ≤ testPusher.maxRetries := by decide
  obtain ⟨ho, hsent1, -⟩ := PushOnce_all200_core plainMarshal sampleProjection (constEnv 200)
    testPusher crowdedStore hep hr rfl rfl (fun _ => rfl) (fun _ => rfl)
    (sampleProjection_marshals crowdedStore)
  have hall : (crowdedStore.unsyncedEvents sampleProjection).length = 5001 := by
    have h1 := length_unsynced crowdedStore.llm_traces "llm_traces" "llm_trace"
      sampleProjection.trace
    have h2 := length_unsynced crowdedStore.error_events "error_events" "error_event"
      sampleProjection.error
    have h3 := length_unsynced crowdedStore.system_metrics "system_metrics" "system_metric"
      sampleProjection.metric
    rw [crowdedStore_pending] at h2
    rw [crowdedStore_llm_pending] at h1
    rw [crowdedStore_metrics_pending] at h3
    simp only [Store.unsyncedEvents, List.length_append]
    omega
  have hfirst : (fetched sampleProjection crowdedStore).length = 5000 := by
    simp only [fetched, List.length_take, List.length_insertionSort, hall]
    rfl
  have hm := (PushOnce_ok_marked plainMarshal sampleProjection (constEnv 200) testPusher
    crowdedStore ho).2.1
  have hle := pending_le_of_marked _ _ _ hm crowdedStore_nodup
  rw [crowdedStore_pending] at hle
  have hids := length_idsOf_le "error_events" (fetched sampleProjection crowdedStore)
  have hf := length_fetched_le sampleProjection crowdedStore
  obtain ⟨-, hsent, batches, hreq, -, hcat⟩ :=
    PushOnce_all200_core plainMarshal sampleProjection (constEnv 200)
      testPusher (PushOnce plainMarshal sampleProjection (constEnv 200) testPusher
        crowdedStore).store hep hr rfl rfl (fun _ => rfl) (fun _ => rfl)
      (sampleProjection_marshals _)
  have hpos : 0 < (fetched sampleProjection (PushOnce plainMarshal sampleProjection
      (constEnv 200) testPusher crowdedStore).store).length := by
    have hu : 0 < ((PushOnce plainMarshal sampleProjection (constEnv 200) testPusher
        crowdedStore).store.unsyncedEvents sampleProjection).length := by
      have h1 := length_unsynced (PushOnce plainMarshal sampleProjection (constEnv 200)
        testPusher crowdedStore).store.error_events "error_events" "error_event"
        sampleProjection.error
      simp only [Store.unsyncedEvents, List.length_append]
      omega
    simp only [fetched, List.length_take, List.length_insertionSort]
    omega
  refine ⟨ho, by rw [hsent1, hfirst]; rfl, ?_, ?_⟩
  · intro h
    rw [h] at hsent
    simp only at hsent
    omega
  · intro h
    rw [h] at hreq
    have hb : batches = [] := by simpa [requestBodies] using hreq.symm
    rw [hb] at hcat
    simp only [List.map_nil, List.flatten_nil] at hcat
    rw [← hcat] at hpos
    simp at hpos

/-! ### The life of the `synced` flag -/

theorem syncState_none_iff {α : Type} (t : Table α) (id : Int) :
    t.syncState id = none ↔ ∀ r ∈ t.rows, r.id ≠ id := by
  simp [Table.syncState, List.find?_eq_none]

theorem syncState_some_of_mem {α : Type} (t : Table α) (hnd : (t.rows.map Row.id).Nodup)
    (r : Row α) (hr : r ∈ t.rows) : t.syncState r.id = some (r.synced, r.pushed_at) := by
  unfold Table.syncState
  cases hf : t.rows.find? (fun x => decide (x.id = r.id)) with
  | none =>
    rw [List.find?_eq_none] at hf
    exact absurd (by simp) (hf r hr)
  | some x =>
    have hx := List.mem_of_find?_eq_some hf
    have hid : x.id = r.id := by simpa using List.find?_some hf
    have : x = r := List.inj_on_of_nodup_map hnd hx hr hid
    rw [this]
    rfl

theorem mem_of_syncState_some {α : Type} (t : Table α) (id : Int) (x : Int × Option Int)
    (h : t.syncState id = some x) : ∃ r ∈ t.rows, r.id = id ∧ (r.synced, r.pushed_at) = x := by
  unfold Table.syncState at h
  cases hf : t.rows.find? (fun r => decide (r.id = id)) with
  | none => simp [hf] at h
  | some r =>
    rw [hf] at h
    simp only [Option.map_some', Option.some.injEq] at h
    exact ⟨r, List.mem_of_find?_eq_some hf, by simpa using List.find?_some hf, h⟩

theorem tableStep_refl {α : Type} (t : Table α) : t.Step t :=
  ⟨le_refl _, fun r hr => Or.inl ⟨r, hr, rfl, Or.inl ⟨rfl, rfl⟩⟩⟩

theorem tableLater_refl {α : Type} (t : Table α) : t.Later t :=
  ⟨le_refl _, fun r hr => Or.inl ⟨r, hr, rfl, id⟩⟩

theorem tableLater_of_step {α : Type} (t1 t2 : Table α) (h : t1.Step t2) : t1.Later t2 := by
  refine ⟨h.1, fun r2 hr2 => ?_⟩
  rcases h.2 r2 hr2 with ⟨r1, hr1, hid, hch⟩ | ⟨hnew, -, -⟩
  · refine Or.inl ⟨r1, hr1, hid, fun h1 => ?_⟩
    rcases hch with ⟨hs, -⟩ | ⟨hs, -⟩
    · rw [hs, h1]
    · exact hs
  · exact Or.inr hnew

theorem tableLater_trans {α : Type} (t1 t2 t3 : Table α) (h12 : t1.Later t2)
    (h23 : t2.Later t3) : t1.Later t3 := by
  refine ⟨le_trans h12.1 h23.1, fun r3 hr3 => ?_⟩
  rcases h23.2 r3 hr3 with ⟨r2, hr2, hid2, hk2⟩ | hnew
  · rcases h12.2 r2 hr2 with ⟨r1, hr1, hid1, hk1⟩ | hnew
    · exact Or.inl ⟨r1, hr1, by rw [hid1, hid2], fun h1 => hk2 (hk1 h1)⟩
    · exact Or.inr (by rw [← hid2]; exact hnew)
  · exact Or.inr (lt_of_le_of_lt h12.1 hnew)

theorem mark_wf {α : Type} (t : Table α) (ids : List Int) (ts : Int) (h : t.WF) :
    (t.mark ids ts).WF := by
  obtain ⟨h1, h2, h3⟩ := h
  have hid : ∀ r : Row α, (markRow ids ts r).id = r.id := by
    intro r; unfold markRow; split <;> rfl
  refine ⟨?_, ?_, ?_⟩
  · intro r2 hr2
    obtain ⟨r, hr, rfl⟩ := List.mem_map.mp hr2
    rw [hid]
    exact h1 r hr
  · simp only [Table.mark, List.map_map]
    have : (Row.id ∘ markRow ids ts : Row α → Int) = Row.id := funext hid
    rw [this]
    exact h2
  · intro r2 hr2
    obtain ⟨r, hr, rfl⟩ := List.mem_map.mp hr2
    unfold markRow
    split
    · right; exact ⟨rfl, by simp⟩
    · exact h3 r hr

theorem mark_step {α : Type} (t : Table α) (ids : List Int) (ts : Int) :
    t.Step (t.mark ids ts) := by
  refine ⟨le_refl _, fun r2 hr2 => Or.inl ?_⟩
  obtain ⟨r, hr, rfl⟩ := List.mem_map.mp hr2
  refine ⟨r, hr, ?_, ?_⟩
  · unfold markRow; split <;> rfl
  · unfold markRow
    split
    · right; exact ⟨rfl, by simp⟩
    · left; exact ⟨rfl, rfl⟩

theorem delete_wf {α : Type} [EventRecord α] (t : Table α) (cutoff : Int) (h : t.WF) :
    (t.deleteOldSynced cutoff).1.WF := by
  obtain ⟨h1, h2, h3⟩ := h
  refine ⟨fun r hr => h1 r (List.mem_of_mem_filter hr), ?_,
    fun r hr => h3 r (List.mem_of_mem_filter hr)⟩
  exact h2.sublist ((List.filter_sublist _).map _)

theorem delete_step {α : Type} [EventRecord α] (t : Table α) (cutoff : Int) :
    t.Step (t.deleteOldSynced cutoff).1 :=
  ⟨le_refl _, fun r hr => Or.inl ⟨r, List.mem_of_mem_filter hr, rfl, Or.inl ⟨rfl, rfl⟩⟩⟩

theorem appendRow_spec {α : Type} (t : Table α) (rec : α) (hwf : t.WF) :
    (t.appendRow rec).WF ∧ t.seq ≤ (t.appendRow rec).seq ∧
    ∀ r2 ∈ (t.appendRow rec).rows,
      r2 ∈ t.rows ∨ (t.seq < r2.id ∧ r2.synced = 0 ∧ r2.pushed_at = none) := by
  obtain ⟨h1, h2, h3⟩ := hwf
  unfold Table.appendRow
  refine ⟨⟨?_, ?_, ?_⟩, by simp, ?_⟩
  · intro r hr
    rcases List.mem_append.mp hr with hr | hr
    · exact le_trans (h1 r hr) (by simp)
    · simp only [List.mem_singleton] at hr
      rw [hr]
  · simp only [List.map_append, List.map_cons, List.map_nil]
    rw [List.nodup_append]
    refine ⟨h2, by simp, ?_⟩
    intro a ha hb
    simp only [List.mem_singleton] at hb
    obtain ⟨r, hr, rfl⟩ := List.mem_map.mp ha
    have := h1 r hr
    omega
  · intro r hr
    rcases List.mem_append.mp hr with hr | hr
    · exact h3 r hr
    · simp only [List.mem_singleton] at hr
      rw [hr]
      left; exact ⟨rfl, rfl⟩
  · intro r hr
    rcases List.mem_append.mp hr with hr | hr
    · exact Or.inl hr
    · simp only [List.mem_singleton] at hr
      rw [hr]
      right; exact ⟨by simp, rfl, rfl⟩

/-- What a successful run of inserts does: old rows stay as they are, new rows
have ids above the old counter, `synced = 0` and a null `pushed_at`. -/
theorem insertAll_spec {α : Type} [EventRecord α] (recs : List α) :
    ∀ (t t2 : Table α), t.WF → t.insertAll recs = .ok t2 →
      t2.WF ∧ t.seq ≤ t2.seq ∧
      ∀ r2 ∈ t2.rows, r2 ∈ t.rows ∨ (t.seq < r2.id ∧ r2.synced = 0 ∧ r2.pushed_at = none) := by
  induction recs with
  | nil =>
    intro t t2 hwf h
    simp only [Table.insertAll] at h
    cases h
    exact ⟨hwf, le_refl _, fun r hr => Or.inl hr⟩
  | cons rec rest ih =>
    intro t t2 hwf h
    simp only [Table.insertAll] at h
    cases hi : t.insert rec with
    | error e => simp [hi] at h
    | ok t1 =>
      simp only [hi] at h
      unfold Table.insert at hi
      split at hi
      · cases hi
      · cases hi
        obtain ⟨hw1, hs1, hr1⟩ := appendRow_spec t rec hwf
        obtain ⟨hw2, hs2, hr2⟩ := ih _ t2 hw1 h
        refine ⟨hw2, le_trans hs1 hs2, fun r2 hmem => ?_⟩
        rcases hr2 r2 hmem with hold | ⟨hlt, hs, hp⟩
        · exact hr1 r2 hold
        · exact Or.inr ⟨lt_of_le_of_lt hs1 hlt, hs, hp⟩

theorem insertAll_step {α : Type} [EventRecord α] (recs : List α) (t t2 : Table α)
    (hwf : t.WF) (h : t.insertAll recs = .ok t2) : t2.WF ∧ t.Step t2 := by
  obtain ⟨hw, hs, hr⟩ := insertAll_spec recs t t2 hwf h
  refine ⟨hw, hs, fun r2 hr2 => ?_⟩
  rcases hr r2 hr2 with hold | hnew
  · exact Or.inl ⟨r2, hold, rfl, Or.inl ⟨rfl, rfl⟩⟩
  · exact Or.inr hnew

theorem empty_wf : Store.empty.WF := by
  refine ⟨⟨?_, ?_, ?_⟩, ⟨?_, ?_, ?_⟩, ⟨?_, ?_, ?_⟩⟩ <;> simp [Store.empty]

theorem storeStep_refl (s : Store) : s.Step s :=
  ⟨tableStep_refl _, tableStep_refl _, tableStep_refl _⟩

theorem InsertBatch_step (fault : Option String) (s s1 : Store) (traces : List TraceInsert)
    (errs : List ErrorInsert) (metrics : List MetricInsert) (hwf : s.WF)
    (h : InsertBatch fault s traces errs metrics = .ok s1) : s1.WF ∧ s.Step s1 := by
  unfold InsertBatch at h
  cases fault with
  | some e => simp at h
  | none =>
    simp only at h
    cases h1 : s.llm_traces.insertAll traces with
    | error e => simp [h1] at h
    | ok t1 =>
      cases h2 : s.error_events.insertAll errs with
      | error e => simp [h1, h2] at h
      | ok t2 =>
        cases h3 : s.system_metrics.insertAll metrics with
        | error e => simp [h1, h2, h3] at h
        | ok t3 =>
          simp only [h1, h2, h3] at h
          cases h
          obtain ⟨w1, s1⟩ := insertAll_step traces _ t1 hwf.1 h1
          obtain ⟨w2, s2⟩ := insertAll_step errs _ t2 hwf.2.1 h2
          obtain ⟨w3, s3⟩ := insertAll_step metrics _ t3 hwf.2.2 h3
          exact ⟨⟨w1, w2, w3⟩, ⟨s1, s2, s3⟩⟩

theorem MarkEventsSynced_step (resolve : String → Option String) (now : Int)
    (fault : Option MarkFault) (s s1 : Store)
    (events : List PushEvent) (pushedAt : Int) (hwf : s.WF)
    (h : MarkEventsSynced resolve now fault s events pushedAt = .ok s1) :
    s1.WF ∧ s.Step s1 := by
  unfold MarkEventsSynced at h
  split at h
  · cases h
  · split at h
    · cases h
    · split at h
      · cases h
      · simp only at h
        split at h
        · cases h
        · cases h
          split
          · exact ⟨⟨mark_wf _ _ _ hwf.1, mark_wf _ _ _ hwf.2.1, mark_wf _ _ _ hwf.2.2⟩,
              ⟨mark_step _ _ _, mark_step _ _ _, mark_step _ _ _⟩⟩
          · exact ⟨⟨mark_wf _ _ _ hwf.1, mark_wf _ _ _ hwf.2.1, mark_wf _ _ _ hwf.2.2⟩,
              ⟨mark_step _ _ _, mark_step _ _ _, mark_step _ _ _⟩⟩

theorem CleanupOldSynced_step (usagePct : ℚ) (dbSize nowNs : Int) (failAt : Option Nat)
    (s : Store) (retentionDays : Int) (diskPct : ℚ) (dbBytes : Int) (hwf : s.WF) :
    (CleanupOldSynced usagePct dbSize nowNs failAt s retentionDays diskPct dbBytes).2.WF ∧
    s.Step (CleanupOldSynced usagePct dbSize nowNs failAt s retentionDays diskPct dbBytes).2 := by
  unfold CleanupOldSynced
  split
  · exact ⟨hwf, storeStep_refl s⟩
  · simp only
    split
    · exact ⟨hwf, storeStep_refl s⟩
    · split
      · exact ⟨⟨delete_wf _ _ hwf.1, hwf.2.1, hwf.2.2⟩,
          ⟨delete_step _ _, tableStep_refl _, tableStep_refl _⟩⟩
      · split
        · exact ⟨⟨delete_wf _ _ hwf.1, delete_wf _ _ hwf.2.1, hwf.2.2⟩,
            ⟨delete_step _ _, delete_step _ _, tableStep_refl _⟩⟩
        · exact ⟨⟨delete_wf _ _ hwf.1, delete_wf _ _ hwf.2.1, delete_wf _ _ hwf.2.2⟩,
            ⟨delete_step _ _, delete_step _ _, delete_step _ _⟩⟩

/-- Every store operation keeps the tables well formed and is a `Store.Step`. -/
theorem apply_step (s : Store) (op : StoreOp) (hwf : s.WF) :
    (op.apply s).WF ∧ s.Step (op.apply s) := by
  cases op with
  | insertBatch fault traces errs metrics =>
    simp only [StoreOp.apply]
    cases h : InsertBatch fault s traces errs metrics with
    | error e => exact ⟨hwf, storeStep_refl s⟩
    | ok s1 => exact InsertBatch_step fault s s1 traces errs metrics hwf h
  | markEventsSynced resolve now fault events pushedAt =>
    simp only [StoreOp.apply]
    cases h : MarkEventsSynced resolve now fault s events pushedAt with
    | error e => exact ⟨hwf, storeStep_refl s⟩
    | ok s1 => exact MarkEventsSynced_step resolve now fault s s1 events pushedAt hwf h
  | cleanupOldSynced usagePct dbSize nowNs failAt retentionDays diskPct dbBytes =>
    exact CleanupOldSynced_step usagePct dbSize nowNs failAt s retentionDays diskPct dbBytes hwf

theorem runOps_later (ops : List StoreOp) :
    ∀ s : Store, s.WF → (runOps s ops).WF ∧ s.Later (runOps s ops) := by
  induction ops with
  | nil =>
    intro s hwf
    exact ⟨hwf, tableLater_refl _, tableLater_refl _, tableLater_refl _⟩
  | cons op rest ih =>
    intro s hwf
    obtain ⟨hw1, hs1⟩ := apply_step s op hwf
    obtain ⟨hw2, hl2⟩ := ih (op.apply s) hw1
    refine ⟨hw2, ?_, ?_, ?_⟩
    · exact tableLater_trans _ _ _ (tableLater_of_step _ _ hs1.1) hl2.1
    · exact tableLater_trans _ _ _ (tableLater_of_step _ _ hs1.2.1) hl2.2.1
    · exact tableLater_trans _ _ _ (tableLater_of_step _ _ hs1.2.2) hl2.2.2

theorem table_created {α : Type} (t t2 : Table α) (hs : t.Step t2) (id v : Int)
    (pa : Option Int) (h1 : t.syncState id = none) (h2 : t2.syncState id = some (v, pa)) :
    v = 0 ∧ pa = none := by
  obtain ⟨r2, hr2, hid, hfl⟩ := mem_of_syncState_some t2 id _ h2
  simp only [Prod.mk.injEq] at hfl
  rcases hs.2 r2 hr2 with ⟨r1, hr1, hid1, -⟩ | ⟨-, h0, hp⟩
  · exact absurd (by rw [hid1, hid]) ((syncState_none_iff t id).mp h1 r1 hr1)
  · exact ⟨by rw [← hfl.1, h0], by rw [← hfl.2, hp]⟩

theorem table_flags {α : Type} (t : Table α) (hwf : t.WF) (id v : Int) (pa : Option Int)
    (h : t.syncState id = some (v, pa)) : (v = 0 ∧ pa = none) ∨ (v = 1 ∧ pa ≠ none) := by
  obtain ⟨r, hr, -, hfl⟩ := mem_of_syncState_some t id _ h
  simp only [Prod.mk.injEq] at hfl
  rw [← hfl.1, ← hfl.2]
  exact hwf.2.2 r hr

theorem table_stays_synced {α : Type} (t t2 : Table α) (hwf : t.WF) (hl : t.Later t2)
    (id v2 : Int) (pa pa2 : Option Int) (h1 : t.syncState id = some (1, pa))
    (h2 : t2.syncState id = some (v2, pa2)) : v2 = 1 := by
  obtain ⟨r2, hr2, hid2, hfl2⟩ := mem_of_syncState_some t2 id _ h2
  obtain ⟨r0, hr0, hid0, -⟩ := mem_of_syncState_some t id _ h1
  simp only [Prod.mk.injEq] at hfl2
  rcases hl.2 r2 hr2 with ⟨r1, hr1, hid1, hk⟩ | hnew
  · have hs := syncState_some_of_mem t hwf.2.1 r1 hr1
    rw [hid1, hid2, h1] at hs
    simp only [Option.some.injEq, Prod.mk.injEq] at hs
    rw [← hfl2.1]
    exact hk hs.1.symm
  · have := hwf.1 r0 hr0
    omega

theorem table_gone {α : Type} (t t2 t3 : Table α) (hwf : t.WF) (h12 : t.Later t2)
    (h23 : t2.Later t3) (id : Int) (x : Int × Option Int) (h1 : t.syncState id = some x)
    (h2 : t2.syncState id = none) : t3.syncState id = none := by
  rw [syncState_none_iff]
  intro r3 hr3 hid3
  obtain ⟨r0, hr0, hid0, -⟩ := mem_of_syncState_some t id _ h1
  rcases h23.2 r3 hr3 with ⟨r2, hr2, hid2, -⟩ | hnew
  · exact (syncState_none_iff t2 id).mp h2 r2 hr2 (by rw [hid2, hid3])
  · have := hwf.1 r0 hr0
    have := h12.1
    omega

/-- C10: in every store reached from the empty database by any sequence of
`InsertBatch`, `MarkEventsSynced` and `CleanupOldSynced` calls, for every row
`(table, id)`: (1) an operation that creates the row creates it with
`synced = 0` and a null `pushed_at`; (2) the row is either unsynced with a null
`pushed_at` or synced with `pushed_at` set; (3) once `synced = 1` it stays 1
for as long as the row exists, whatever operations follow; (4) the operation
that changes the flag from 0 to 1 sets `pushed_at`, which was null before;
(5) a row that was deleted never comes back, so the flag of a row changes at
most once. -/
theorem synced_flag_lifecycle (ops : List StoreOp) (table : String) (id : Int) :
    (∀ (op : StoreOp) (v : Int) (pa : Option Int),
      (runOps Store.empty ops).syncState table id = none →
      (op.apply (runOps Store.empty ops)).syncState table id = some (v, pa) →
      v = 0 ∧ pa = none) ∧
    (∀ (v : Int) (pa : Option Int),
      (runOps Store.empty ops).syncState table id = some (v, pa) →
      (v = 0 ∧ pa = none) ∨ (v = 1 ∧ pa ≠ none)) ∧
    (∀ (later : List StoreOp) (pa pa2 : Option Int) (v2 : Int),
      (runOps Store.empty ops).syncState table id = some (1, pa) →
      (runOps (runOps Store.empty ops) later).syncState table id = some (v2, pa2) →
      v2 = 1) ∧
    (∀ (op : StoreOp) (pa pa2 : Option Int),
      (runOps Store.empty ops).syncState table id = some (0, pa) →
      (op.apply (runOps Store.empty ops)).syncState table id = some (1, pa2) →
      pa = none ∧ pa2 ≠ none) ∧
    (∀ (later later2 : List StoreOp) (x : Int × Option Int),
      (runOps Store.empty ops).syncState table id = some x →
      (runOps (runOps Store.empty ops) later).syncState table id = none →
      (runOps (runOps (runOps Store.empty ops) later) later2).syncState table id = none) := by
  obtain ⟨hwf, -⟩ := runOps_later ops Store.empty empty_wf
  have flags : ∀ (s : Store), s.WF → ∀ (v : Int) (pa : Option Int),
      s.syncState table id = some (v, pa) → (v = 0 ∧ pa = none) ∨ (v = 1 ∧ pa ≠ none) := by
    intro s hs v pa h
    unfold Store.syncState at h
    split_ifs at h
    · exact table_flags _ hs.1 id v pa h
    · exact table_flags _ hs.2.1 id v pa h
    · exact table_flags _ hs.2.2 id v pa h
  refine ⟨?_, flags _ hwf, ?_, ?_, ?_⟩
  · intro op v pa h1 h2
    obtain ⟨-, hst⟩ := apply_step _ op hwf
    unfold Store.syncState at h1 h2
    split_ifs at h1 h2
    · exact table_created _ _ hst.1 id v pa h1 h2
    · exact table_created _ _ hst.2.1 id v pa h1 h2
    · exact table_created _ _ hst.2.2 id v pa h1 h2
  · intro later pa pa2 v2 h1 h2
    obtain ⟨-, hl⟩ := runOps_later later _ hwf
    unfold Store.syncState at h1 h2
    split_ifs at h1 h2
    · exact table_stays_synced _ _ hwf.1 hl.1 id v2 pa pa2 h1 h2
    · exact table_stays_synced _ _ hwf.2.1 hl.2.1 id v2 pa pa2 h1 h2
    · exact table_stays_synced _ _ hwf.2.2 hl.2.2 id v2 pa pa2 h1 h2
  · intro op pa pa2 h1 h2
    obtain ⟨hw2, -⟩ := apply_step _ op hwf
    have f1 := flags _ hwf 0 pa h1
    have f2 := flags _ hw2 1 pa2 h2
    constructor
    · rcases f1 with ⟨-, h⟩ | ⟨h, -⟩
      · exact h
      · omega
    · rcases f2 with ⟨h, -⟩ | ⟨-, h⟩
      · omega
      · exact h
  · intro later later2 x h1 h2
    obtain ⟨hw2, hl⟩ := runOps_later later _ hwf
    obtain ⟨-, hl2⟩ := runOps_later later2 _ hw2
    unfold Store.syncState at h1 h2 ⊢
    split_ifs at h1 h2 ⊢
    · exact table_gone _ _ _ hwf.1 hl.1 hl2.1 id x h1 h2
    · exact table_gone _ _ _ hwf.2.1 hl.2.1 hl2.2.1 id x h1 h2
    · exact table_gone _ _ _ hwf.2.2 hl.2.2 hl2.2.2 id x h1 h2

/-- Witness of C10: the seeded trace row is created unsynced, marked once with
`pushed_at` set, stays synced under a further mark, and once deleted by a
retention pass does not come back. -/
theorem synced_flag_lifecycle_witness :
    (Store.empty.syncState "llm_traces" 1 = none ∧
      (seedInsertOp.apply Store.empty).syncState "llm_traces" 1 = some (0, none)) ∧
    ((runOps Store.empty [seedInsertOp]).syncState "llm_traces" 1 = some (0, none) ∧
      (seedMarkOp.apply (runOps Store.empty [seedInsertOp])).syncState "llm_traces" 1 =
        some (1, some 1700000001000)) ∧
    ((runOps Store.empty [seedInsertOp, seedMarkOp]).syncState "llm_traces" 1 =
        some (1, some 1700000001000) ∧
      (runOps (runOps Store.empty [seedInsertOp, seedMarkOp]) [seedMarkOp, seedInsertOp]).syncState
        "llm_traces" 1 = some (1, some 1700000001000)) ∧
    ((runOps (runOps Store.empty [seedInsertOp, seedMarkOp]) [seedCleanupOp]).syncState
        "llm_traces" 1 = none ∧
      (runOps (runOps (runOps Store.empty [seedInsertOp, seedMarkOp]) [seedCleanupOp])
        [seedInsertOp]).syncState "llm_traces" 1 = none) := by
  have c1 := (synced_flag_lifecycle [] "llm_traces" 1).1 seedInsertOp 0 none
    (by decide!) (by decide!)
  have c4 := (synced_flag_lifecycle [seedInsertOp] "llm_traces" 1).2.2.2.1 seedMarkOp none
    (some 1700000001000) (by decide!) (by decide!)
  have c3 := (synced_flag_lifecycle [seedInsertOp, seedMarkOp] "llm_traces" 1).2.2.1
    [seedMarkOp, seedInsertOp] (some 1700000001000) (some 1700000001000) 1
    (by decide!) (by decide!)
  have c5 := (synced_flag_lifecycle [seedInsertOp, seedMarkOp] "llm_traces" 1).2.2.2.2
    [seedCleanupOp] [seedInsertOp] (1, some 1700000001000) (by decide!) (by decide!)
  exact ⟨⟨by decide!, by decide!⟩, ⟨by decide!, by decide!⟩, ⟨by decide!, by decide!⟩,
    ⟨by decide!, c5⟩⟩

/-! ### Scheduled push and final push -/

/-- While shutdown has not timed out waiting for the loops, it is past that
wait only if the push goroutine has exited. -/
theorem step_keeps_serial (st st1 : RtState) (ev : RtEvent)
    (hinv : st.timedOut = false → st.shut.pastLoops = true → st.loop = .exited)
    (h : st.step ev = some st1) :
    st1.timedOut = false → st1.shut.pastLoops = true → st1.loop = .exited := by
  obtain ⟨loop, shut, cancelled, timedOut⟩ := st
  cases ev <;> simp only [RtState.step] at h
  case tick d =>
    split at h
    · rename_i hc
      cases h
      intro h1 h2
      have hx : loop = .exited := hinv h1 h2
      rw [hx] at hc
      exact absurd hc.1 (by decide)
    · cases h
  case pushReturns =>
    split at h
    · rename_i hc
      cases h
      intro h1 h2
      have hx : loop = .exited := hinv h1 h2
      rw [hx] at hc
      exact absurd hc (by decide)
    · cases h
  case loopSeesCancel =>
    split at h
    · cases h; intro _ _; rfl
    · cases h
  case beginShutdown =>
    split at h
    · cases h; intro _ h2; simp [ShutdownPC.pastLoops] at h2
    · cases h
  case loopsDone =>
    split at h
    · split at h
      · rename_i hc
        cases h
        intro _ _
        exact hc
      · cases h
    · cases h
  case graceExpires =>
    split at h
    · cases h; intro h1; simp at h1
    · cases h
  case workerDrained d =>
    split at h
    · rename_i hc
      cases h
      intro h1 _
      exact hinv h1 (by rw [hc.1]; rfl)
    · cases h
  case finalReturns =>
    split at h
    · rename_i hc
      cases h
      intro h1 _
      exact hinv h1 (by rw [hc]; rfl)
    · cases h
  case elapse dt =>
    split at h
    · cases h
      intro h1 h2
      have hp : shut.pastLoops = true := by
        cases shut <;> simp_all [ShutdownPC.after, ShutdownPC.pastLoops]
      have := hinv h1 hp
      simp only at this ⊢
      rw [this]
      rfl
    · cases h

theorem run_keeps_serial (evs : List RtEvent) :
    ∀ (st st1 : RtState),
      (st.timedOut = false → st.shut.pastLoops = true → st.loop = .exited) →
      st.run evs = some st1 →
      (st1.timedOut = false → st1.shut.pastLoops = true → st1.loop = .exited) := by
  induction evs with
  | nil =>
    intro st st1 hinv h
    simp only [RtState.run, Option.some.injEq] at h
    rw [← h]
    exact hinv
  | cons ev rest ih =>
    intro st st1 hinv h
    simp only [RtState.run] at h
    cases hs : st.step ev with
    | none => simp [hs] at h
    | some s1 =>
      simp only [hs] at h
      exact ih s1 st1 (step_keeps_serial st s1 ev hinv hs) h

/-- C9 as stated fails: a scheduled push that is still in flight when the 3 s
grace of shutdown expires runs concurrently with the final push. -/
theorem pushes_can_overlap :
    ∃ st, RtState.init.run overlappingRun = some st ∧ st.concurrentPush = true ∧
      st.loop = .pushing 7000 ∧ st.shut = .finalPush 1000 ∧ st.timedOut = true :=
  ⟨_, rfl, by decide, by decide, by decide, by decide⟩

/-- C9, amended: in every run of the runtime in which shutdown did not time
out waiting for the background loops, the scheduled push and the final push
are never in flight together, also when shutdown begins during a scheduled
push. -/
theorem pushes_serial_without_timeout (evs : List RtEvent) (st : RtState)
    (hrun : RtState.init.run evs = some st) (hno : st.timedOut = false) :
    st.concurrentPush = false := by
  have hinv := run_keeps_serial evs RtState.init st
    (fun _ h => by simp [RtState.init, ShutdownPC.pastLoops] at h) hrun hno
  unfold RtState.concurrentPush
  split
  · rename_i l1 l2 h1 h2
    have := hinv (by rw [h2]; rfl)
    rw [h1] at this
    cases this
  · rfl

/-- Witness of C9 (amended): shutdown begins during a scheduled push that ends
within the grace; the final push starts after the loop has exited. -/
theorem pushes_serial_without_timeout_witness :
    ∃ st, RtState.init.run serialRun = some st ∧ st.timedOut = false ∧
      st.shut = .finalPush 1000 ∧ st.loop = .exited ∧ st.concurrentPush = false :=
  ⟨_, rfl, by decide, by decide, by decide,
    pushes_serial_without_timeout serialRun _ rfl (by decide)⟩

/-! ### `CleanupOldSynced` -/

theorem deleteOldSynced_rows {α : Type} [EventRecord α] (t : Table α) (cutoff : Int) :
    (t.deleteOldSynced cutoff).1.rows = t.rows.filter (fun r => !r.expired cutoff) ∧
    (t.deleteOldSynced cutoff).1.seq = t.seq ∧
    (t.deleteOldSynced cutoff).2 = (((t.rows.filter (Row.expired cutoff)).length : Nat) : Int) :=
  ⟨rfl, rfl, rfl⟩

theorem mem_filter_not_expired {α : Type} [EventRecord α] (rows : List (Row α)) (cutoff : Int)
    (r : Row α) (hr : r ∈ rows) (h : r.synced = 0 ∨ cutoff ≤ EventRecord.createdAt r.data) :
    r ∈ rows.filter (fun r => !r.expired cutoff) := by
  refine List.mem_filter.mpr ⟨hr, ?_⟩
  simp only [Row.expired, Bool.not_eq_true', decide_eq_false_iff_not, not_and, not_lt]
  intro h1
  rcases h with h0 | hc
  · omega
  · exact hc

theorem filter_expired_nil {α : Type} [EventRecord α] (rows : List (Row α)) (cutoff : Int)
    (h : ∀ r ∈ rows, r.synced = 0 ∨ cutoff ≤ EventRecord.createdAt r.data) :
    rows.filter (fun r => !r.expired cutoff) = rows := by
  rw [List.filter_eq_self]
  intro r hr
  exact (List.mem_filter.mp (mem_filter_not_expired rows cutoff r hr (h r hr))).2

/-- Without overflow, the cutoff is the clock in milliseconds minus
`retentionDays` days. -/
theorem cleanupCutoff_eq (nowNs retentionDays : Int) (h0 : 0 ≤ retentionDays)
    (h1 : retentionDays ≤ 106751) :
    cleanupCutoff nowNs retentionDays = nowNs / 1000000 - retentionDays * 86400000 := by
  unfold cleanupCutoff wrap64
  have e1 : (-retentionDays + 2 ^ 63) % 2 ^ 64 - 2 ^ 63 = -retentionDays := by omega
  rw [e1]
  have e2 : (-retentionDays * 24 + 2 ^ 63) % 2 ^ 64 - 2 ^ 63 = -retentionDays * 24 := by omega
  rw [e2]
  have e3 : (-retentionDays * 24 * 3600000000000 + 2 ^ 63) % 2 ^ 64 - 2 ^ 63 =
      -retentionDays * 24 * 3600000000000 := by omega
  rw [e3]
  omega

/-- C11: a retention pass only ever removes rows with `synced = 1` and
`created_at < cutoff`; every row with `synced = 0` and every row with
`created_at >= cutoff` is still present afterwards, also when a DELETE fails.
When the pass runs and returns no error, each of the three event tables is
left with exactly its rows that are not (`synced = 1` and `created_at <
cutoff`), in their order, and `deleted` is the number of rows removed. The
cutoff is the clock in milliseconds minus `retentionDays * 86400000` for
retentions of 0 to 106751 days. -/
theorem CleanupOldSynced_deletes_exactly (usagePct : ℚ) (dbSize nowNs : Int)
    (failAt : Option Nat) (s : Store) (retentionDays : Int) (diskPct : ℚ) (dbBytes : Int)
    (deleted : Int) (didRun : Bool) (err : Option String) (s1 : Store)
    (h : CleanupOldSynced usagePct dbSize nowNs failAt s retentionDays diskPct dbBytes =
      ((deleted, didRun, err), s1)) :
    ((∀ r ∈ s1.llm_traces.rows, r ∈ s.llm_traces.rows) ∧
      (∀ r ∈ s1.error_events.rows, r ∈ s.error_events.rows) ∧
      (∀ r ∈ s1.system_metrics.rows, r ∈ s.system_metrics.rows)) ∧
    ((∀ r ∈ s.llm_traces.rows,
        r.synced = 0 ∨ cleanupCutoff nowNs retentionDays ≤ r.data.CreatedAt →
        r ∈ s1.llm_traces.rows) ∧
      (∀ r ∈ s.error_events.rows,
        r.synced = 0 ∨ cleanupCutoff nowNs retentionDays ≤ r.data.CreatedAt →
        r ∈ s1.error_events.rows) ∧
      (∀ r ∈ s.system_metrics.rows,
        r.synced = 0 ∨ cleanupCutoff nowNs retentionDays ≤ r.data.CreatedAt →
        r ∈ s1.system_metrics.rows)) ∧
    (didRun = true → err = none →
      s1.llm_traces.rows = s.llm_traces.rows.filter
        (fun r => !decide (r.synced = 1 ∧ r.data.CreatedAt < cleanupCutoff nowNs retentionDays)) ∧
      s1.error_events.rows = s.error_events.rows.filter
        (fun r => !decide (r.synced = 1 ∧ r.data.CreatedAt < cleanupCutoff nowNs retentionDays)) ∧
      s1.system_metrics.rows = s.system_metrics.rows.filter
        (fun r => !decide (r.synced = 1 ∧ r.data.CreatedAt < cleanupCutoff nowNs retentionDays)) ∧
      deleted =
        (((s.llm_traces.rows.filter (fun r =>
            decide (r.synced = 1 ∧ r.data.CreatedAt < cleanupCutoff nowNs retentionDays))).length
          + (s.error_events.rows.filter (fun r =>
            decide (r.synced = 1 ∧ r.data.CreatedAt < cleanupCutoff nowNs retentionDays))).length
          + (s.system_metrics.rows.filter (fun r =>
            decide (r.synced = 1 ∧ r.data.CreatedAt < cleanupCutoff nowNs retentionDays))).length
          : Nat) : Int) ∧
      s1.push_log = s.push_log) ∧
    (0 ≤ retentionDays → retentionDays ≤ 106751 →
      cleanupCutoff nowNs retentionDays = nowNs / 1000000 - retentionDays * 86400000) := by
  have keep1 := mem_filter_not_expired s.llm_traces.rows (cleanupCutoff nowNs retentionDays)
  have keep2 := mem_filter_not_expired s.error_events.rows (cleanupCutoff nowNs retentionDays)
  have keep3 := mem_filter_not_expired s.system_metrics.rows (cleanupCutoff nowNs retentionDays)
  refine ⟨?_, ?_, ?_, cleanupCutoff_eq nowNs retentionDays⟩
  all_goals
    unfold CleanupOldSynced at h
    split at h
    · simp only [Prod.mk.injEq] at h
      obtain ⟨⟨-, hd, -⟩, rfl⟩ := h
      first
        | exact ⟨fun r hr => hr, fun r hr => hr, fun r hr => hr⟩
        | exact ⟨fun r hr _ => hr, fun r hr _ => hr, fun r hr _ => hr⟩
        | (intro hrun; rw [← hd] at hrun; cases hrun)
    · simp only at h
      split at h
      · simp only [Prod.mk.injEq] at h
        obtain ⟨⟨-, -, he⟩, rfl⟩ := h
        first
          | exact ⟨fun r hr => hr, fun r hr => hr, fun r hr => hr⟩
          | exact ⟨fun r hr _ => hr, fun r hr _ => hr, fun r hr _ => hr⟩
          | (intro _ hn; rw [← he] at hn; cases hn)
      · split at h
        · simp only [Prod.mk.injEq] at h
          obtain ⟨⟨-, -, he⟩, rfl⟩ := h
          first
            | exact ⟨fun r hr => List.mem_of_mem_filter hr, fun r hr => hr, fun r hr => hr⟩
            | exact ⟨fun r hr hk => keep1 r hr hk, fun r hr _ => hr, fun r hr _ => hr⟩
            | (intro _ hn; rw [← he] at hn; cases hn)
        · split at h
          · simp only [Prod.mk.injEq] at h
            obtain ⟨⟨-, -, he⟩, rfl⟩ := h
            first
              | exact ⟨fun r hr => List.mem_of_mem_filter hr,
                  fun r hr => List.mem_of_mem_filter hr, fun r hr => hr⟩
              | exact ⟨fun r hr hk => keep1 r hr hk, fun r hr hk => keep2 r hr hk,
                  fun r hr _ => hr⟩
              | (intro _ hn; rw [← he] at hn; cases hn)
          · simp only [Prod.mk.injEq] at h
            obtain ⟨⟨hdel, -, -⟩, rfl⟩ := h
            first
              | exact ⟨fun r hr => List.mem_of_mem_filter hr,
                  fun r hr => List.mem_of_mem_filter hr, fun r hr => List.mem_of_mem_filter hr⟩
              | exact ⟨fun r hr hk => keep1 r hr hk, fun r hr hk => keep2 r hr hk,
                  fun r hr hk => keep3 r hr hk⟩
              | (intro _ _
                 refine ⟨rfl, rfl, rfl, ?_, rfl⟩
                 rw [← hdel]
                 simp only [Table.deleteOldSynced]
                 push_cast
                 rfl)

/-- Witness of C11: two synced traces, one 48 h old and one new, one day of
retention and thresholds 0 and 0: one row is deleted and the new one remains. -/
theorem CleanupOldSynced_deletes_exactly_witness :
    ∃ s1, CleanupOldSynced 50 4096 (1700000000000 * 1000000) none retentionStore 1 0 0 =
        ((1, true, none), s1) ∧
      s1.llm_traces.rows =
        [retentionTrace 2 "bbbbbbbb-bbbb-4bbb-8bbb-bbbbbbbbbbbb" 1700000000000] ∧
      cleanupCutoff (1700000000000 * 1000000) 1 = 1700000000000 - 86400000 ∧
      (∀ r ∈ retentionStore.llm_traces.rows,
        r.synced = 0 ∨ cleanupCutoff (1700000000000 * 1000000) 1 ≤ r.data.CreatedAt →
        r ∈ s1.llm_traces.rows) := by
  have h : CleanupOldSynced 50 4096 (1700000000000 * 1000000) none retentionStore 1 0 0 =
      ((1, true, none),
        (CleanupOldSynced 50 4096 (1700000000000 * 1000000) none retentionStore 1 0 0).2) := by
    decide!
  obtain ⟨-, hkeep, -, hcut⟩ := CleanupOldSynced_deletes_exactly 50 4096
    (1700000000000 * 1000000) none retentionStore 1 0 0 1 true none _ h
  exact ⟨_, h, by decide!, by decide!, hkeep.1⟩

/-- C12: when the disk usage percent is below `diskThresholdPct` and the
database file size is below `dbThresholdBytes`, `CleanupOldSynced` returns
`deleted = 0`, `didRun = false` and no error and leaves the store as it is; in
every other case it reports `didRun = true`; thresholds 0 and 0 force a pass,
the usage percent and the file size being non-negative. -/
theorem CleanupOldSynced_throttle (usagePct : ℚ) (dbSize nowNs : Int) (failAt : Option Nat)
    (s : Store) (retentionDays : Int) (diskPct : ℚ) (dbBytes : Int) :
    (usagePct < diskPct ∧ dbSize < dbBytes →
      CleanupOldSynced usagePct dbSize nowNs failAt s retentionDays diskPct dbBytes =
        ((0, false, none), s)) ∧
    (¬ (usagePct < diskPct ∧ dbSize < dbBytes) →
      (CleanupOldSynced usagePct dbSize nowNs failAt s retentionDays diskPct dbBytes).1.2.1 =
        true) ∧
    (0 ≤ usagePct ∨ 0 ≤ dbSize →
      (CleanupOldSynced usagePct dbSize nowNs failAt s retentionDays 0 0).1.2.1 = true) := by
  have run : ∀ (d : ℚ) (b : Int), ¬ (usagePct < d ∧ dbSize < b) →
      (CleanupOldSynced usagePct dbSize nowNs failAt s retentionDays d b).1.2.1 = true := by
    intro d b hn
    unfold CleanupOldSynced
    rw [if_neg hn]
    simp only
    split
    · rfl
    · split
      · rfl
      · split <;> rfl
  refine ⟨fun hlow => ?_, run diskPct dbBytes, fun hpos => run 0 0 ?_⟩
  · unfold CleanupOldSynced
    rw [if_pos hlow]
  · rintro ⟨h1, h2⟩
    rcases hpos with h | h
    · exact absurd h1 (not_lt.mpr h)
    · omega

/-- Witness of C12: thresholds of 80 percent and 100 MiB with a disk half
full and a small file skip the pass; thresholds 0 and 0 force it. -/
theorem CleanupOldSynced_throttle_witness :
    ((50 : ℚ) < 80 ∧ (4096 : Int) < 104857600) ∧
    CleanupOldSynced 50 4096 (1700000000000 * 1000000) none retentionStore 1 80 104857600 =
      ((0, false, none), retentionStore) ∧
    (CleanupOldSynced 50 4096 (1700000000000 * 1000000) none retentionStore 1 0 0).1.2.1 =
      true :=
  ⟨by norm_num,
    (CleanupOldSynced_throttle 50 4096 (1700000000000 * 1000000) none retentionStore 1 80
      104857600).1 (by norm_num),
    (CleanupOldSynced_throttle 50 4096 (1700000000000 * 1000000) none retentionStore 1 80
      104857600).2.2 (Or.inl (by norm_num))⟩

/-! ### `CheckpointIfWALExceeds` -/

/-- C13 as stated fails: with no WAL file and a negative threshold the size
read is 0, which exceeds the threshold, and the checkpoint is issued. -/
theorem checkpoint_issued_without_wal :
    CheckpointIfWALExceeds none none (-1) = ((true, none), ["PRAGMA wal_checkpoint(RESTART)"]) := by
  decide

/-- C13, amended: `CheckpointIfWALExceeds` issues the RESTART checkpoint, and
only it, if and only if the size it reads for the WAL file (0 when the file is
absent) is strictly greater than `thresholdBytes`; when that size is at most
the threshold, which for an absent file means a threshold of at least 0, it
returns `didRun = false` with no error and issues nothing; when the checkpoint
is issued it returns `didRun = true` and no error if the PRAGMA succeeds, and
`didRun = false` with the error if it fails. -/
theorem checkpoint_iff_wal_exceeds (wal : Option Int) (execFault : Option String)
    (thresholdBytes : Int) :
    ((CheckpointIfWALExceeds wal execFault thresholdBytes).2 = ["PRAGMA wal_checkpoint(RESTART)"] ↔
      thresholdBytes < WALSizeBytes wal) ∧
    (WALSizeBytes wal ≤ thresholdBytes →
      CheckpointIfWALExceeds wal execFault thresholdBytes = ((false, none), [])) ∧
    (wal = none → 0 ≤ thresholdBytes →
      CheckpointIfWALExceeds wal execFault thresholdBytes = ((false, none), [])) ∧
    (thresholdBytes < WALSizeBytes wal → execFault = none →
      CheckpointIfWALExceeds wal execFault thresholdBytes =
        ((true, none), ["PRAGMA wal_checkpoint(RESTART)"])) ∧
    (thresholdBytes < WALSizeBytes wal → execFault ≠ none →
      (CheckpointIfWALExceeds wal execFault thresholdBytes).1.1 = false ∧
      (CheckpointIfWALExceeds wal execFault thresholdBytes).1.2 ≠ none) := by
  unfold CheckpointIfWALExceeds
  by_cases h : WALSizeBytes wal ≤ thresholdBytes
  · rw [if_pos h]
    refine ⟨⟨fun h1 => by simp at h1, fun h1 => absurd h (not_le.mpr h1)⟩, fun _ => rfl,
      fun _ _ => rfl, fun h1 => absurd h (not_le.mpr h1), fun h1 => absurd h (not_le.mpr h1)⟩
  · rw [if_neg h]
    have hlt := not_le.mp h
    refine ⟨⟨fun _ => hlt, fun _ => by cases execFault <;> rfl⟩, fun h1 => absurd h1 h, ?_, ?_, ?_⟩
    · intro hw h0
      rw [hw] at h
      exact absurd h0 h
    · intro _ he
      rw [he]
    · intro _ he
      cases execFault with
      | none => exact absurd rfl he
      | some e => exact ⟨rfl, by simp⟩

/-- Witness of C13 (amended): the test's threshold 0 with a WAL of 4152 bytes
issues the checkpoint; the default threshold does not, nor does an absent WAL. -/
theorem checkpoint_iff_wal_exceeds_witness :
    ((0 : Int) < WALSizeBytes (some 4152) ∧
      CheckpointIfWALExceeds (some 4152) none 0 =
        ((true, none), ["PRAGMA wal_checkpoint(RESTART)"])) ∧
    (WALSizeBytes (some 4152) ≤ 52428800 ∧
      CheckpointIfWALExceeds (some 4152) none 52428800 = ((false, none), [])) ∧
    CheckpointIfWALExceeds none none 0 = ((false, none), []) :=
  ⟨⟨by decide, (checkpoint_iff_wal_exceeds (some 4152) none 0).2.2.2.1 (by decide) rfl⟩,
    ⟨by decide, (checkpoint_iff_wal_exceeds (some 4152) none 52428800).2.1 (by decide)⟩,
    (checkpoint_iff_wal_exceeds none none 0).2.2.1 rfl (le_refl _)⟩

/-! ### `TruncateBytes` -/

/-- C14: for every cap `m > 0`, `TruncateBytes s m` is the first
`min (len s) m` bytes of `s`: `s` itself when it has at most `m` bytes, and
otherwise a prefix of exactly `m` bytes, cut wherever the cap falls; the
three-byte prefix of the UTF-8 text "abé" ends in the first byte of the
two-byte encoding of "é". -/
theorem TruncateBytes_first_bytes (s : Bytes) (m : Int) (hm : 0 < m) :
    TruncateBytes s m = s.take (min s.length m.toNat) ∧
    (((s.length : Nat) : Int) ≤ m → TruncateBytes s m = s) ∧
    (m < ((s.length : Nat) : Int) →
      (TruncateBytes s m).length = m.toNat ∧ TruncateBytes s m = s.take m.toNat ∧
      s = TruncateBytes s m ++ s.drop m.toNat) ∧
    (utf8Encode "é" = [0xC3, 0xA9] ∧
      TruncateBytes (utf8Encode "abé") 3 = utf8Encode "ab" ++ [0xC3]) := by
  have hpos : ¬ m ≤ 0 := by omega
  refine ⟨?_, ?_, ?_, by decide, by decide⟩
  · unfold TruncateBytes
    rw [if_neg hpos]
    split
    · rename_i h
      rw [List.take_of_length_le]
      omega
    · rename_i h
      congr 1
      omega
  · intro h
    unfold TruncateBytes
    rw [if_neg hpos, if_pos h]
  · intro h
    have hn : ¬ ((s.length : Nat) : Int) ≤ m := by omega
    unfold TruncateBytes
    rw [if_neg hpos, if_neg hn]
    refine ⟨?_, rfl, (List.take_append_drop _ _).symm⟩
    rw [List.length_take]
    omega

/-- Witness of C14: a cap of 8 on a 16-byte input leaves its first 8 bytes. -/
theorem TruncateBytes_first_bytes_witness :
    (ascii "0123456789abcdef").length = 16 ∧
    TruncateBytes (ascii "0123456789abcdef") 8 = ascii "01234567" ∧
    (TruncateBytes (ascii "0123456789abcdef") 8).length = 8 := by
  have h := (TruncateBytes_first_bytes (ascii "0123456789abcdef") 8 (by decide)).2.2.1 (by decide)
  exact ⟨by decide, by decide, h.1⟩

/-! ### `TryEnqueue` -/

theorem enqueueAll_spec (evs : List Event) : ∀ ch : Chan,
    (enqueueAll ch evs).1 =
      (List.range evs.length).map (fun i => decide (ch.buf.length + i < ch.cap)) ∧
    (enqueueAll ch evs).2.cap = ch.cap ∧
    (enqueueAll ch evs).2.buf = ch.buf ++ evs.take (ch.cap - ch.buf.length) := by
  induction evs with
  | nil => intro ch; simp [enqueueAll]
  | cons e rest ih =>
    intro ch
    simp only [enqueueAll, List.length_cons, List.range_succ_eq_map, List.map_cons, List.map_map]
    by_cases h : ch.buf.length < ch.cap
    · have ht : TryEnqueue ch e = (true, { ch with buf := ch.buf ++ [e] }) := by
        unfold TryEnqueue; rw [if_pos h]
      obtain ⟨h1, h2, h3⟩ := ih { ch with buf := ch.buf ++ [e] }
      rw [ht]
      refine ⟨?_, h2, ?_⟩
      · rw [h1]
        simp only [List.length_append, List.length_singleton, Nat.add_zero, h, decide_True,
          List.cons.injEq, true_and]
        apply List.map_congr_left
        intro i _
        simp only [Function.comp, Nat.succ_eq_add_one]
        congr 1
        apply propext
        constructor <;> intro hh <;> omega
      · rw [h3]
        simp only [List.length_append, List.length_singleton]
        have hc : ch.cap - ch.buf.length = (ch.cap - (ch.buf.length + 1)) + 1 := by omega
        rw [hc, List.take_succ_cons, List.append_assoc, List.singleton_append]
    · have ht : TryEnqueue ch e = (false, ch) := by
        unfold TryEnqueue; rw [if_neg h]
      obtain ⟨h1, h2, h3⟩ := ih ch
      rw [ht]
      refine ⟨?_, h2, ?_⟩
      · rw [h1]
        simp only [Nat.add_zero, h, decide_False, List.cons.injEq, true_and]
        apply List.map_congr_left
        intro i _
        simp only [Function.comp, Nat.succ_eq_add_one]
        congr 1
        apply propext
        constructor <;> intro hh <;> omega
      · rw [h3]
        have hc : ch.cap - ch.buf.length = 0 := by omega
        rw [hc, List.take_zero, List.take_zero]

theorem range_lt_results (c : Nat) :
    (List.range (c + 1)).map (fun i => decide (0 + i < c)) = List.replicate c true ++ [false] := by
  rw [List.range_succ, List.map_append]
  congr 1
  · rw [List.eq_replicate_iff]
    refine ⟨by simp, ?_⟩
    intro b hb
    rw [List.mem_map] at hb
    obtain ⟨i, hi, rfl⟩ := hb
    rw [List.mem_range] at hi
    simp [hi]
  · simp

/-- C15: on a FIFO queue of capacity `c`, `TryEnqueue` always returns: with
`true`, the event appended at the tail, if and only if the queue holds fewer
than `c` events, and otherwise with `false` and the queue unchanged; on an
empty queue of capacity `QueueCapacity` = 512 with no consumer, the first 512
of 513 enqueues succeed and the 513th fails. -/
theorem TryEnqueue_fifo (ch : Chan) (event : Event) :
    ((TryEnqueue ch event).1 = true ↔ ch.buf.length < ch.cap) ∧
    (ch.buf.length < ch.cap →
      TryEnqueue ch event = (true, { cap := ch.cap, buf := ch.buf ++ [event] })) ∧
    (¬ ch.buf.length < ch.cap → TryEnqueue ch event = (false, ch)) ∧
    QueueCapacity = 512 ∧
    (∀ evs : List Event, evs.length = 513 →
      (enqueueAll (Chan.make QueueCapacity) evs).1 = List.replicate 512 true ++ [false] ∧
      (enqueueAll (Chan.make QueueCapacity) evs).2.buf = evs.take 512) := by
  refine ⟨?_, ?_, ?_, rfl, ?_⟩
  · unfold TryEnqueue
    by_cases h : ch.buf.length < ch.cap
    · rw [if_pos h]; exact ⟨fun _ => h, fun _ => rfl⟩
    · rw [if_neg h]; exact ⟨fun h1 => by simp at h1, fun h1 => absurd h1 h⟩
  · intro h
    unfold TryEnqueue
    rw [if_pos h]
  · intro h
    unfold TryEnqueue
    rw [if_neg h]
  · intro evs hlen
    obtain ⟨h1, _, h3⟩ := enqueueAll_spec evs (Chan.make QueueCapacity)
    constructor
    · rw [h1, hlen]
      exact range_lt_results 512
    · rw [h3]
      rfl

/-- Witness of C15: `TestTryEnqueueSaturation`, capacity 1: the first enqueue
succeeds and the second fails; and 513 enqueues on the default capacity. -/
theorem TryEnqueue_fifo_witness :
    TryEnqueue (Chan.make 1) saturationEvent = (true, { cap := 1, buf := [saturationEvent] }) ∧
    TryEnqueue { cap := 1, buf := [saturationEvent] } saturationEvent =
      (false, { cap := 1, buf := [saturationEvent] }) ∧
    (enqueueAll (Chan.make QueueCapacity) (List.replicate 513 saturationEvent)).1 =
      List.replicate 512 true ++ [false] :=
  ⟨(TryEnqueue_fifo (Chan.make 1) saturationEvent).2.1 (by decide),
    (TryEnqueue_fifo { cap := 1, buf := [saturationEvent] } saturationEvent).2.2.1 (by decide),
    ((TryEnqueue_fifo (Chan.make 1) saturationEvent).2.2.2.2
      (List.replicate 513 saturationEvent) (List.length_replicate 513 saturationEvent)).1⟩

/-! ### `Runtime.Enqueue` -/

theorem Enqueue_cases (r : Runtime) (event : Event) :
    (∃ ch, r.ingestCh = some ch ∧ ch.buf.length < ch.cap ∧
      r.Enqueue event =
        (true, { ingestCh := some { cap := ch.cap, buf := ch.buf ++ [event] },
                 eventsReceived := r.eventsReceived + 1, eventsDropped := r.eventsDropped })) ∨
    ((r.ingestCh = none ∨ ∃ ch, r.ingestCh = some ch ∧ ¬ ch.buf.length < ch.cap) ∧
      r.Enqueue event =
        (false, { ingestCh := r.ingestCh, eventsReceived := r.eventsReceived,
                  eventsDropped := r.eventsDropped + 1 })) := by
  obtain ⟨ich, rec, drop⟩ := r
  cases ich with
  | none => exact Or.inr ⟨Or.inl rfl, rfl⟩
  | some ch =>
    by_cases h : ch.buf.length < ch.cap
    · refine Or.inl ⟨ch, rfl, h, ?_⟩
      simp only [Runtime.Enqueue, TryEnqueue, if_pos h, if_true]
    · refine Or.inr ⟨Or.inr ⟨ch, rfl, h⟩, ?_⟩
      simp only [Runtime.Enqueue, TryEnqueue, if_neg h, Bool.false_eq_true, if_false]

theorem Enqueue_sum (r : Runtime) (event : Event) :
    (r.Enqueue event).2.eventsReceived + (r.Enqueue event).2.eventsDropped =
      r.eventsReceived + r.eventsDropped + 1 := by
  rcases Enqueue_cases r event with ⟨ch, _, _, h⟩ | ⟨_, h⟩
  · rw [h]; simp only; omega
  · rw [h]; simp only; omega

theorem runQueueOps_sum (ops : List QueueOp) : ∀ r : Runtime,
    (runQueueOps r ops).eventsReceived + (runQueueOps r ops).eventsDropped =
      r.eventsReceived + r.eventsDropped + ((enqueueCalls ops : Nat) : Int) := by
  induction ops with
  | nil => intro r; simp [runQueueOps, enqueueCalls]
  | cons op rest ih =>
    intro r
    have hstep : runQueueOps r (op :: rest) = runQueueOps (QueueOp.apply r op) rest := rfl
    rw [hstep, ih]
    cases op with
    | enqueue event =>
      have h := Enqueue_sum r event
      have hc : enqueueCalls (QueueOp.enqueue event :: rest) = enqueueCalls rest + 1 := by
        simp [enqueueCalls, QueueOp.isEnqueue]
      rw [hc]
      simp only [QueueOp.apply]
      push_cast
      omega
    | receive =>
      have hc : enqueueCalls (QueueOp.receive :: rest) = enqueueCalls rest := by
        simp [enqueueCalls, QueueOp.isEnqueue]
      rw [hc]
      cases hch : r.ingestCh <;> simp [QueueOp.apply, hch]
    | close =>
      have hc : enqueueCalls (QueueOp.close :: rest) = enqueueCalls rest := by
        simp [enqueueCalls, QueueOp.isEnqueue]
      rw [hc]
      simp [QueueOp.apply]

/-- C16: every call of `Runtime.Enqueue` increments exactly one counter by
one: `eventsReceived`, returning `true`, when the event was placed at the tail
of the queue, and `eventsDropped`, returning `false` and leaving the queue as it
was, when the queue is full or already closed; hence over any sequence of
enqueues, worker receives and the closing of the queue, the sum of the two
counters grows by the number of calls of `Enqueue`, and is that number when both
counters start at zero. -/
theorem Enqueue_counts_exactly_one (r : Runtime) (event : Event) (ops : List QueueOp)
    (cap : Nat) :
    ((∃ ch, r.ingestCh = some ch ∧ ch.buf.length < ch.cap ∧
        (r.Enqueue event).1 = true ∧
        (r.Enqueue event).2.ingestCh = some { cap := ch.cap, buf := ch.buf ++ [event] } ∧
        (r.Enqueue event).2.eventsReceived = r.eventsReceived + 1 ∧
        (r.Enqueue event).2.eventsDropped = r.eventsDropped) ∨
      ((r.ingestCh = none ∨ ∃ ch, r.ingestCh = some ch ∧ ¬ ch.buf.length < ch.cap) ∧
        (r.Enqueue event).1 = false ∧
        (r.Enqueue event).2.ingestCh = r.ingestCh ∧
        (r.Enqueue event).2.eventsReceived = r.eventsReceived ∧
        (r.Enqueue event).2.eventsDropped = r.eventsDropped + 1)) ∧
    (runQueueOps r ops).eventsReceived + (runQueueOps r ops).eventsDropped =
      r.eventsReceived + r.eventsDropped + ((enqueueCalls ops : Nat) : Int) ∧
    (runQueueOps (Runtime.start cap) ops).eventsReceived +
        (runQueueOps (Runtime.start cap) ops).eventsDropped = ((enqueueCalls ops : Nat) : Int) := by
  refine ⟨?_, runQueueOps_sum ops r, ?_⟩
  · rcases Enqueue_cases r event with ⟨ch, h1, h2, h⟩ | ⟨h1, h⟩
    · exact Or.inl ⟨ch, h1, h2, by rw [h], by rw [h], by rw [h], by rw [h]⟩
    · exact Or.inr ⟨h1, by rw [h], by rw [h], by rw [h], by rw [h]⟩
  · have h := runQueueOps_sum ops (Runtime.start cap)
    simpa [Runtime.start] using h

/-- Witness of C16: capacity 1 and two posts: one event received, one dropped. -/
theorem Enqueue_counts_exactly_one_witness :
    (runQueueOps (Runtime.start 1) [.enqueue saturationEvent, .enqueue saturationEvent]).eventsReceived = 1 ∧
    (runQueueOps (Runtime.start 1) [.enqueue saturationEvent, .enqueue saturationEvent]).eventsDropped = 1 ∧
    (runQueueOps (Runtime.start 1) [.enqueue saturationEvent, .enqueue saturationEvent]).eventsReceived +
      (runQueueOps (Runtime.start 1) [.enqueue saturationEvent, .enqueue saturationEvent]).eventsDropped =
      ((enqueueCalls [.enqueue saturationEvent, .enqueue saturationEvent] : Nat) : Int) :=
  ⟨by decide!, by decide!,
    (Enqueue_counts_exactly_one (Runtime.start 1) saturationEvent
      [.enqueue saturationEvent, .enqueue saturationEvent] 1).2.2⟩

/-! ### `PostTrace` and `PostError` -/

theorem PostTrace_cases {σ : Type} (decode : Bytes → Option traceRequest)
    (enqueue : σ → Event → Bool × σ) (now : Int) (body : Bytes) (st : σ) :
    (∃ req, decode body = some req ∧ req.Provider ≠ "" ∧ req.Model ≠ "" ∧
      (PostTrace decode enqueue now body st).code = 202 ∧
      ∃ event, (PostTrace decode enqueue now body st).offered = some event ∧
        (PostTrace decode enqueue now body st).enqueuer = (enqueue st event).2) ∨
    ((¬ ∃ req, decode body = some req ∧ req.Provider ≠ "" ∧ req.Model ≠ "") ∧
      (PostTrace decode enqueue now body st).code = 400 ∧
      (PostTrace decode enqueue now body st).offered = none ∧
      (PostTrace decode enqueue now body st).enqueuer = st) := by
  unfold PostTrace
  cases hd : decode body with
  | none => exact Or.inr ⟨by simp, rfl, rfl, rfl⟩
  | some req =>
    by_cases h : req.Provider = "" ∨ req.Model = ""
    · dsimp only
      rw [if_pos h]
      refine Or.inr ⟨?_, rfl, rfl, rfl⟩
      rintro ⟨req1, h1, h2, h3⟩
      cases h1
      rcases h with h | h
      · exact h2 h
      · exact h3 h
    · dsimp only
      rw [if_neg h]
      rw [not_or] at h
      exact Or.inl ⟨req, rfl, h.1, h.2, rfl, _, rfl, rfl⟩

theorem PostError_cases {σ : Type} (decode : Bytes → Option errorRequest)
    (enqueue : σ → Event → Bool × σ) (now : Int) (body : Bytes) (st : σ) :
    (∃ req, decode body = some req ∧ req.ErrorType ≠ "" ∧ req.Message ≠ [] ∧
      (PostError decode enqueue now body st).code = 202 ∧
      ∃ event, (PostError decode enqueue now body st).offered = some event ∧
        (PostError decode enqueue now body st).enqueuer = (enqueue st event).2) ∨
    ((¬ ∃ req, decode body = some req ∧ req.ErrorType ≠ "" ∧ req.Message ≠ []) ∧
      (PostError decode enqueue now body st).code = 400 ∧
      (PostError decode enqueue now body st).offered = none ∧
      (PostError decode enqueue now body st).enqueuer = st) := by
  unfold PostError
  cases hd : decode body with
  | none => exact Or.inr ⟨by simp, rfl, rfl, rfl⟩
  | some req =>
    by_cases h : req.ErrorType = "" ∨ req.Message = []
    · dsimp only
      rw [if_pos h]
      refine Or.inr ⟨?_, rfl, rfl, rfl⟩
      rintro ⟨req1, h1, h2, h3⟩
      cases h1
      rcases h with h | h
      · exact h2 h
      · exact h3 h
    · dsimp only
      rw [if_neg h]
      rw [not_or] at h
      exact Or.inl ⟨req, rfl, h.1, h.2, rfl, _, rfl, rfl⟩

/-- C17: the status code of `PostTrace` and of `PostError` is determined by
the request body: it is 202 exactly when the body decodes and the required
fields (provider and model; error_type and message) are non-empty, and 400
otherwise, in which case `Enqueue` is not called and the enqueuer is left as it
was; the code does not depend on the enqueuer, its state or what its `Enqueue`
returns, nor on the clock. -/
theorem Post_status_from_body {σ τ : Type}
    (decodeTrace : Bytes → Option traceRequest) (decodeError : Bytes → Option errorRequest)
    (enqueue : σ → Event → Bool × σ) (enqueue2 : τ → Event → Bool × τ)
    (now now2 : Int) (body : Bytes) (st : σ) (st2 : τ) :
    (((PostTrace decodeTrace enqueue now body st).code = 202 ↔
        ∃ req, decodeTrace body = some req ∧ req.Provider ≠ "" ∧ req.Model ≠ "") ∧
      ((PostTrace decodeTrace enqueue now body st).code ≠ 202 →
        (PostTrace decodeTrace enqueue now body st).code = 400 ∧
        (PostTrace decodeTrace enqueue now body st).offered = none ∧
        (PostTrace decodeTrace enqueue now body st).enqueuer = st) ∧
      (PostTrace decodeTrace enqueue now body st).code =
        (PostTrace decodeTrace enqueue2 now2 body st2).code) ∧
    (((PostError decodeError enqueue now body st).code = 202 ↔
        ∃ req, decodeError body = some req ∧ req.ErrorType ≠ "" ∧ req.Message ≠ []) ∧
      ((PostError decodeError enqueue now body st).code ≠ 202 →
        (PostError decodeError enqueue now body st).code = 400 ∧
        (PostError decodeError enqueue now body st).offered = none ∧
        (PostError decodeError enqueue now body st).enqueuer = st) ∧
      (PostError decodeError enqueue now body st).code =
        (PostError decodeError enqueue2 now2 body st2).code) := by
  constructor
  · rcases PostTrace_cases decodeTrace enqueue now body st with
      ⟨req, h1, h2, h3, h4, _⟩ | ⟨h1, h2, h3, h4⟩
    · refine ⟨⟨fun _ => ⟨req, h1, h2, h3⟩, fun _ => h4⟩, fun h => absurd h4 h, ?_⟩
      rcases PostTrace_cases decodeTrace enqueue2 now2 body st2 with
        ⟨_, _, _, _, k4, _⟩ | ⟨k1, _, _, _⟩
      · rw [h4, k4]
      · exact absurd ⟨req, h1, h2, h3⟩ k1
    · refine ⟨⟨fun h => ?_, fun h => absurd h h1⟩, fun _ => ⟨h2, h3, h4⟩, ?_⟩
      · rw [h2] at h
        exact absurd h (by decide)
      · rcases PostTrace_cases decodeTrace enqueue2 now2 body st2 with
          ⟨req, k1, k2, k3, _, _⟩ | ⟨_, k2, _, _⟩
        · exact absurd ⟨req, k1, k2, k3⟩ h1
        · rw [h2, k2]
  · rcases PostError_cases decodeError enqueue now body st with
      ⟨req, h1, h2, h3, h4, _⟩ | ⟨h1, h2, h3, h4⟩
    · refine ⟨⟨fun _ => ⟨req, h1, h2, h3⟩, fun _ => h4⟩, fun h => absurd h4 h, ?_⟩
      rcases PostError_cases decodeError enqueue2 now2 body st2 with
        ⟨_, _, _, _, k4, _⟩ | ⟨k1, _, _, _⟩
      · rw [h4, k4]
      · exact absurd ⟨req, h1, h2, h3⟩ k1
    · refine ⟨⟨fun h => ?_, fun h => absurd h h1⟩, fun _ => ⟨h2, h3, h4⟩, ?_⟩
      · rw [h2] at h
        exact absurd h (by decide)
      · rcases PostError_cases decodeError enqueue2 now2 body st2 with
          ⟨req, k1, k2, k3, _, _⟩ | ⟨_, k2, _, _⟩
        · exact absurd ⟨req, k1, k2, k3⟩ h1
        · rw [h2, k2]

/-- Witness of C17: `TestPostTraceQueueSaturationStillReturns202` on a runtime
whose queue has capacity 1: both posts are answered 202, the first event is
received and the second dropped; a body that does not decode is answered 400
and reaches no counter. -/
theorem Post_status_from_body_witness :
    (PostTrace sampleDecode Runtime.Enqueue 1700000000000 saturationBody (Runtime.start 1)).code = 202 ∧
    (PostTrace sampleDecode Runtime.Enqueue 1700000000001 saturationBody
      (PostTrace sampleDecode Runtime.Enqueue 1700000000000 saturationBody
        (Runtime.start 1)).enqueuer).code = 202 ∧
    (PostTrace sampleDecode Runtime.Enqueue 1700000000001 saturationBody
      (PostTrace sampleDecode Runtime.Enqueue 1700000000000 saturationBody
        (Runtime.start 1)).enqueuer).enqueuer.eventsReceived = 1 ∧
    (PostTrace sampleDecode Runtime.Enqueue 1700000000001 saturationBody
      (PostTrace sampleDecode Runtime.Enqueue 1700000000000 saturationBody
        (Runtime.start 1)).enqueuer).enqueuer.eventsDropped = 1 ∧
    (PostTrace sampleDecode Runtime.Enqueue 1700000000000 (ascii "not json") (Runtime.start 1)).code = 400 ∧
    (PostTrace sampleDecode Runtime.Enqueue 1700000000000 (ascii "not json")
      (Runtime.start 1)).enqueuer = Runtime.start 1 := by
  have h1 := (Post_status_from_body sampleDecode (fun _ => none) Runtime.Enqueue Runtime.Enqueue
    1700000000000 1700000000001 saturationBody (Runtime.start 1)
    (PostTrace sampleDecode Runtime.Enqueue 1700000000000 saturationBody
      (Runtime.start 1)).enqueuer).1
  have h2 := (Post_status_from_body sampleDecode (fun _ => none) Runtime.Enqueue Runtime.Enqueue
    1700000000000 1700000000000 (ascii "not json") (Runtime.start 1) (Runtime.start 1)).1.2.1
    (by decide!)
  have h202 := h1.1.mpr ⟨saturationRequest, by decide!, by decide, by decide⟩
  exact ⟨h202, h1.2.2 ▸ h202, by decide!, by decide!, h2.1, h2.2.2⟩

/-! ### The retries and the backoff of `sendWithRetry` -/

theorem wrap64_of_range (x : Int) (h1 : -2 ^ 63 ≤ x) (h2 : x < 2 ^ 63) : wrap64 x = x := by
  unfold wrap64
  omega

/-- Without overflow the backoff bound is `min (b * 2^a) (30 s)`. -/
theorem maxSleep_exact (b : Int) (a : Nat) (hb : 0 < b) (h : b * 2 ^ a < 2 ^ 63) :
    maxSleep b a = min (b * 2 ^ a) 30000000000 := by
  have hx : (1 : Int) ≤ 2 ^ a := one_le_pow₀ (by norm_num)
  have hxb : (2 : Int) ^ a ≤ b * 2 ^ a := le_mul_of_one_le_left (by positivity) hb
  have hpos : 0 < b * (2 : Int) ^ a := by positivity
  unfold maxSleep
  rw [wrap64_of_range (2 ^ a) (by linarith) (by linarith)]
  rw [wrap64_of_range (b * 2 ^ a) (by linarith) h]
  generalize b * (2 : Int) ^ a = y
  simp only [min_def]
  split_ifs <;> omega

/-- The backoff bound never exceeds `min (b * 2^a) (30 s)`, wrapped or not. -/
theorem maxSleep_le (b : Int) (a : Nat) (hb : 0 < b) :
    maxSleep b a ≤ min (b * 2 ^ a) 30000000000 := by
  by_cases h : b * 2 ^ a < 2 ^ 63
  · exact le_of_eq (maxSleep_exact b a hb h)
  · have h30 : maxSleep b a ≤ 30000000000 := by
      unfold maxSleep
      generalize wrap64 (b * wrap64 (2 ^ a)) = y
      simp only
      split_ifs <;> omega
    have hmin : min (b * 2 ^ a) 30000000000 = 30000000000 := by
      apply min_eq_right
      have : (30000000000 : Int) ≤ 2 ^ 63 := by norm_num
      linarith [not_lt.mp h]
    rw [hmin]
    exact h30

theorem requestCount_snoc_request (tr : List Action) (body : Bytes) (resp : Response) :
    requestCount (tr ++ [Action.request body resp]) = requestCount tr + 1 := by
  simp [requestCount, List.filter_append]

theorem requestCount_snoc_sleep (tr : List Action) (d : Int) :
    requestCount (tr ++ [Action.sleep d]) = requestCount tr := by
  simp [requestCount, List.filter_append]

theorem sendLoop_succ (env : Env) (p : Pusher) (body : Bytes) (fuel attempt : Nat)
    (lastErr : Option String) (tr : List Action)
    (hf : env.requestFault = false) (hr : env.respond (requestCount tr) ≠ .status 200) :
    sendLoop env p body (fuel + 1) attempt lastErr tr =
      if maxSleep p.baseBackoff attempt + 1 ≤ 0 then
        (.panic, tr ++ [Action.request body (env.respond (requestCount tr))])
      else if env.cancelled
          (sleepCount (tr ++ [Action.request body (env.respond (requestCount tr))])) = true then
        (.err "context canceled",
          tr ++ [Action.request body (env.respond (requestCount tr))] ++
            [Action.sleep
              (((env.rand63 (sleepCount
                (tr ++ [Action.request body (env.respond (requestCount tr))])) : Nat) : Int) %
                (maxSleep p.baseBackoff attempt + 1))])
      else
        sendLoop env p body fuel (attempt + 1)
          (some (match env.respond (requestCount tr) with
            | .status code => "push status " ++ toString code
            | .transportError => "transport error"))
          (tr ++ [Action.request body (env.respond (requestCount tr))] ++
            [Action.sleep
              (((env.rand63 (sleepCount
                (tr ++ [Action.request body (env.respond (requestCount tr))])) : Nat) : Int) %
                (maxSleep p.baseBackoff attempt + 1))]) := by
  rw [sendLoop]
  simp only [hf, Bool.false_eq_true, if_false, hr]

/-- One failed attempt of `sendWithRetry`: the call panics when the bound given
to `rand.Int63n` is not positive; otherwise it sleeps between 0 and the backoff
bound and, unless the context is done, goes on with the next attempt. -/
theorem sendLoop_failed_attempt (env : Env) (p : Pusher) (body : Bytes) (fuel attempt : Nat)
    (lastErr : Option String) (tr : List Action)
    (hf : env.requestFault = false) (hr : env.respond (requestCount tr) ≠ .status 200) :
    (maxSleep p.baseBackoff attempt + 1 ≤ 0 ∧
      sendLoop env p body (fuel + 1) attempt lastErr tr =
        (.panic, tr ++ [Action.request body (env.respond (requestCount tr))])) ∨
    (0 < maxSleep p.baseBackoff attempt + 1 ∧
      ∃ d : Int, 0 ≤ d ∧ d ≤ maxSleep p.baseBackoff attempt ∧
        ((env.cancelled (sleepCount (tr ++ [Action.request body (env.respond (requestCount tr))])) = true ∧
          sendLoop env p body (fuel + 1) attempt lastErr tr =
            (.err "context canceled",
              tr ++ [Action.request body (env.respond (requestCount tr))] ++ [Action.sleep d])) ∨
        (env.cancelled (sleepCount (tr ++ [Action.request body (env.respond (requestCount tr))])) = false ∧
          ∃ err, sendLoop env p body (fuel + 1) attempt lastErr tr =
            sendLoop env p body fuel (attempt + 1) (some err)
              (tr ++ [Action.request body (env.respond (requestCount tr))] ++ [Action.sleep d])))) := by
  rw [sendLoop_succ env p body fuel attempt lastErr tr hf hr]
  by_cases hn : maxSleep p.baseBackoff attempt + 1 ≤ 0
  · left
    exact ⟨hn, by rw [if_pos hn]⟩
  · right
    have hpos : 0 < maxSleep p.baseBackoff attempt + 1 := not_le.mp hn
    have hlt := Int.emod_lt_of_pos
      ((env.rand63 (sleepCount (tr ++ [Action.request body (env.respond (requestCount tr))])) : Nat) : Int)
      hpos
    refine ⟨hpos, ((env.rand63 (sleepCount
        (tr ++ [Action.request body (env.respond (requestCount tr))])) : Nat) : Int) %
        (maxSleep p.baseBackoff attempt + 1), Int.emod_nonneg _ (ne_of_gt hpos), by omega, ?_⟩
    rw [if_neg hn]
    by_cases hc : env.cancelled
        (sleepCount (tr ++ [Action.request body (env.respond (requestCount tr))])) = true
    · left
      exact ⟨hc, by rw [if_pos hc]⟩
    · right
      exact ⟨by simpa using hc, _, by rw [if_neg hc]⟩

/-- While no bound given to `rand.Int63n` is out of range and the context is
not done, the loop of `sendWithRetry` makes requests until the first answer
with status 200 and returns nil there, and returns an error after `fuel`
requests when none of them is answered with 200. -/
theorem sendLoop_until_200 (env : Env) (p : Pusher) (body : Bytes)
    (hf : env.requestFault = false) (hc : ∀ j, env.cancelled j = false) (fuel : Nat) :
    ∀ (attempt : Nat) (lastErr : Option String) (tr : List Action),
      (∀ a, attempt ≤ a → a < attempt + fuel → 0 < maxSleep p.baseBackoff a + 1) →
      (∀ i, i < fuel → env.respond (requestCount tr + i) = .status 200 →
        (∀ j, j < i → env.respond (requestCount tr + j) ≠ .status 200) →
        (sendLoop env p body fuel attempt lastErr tr).1 = .ok ∧
        requestCount (sendLoop env p body fuel attempt lastErr tr).2 = requestCount tr + i + 1) ∧
      ((∀ i, i < fuel → env.respond (requestCount tr + i) ≠ .status 200) →
        (∃ msg, (sendLoop env p body fuel attempt lastErr tr).1 = .err msg) ∧
        requestCount (sendLoop env p body fuel attempt lastErr tr).2 = requestCount tr + fuel) := by
  induction fuel with
  | zero =>
    intro attempt lastErr tr _
    refine ⟨fun i hi => absurd hi (Nat.not_lt_zero i), fun _ => ⟨⟨_, rfl⟩, rfl⟩⟩
  | succ n ih =>
    intro attempt lastErr tr hsafe
    by_cases h200 : env.respond (requestCount tr) = .status 200
    · have hres : sendLoop env p body (n + 1) attempt lastErr tr =
          (.ok, tr ++ [Action.request body (.status 200)]) := by
        rw [sendLoop]
        simp only [hf, Bool.false_eq_true, if_false, h200, if_true]
      constructor
      · intro i _ _ hbefore
        have hi0 : i = 0 := by
          by_contra hne
          exact hbefore 0 (Nat.pos_of_ne_zero hne) (by simpa using h200)
        subst hi0
        rw [hres]
        exact ⟨rfl, by rw [requestCount_snoc_request]⟩
      · intro hnone
        exact absurd (by simpa using h200) (hnone 0 (Nat.succ_pos n))
    · rcases sendLoop_failed_attempt env p body n attempt lastErr tr hf h200 with
        ⟨hn, _⟩ | ⟨_, d, _, _, ⟨hcan, _⟩ | ⟨_, err, hnext⟩⟩
      · exact absurd (hsafe attempt (le_refl _) (by omega)) (not_lt.mpr hn)
      · rw [hc] at hcan
        cases hcan
      · have hcount : requestCount
            (tr ++ [Action.request body (env.respond (requestCount tr))] ++ [Action.sleep d]) =
            requestCount tr + 1 := by
          rw [requestCount_snoc_sleep, requestCount_snoc_request]
        obtain ⟨ih1, ih2⟩ := ih (attempt + 1) (some err)
          (tr ++ [Action.request body (env.respond (requestCount tr))] ++ [Action.sleep d])
          (fun a h1 h2 => hsafe a (by omega) (by omega))
        rw [hnext]
        rw [hcount] at ih1 ih2
        constructor
        · intro i hi hi200 hbefore
          cases i with
          | zero => exact absurd (by simpa using hi200) h200
          | succ k =>
            have := ih1 k (by omega)
              (by rw [show requestCount tr + 1 + k = requestCount tr + (k + 1) by omega]
                  exact hi200)
              (fun j hj => by
                rw [show requestCount tr + 1 + j = requestCount tr + (j + 1) by omega]
                exact hbefore (j + 1) (by omega))
            rw [show requestCount tr + (k + 1) + 1 = requestCount tr + 1 + k + 1 by omega]
            exact this
        · intro hnone
          have := ih2 (fun i hi => by
            rw [show requestCount tr + 1 + i = requestCount tr + (i + 1) by omega]
            exact hnone (i + 1) (by omega))
          rw [show requestCount tr + (n + 1) = requestCount tr + 1 + n by omega]
          exact this

/-- Bounds for which no attempt of `sendWithRetry` overflows: with
`b * 2^(retries - 1)` below `2^63`, every bound given to `rand.Int63n` is
positive. -/
theorem maxSleep_safe (b : Int) (retries a : Nat) (hb : 0 < b)
    (h : b * 2 ^ (retries - 1) < 2 ^ 63) (ha : a < retries) :
    0 < maxSleep b a + 1 := by
  have hpow : (2 : Int) ^ a ≤ 2 ^ (retries - 1) :=
    pow_le_pow_right₀ (by norm_num) (by omega)
  have hle : b * 2 ^ a ≤ b * 2 ^ (retries - 1) := mul_le_mul_of_nonneg_left hpow (le_of_lt hb)
  have hpos : 0 < b * (2 : Int) ^ a := by positivity
  rw [maxSleep_exact b a hb (lt_of_le_of_lt hle h)]
  have : (0 : Int) ≤ min (b * 2 ^ a) 30000000000 := le_min (le_of_lt hpos) (by norm_num)
  omega

/-- With a positive base backoff whose last doubling stays below `2^63`
nanoseconds and a context that is not done, `sendWithRetry` makes requests until
the first answer with status 200 and returns nil there, after at most
`maxRetries` requests; when none of the first `maxRetries` answers is 200 it
returns an error after exactly `maxRetries` requests. -/
theorem sendWithRetry_until_200 (env : Env) (p : Pusher) (body : Bytes) (tr : List Action)
    (hf : env.requestFault = false) (hc : ∀ j, env.cancelled j = false)
    (hb : 0 < p.baseBackoff) (hsafe : p.baseBackoff * 2 ^ (p.maxRetries.toNat - 1) < 2 ^ 63) :
    (∀ i, i < p.maxRetries.toNat → env.respond (requestCount tr + i) = .status 200 →
      (∀ j, j < i → env.respond (requestCount tr + j) ≠ .status 200) →
      (sendWithRetry env p body tr).1 = .ok ∧
      requestCount (sendWithRetry env p body tr).2 = requestCount tr + i + 1) ∧
    ((∀ i, i < p.maxRetries.toNat → env.respond (requestCount tr + i) ≠ .status 200) →
      (∃ msg, (sendWithRetry env p body tr).1 = .err msg) ∧
      requestCount (sendWithRetry env p body tr).2 = requestCount tr + p.maxRetries.toNat) := by
  unfold sendWithRetry
  exact sendLoop_until_200 env p body hf hc p.maxRetries.toNat 0 none tr
    (fun a _ ha => maxSleep_safe p.baseBackoff p.maxRetries.toNat a hb hsafe (by omega))

/-- When the bound given to `rand.Int63n` is positive, the sleep drawn for
attempt `a` lies between 0 and `min (b * 2^a) (30 s)`. -/
theorem backoff_sleep_in_range (b : Int) (a r : Nat) (hb : 0 < b)
    (hn : 0 < maxSleep b a + 1) :
    0 ≤ ((r : Nat) : Int) % (maxSleep b a + 1) ∧
    ((r : Nat) : Int) % (maxSleep b a + 1) ≤ min (b * 2 ^ a) 30000000000 := by
  have h1 := Int.emod_lt_of_pos ((r : Nat) : Int) hn
  have h2 := maxSleep_le b a hb
  exact ⟨Int.emod_nonneg _ (ne_of_gt hn), by omega⟩

/-! ### `sendWithRetry` where no backoff bound overflows -/

/-- C18 as stated fails in two ways. When `http.NewRequestWithContext` fails,
`sendWithRetry` returns that error without making a request, although the
receiver would answer 200 at once. And the claim ranges over every `maxRetries`:
with 37 attempts and the base backoff of 500 ms, a receiver that answers 500 to
the first 36 requests and would answer 200 to the 37th is never asked a 37th
time, because the backoff bound of attempt 35 no longer fits in an `int64`. -/
theorem sendWithRetry_misses_200 :
    defaultPusher.maxRetries = 5 ∧
    unparsedEnv.respond 0 = .status 200 ∧
    (∃ msg, (sendWithRetry unparsedEnv defaultPusher emptyEnvelope []).1 = .err msg) ∧
    requestCount (sendWithRetry unparsedEnv defaultPusher emptyEnvelope []).2 = 0 ∧
    (patientPusher 37).maxRetries = 37 ∧
    (lateEnv 36).respond 36 = .status 200 ∧
    (sendWithRetry (lateEnv 36) (patientPusher 37) emptyEnvelope []).1 ≠ .ok ∧
    requestCount (sendWithRetry (lateEnv 36) (patientPusher 37) emptyEnvelope []).2 = 36 := by
  refine ⟨by decide, by decide, ⟨"new request", by decide!⟩, ?_, by decide, by decide, ?_, ?_⟩ <;>
    decide!

/-- C18, amended: for every sequence of receiver responses, every `maxRetries`
and every base backoff `b > 0` with `b * 2^(maxRetries - 1)` below `2^63`
nanoseconds (as for the 5 attempts and 500 ms of `New`), when every request can
be built and the context is not cancelled, `sendWithRetry` does not panic and
makes at most `maxRetries` requests; it returns nil if and only if one of the
first `maxRetries` responses has status exactly 200; it then stops right after
the first such response, and otherwise returns an error after exactly
`maxRetries` requests. Every other response, a transport error or any other
status, other 2xx codes included, is a failure that is retried. -/
theorem sendWithRetry_until_first_200 (env : Env) (p : Pusher) (body : Bytes)
    (tr : List Action)
    (hf : env.requestFault = false) (hc : ∀ j, env.cancelled j = false)
    (hb : 0 < p.baseBackoff)
    (hsafe : p.baseBackoff * 2 ^ (p.maxRetries.toNat - 1) < 2 ^ 63) :
    (sendWithRetry env p body tr).1 ≠ .panic ∧
    requestCount (sendWithRetry env p body tr).2 ≤ requestCount tr + p.maxRetries.toNat ∧
    ((sendWithRetry env p body tr).1 = .ok ↔
      ∃ i, i < p.maxRetries.toNat ∧ env.respond (requestCount tr + i) = .status 200) ∧
    (∀ i, i < p.maxRetries.toNat → env.respond (requestCount tr + i) = .status 200 →
      (∀ j, j < i → env.respond (requestCount tr + j) ≠ .status 200) →
      (sendWithRetry env p body tr).1 = .ok ∧
      requestCount (sendWithRetry env p body tr).2 = requestCount tr + i + 1) ∧
    ((∀ i, i < p.maxRetries.toNat → env.respond (requestCount tr + i) ≠ .status 200) →
      (∃ msg, (sendWithRetry env p body tr).1 = .err msg) ∧
      requestCount (sendWithRetry env p body tr).2 =
        requestCount tr + p.maxRetries.toNat) := by
  obtain ⟨h1, h2⟩ := sendWithRetry_until_200 env p body tr hf hc hb hsafe
  have hcases : (∃ i, i < p.maxRetries.toNat ∧
        env.respond (requestCount tr + i) = .status 200 ∧
        (sendWithRetry env p body tr).1 = .ok ∧
        requestCount (sendWithRetry env p body tr).2 = requestCount tr + i + 1) ∨
      ((¬ ∃ i, i < p.maxRetries.toNat ∧
          env.respond (requestCount tr + i) = .status 200) ∧
        (∃ msg, (sendWithRetry env p body tr).1 = .err msg) ∧
        requestCount (sendWithRetry env p body tr).2 =
          requestCount tr + p.maxRetries.toNat) := by
    by_cases hex : ∃ i, i < p.maxRetries.toNat ∧
        env.respond (requestCount tr + i) = .status 200
    · have hfirst := h1 (Nat.find hex) (Nat.find_spec hex).1 (Nat.find_spec hex).2
        (fun j hj h200 => Nat.find_min hex hj
          ⟨lt_trans hj (Nat.find_spec hex).1, h200⟩)
      exact Or.inl ⟨Nat.find hex, (Nat.find_spec hex).1, (Nat.find_spec hex).2, hfirst⟩
    · exact Or.inr ⟨hex, h2 (fun i hi h200 => hex ⟨i, hi, h200⟩)⟩
  refine ⟨?_, ?_, ?_, h1, h2⟩
  · rcases hcases with ⟨i, _, _, hok, _⟩ | ⟨_, ⟨msg, hmsg⟩, _⟩
    · rw [hok]
      exact fun h => Outcome.noConfusion h
    · rw [hmsg]
      exact fun h => Outcome.noConfusion h
  · rcases hcases with ⟨i, hi, _, _, hcount⟩ | ⟨_, _, hcount⟩
    · rw [hcount]
      omega
    · rw [hcount]
  · rcases hcases with ⟨i, hi, h200, hok, _⟩ | ⟨hex, ⟨msg, hmsg⟩, _⟩
    · exact ⟨fun _ => ⟨i, hi, h200⟩, fun _ => hok⟩
    · constructor
      · intro h
        rw [hmsg] at h
        cases h
      · intro h
        exact absurd h hex

/-- Witness of C18 (amended): the pusher of `New` against a receiver that
answers 201, a transport error, 503 and then 200 succeeds at the fourth
request. -/
theorem sendWithRetry_until_first_200_witness :
    defaultPusher.maxRetries = 5 ∧ defaultPusher.baseBackoff = 500000000 ∧
    falteringEnv.respond 0 = .status 201 ∧ falteringEnv.respond 3 = .status 200 ∧
    (sendWithRetry falteringEnv defaultPusher emptyEnvelope []).1 = .ok ∧
    requestCount (sendWithRetry falteringEnv defaultPusher emptyEnvelope []).2 = 4 :=
  ⟨by decide, by decide, by decide, by decide,
    (sendWithRetry_until_first_200 falteringEnv defaultPusher emptyEnvelope [] (by decide)
      (fun _ => rfl) (by decide) (by decide)).2.2.2.1 3 (by decide) (by decide)
      (fun j hj => by interval_cases j <;> decide)⟩

/-- C19 as stated fails at attempt 35 with the base backoff of 500 ms: the
product `500 ms * 2^35` does not fit in an `int64` and wraps to
-1266874889709551616, the cap at 30 s does not apply to a negative bound,
`rand.Int63n` is given a bound that is not positive, and the 36th failed request
is followed by a panic instead of a sleep. One attempt earlier the bound is the
cap of 30 s. -/
theorem maxSleep_wraps_at_attempt_35 :
    maxSleep (patientPusher 36).baseBackoff 35 = -1266874889709551616 ∧
    maxSleep (patientPusher 36).baseBackoff 34 = 30000000000 ∧
    (sendWithRetry (constEnv 500) (patientPusher 36) emptyEnvelope []).1 = .panic ∧
    requestCount (sendWithRetry (constEnv 500) (patientPusher 36) emptyEnvelope []).2 = 36 ∧
    sleepCount (sendWithRetry (constEnv 500) (patientPusher 36) emptyEnvelope []).2 = 35 := by
  refine ⟨?_, ?_, ?_, ?_, ?_⟩ <;> decide!

/-- C19, amended: for every attempt index `a >= 0` and every base backoff
`b > 0` with `b * 2^a` below `2^63` nanoseconds, the backoff bound that
`sendWithRetry` computes for attempt `a` is exactly `min (b * 2^a) (30 s)`, and
when the request of attempt `a` fails the call does not panic there: right after
that request it draws `d = Int63n(bound + 1)`, a duration in the closed range
from 0 to `min (b * 2^a) (30 s)`, and sleeps for it. -/
theorem sendWithRetry_sleep_in_range (env : Env) (p : Pusher) (body : Bytes)
    (fuel a : Nat) (lastErr : Option String) (tr : List Action)
    (hf : env.requestFault = false)
    (hr : env.respond (requestCount tr) ≠ .status 200)
    (hb : 0 < p.baseBackoff) (hw : p.baseBackoff * 2 ^ a < 2 ^ 63) :
    maxSleep p.baseBackoff a = min (p.baseBackoff * 2 ^ a) 30000000000 ∧
    ∃ (d : Int) (ext : List Action),
      0 ≤ d ∧ d ≤ min (p.baseBackoff * 2 ^ a) 30000000000 ∧
      d = ((env.rand63 (sleepCount tr) : Nat) : Int) %
        (min (p.baseBackoff * 2 ^ a) 30000000000 + 1) ∧
      (sendLoop env p body (fuel + 1) a lastErr tr).2 =
        tr ++ [Action.request body (env.respond (requestCount tr))] ++
          [Action.sleep d] ++ ext := by
  have hexact := maxSleep_exact p.baseBackoff a hb hw
  have hpos0 : 0 < p.baseBackoff * (2 : Int) ^ a := by positivity
  have hmin : 0 ≤ min (p.baseBackoff * 2 ^ a) 30000000000 :=
    le_min (le_of_lt hpos0) (by norm_num)
  have hpos : 0 < maxSleep p.baseBackoff a + 1 := by
    rw [hexact]
    omega
  have hsc : sleepCount (tr ++ [Action.request body (env.respond (requestCount tr))]) =
      sleepCount tr := by
    simp [sleepCount, List.filter_append]
  have hlt := Int.emod_lt_of_pos ((env.rand63 (sleepCount tr) : Nat) : Int)
    (show 0 < min (p.baseBackoff * 2 ^ a) 30000000000 + 1 by omega)
  have hd0 := Int.emod_nonneg ((env.rand63 (sleepCount tr) : Nat) : Int)
    (show min (p.baseBackoff * 2 ^ a) 30000000000 + 1 ≠ 0 by omega)
  refine ⟨hexact, ?_⟩
  rw [sendLoop_succ env p body fuel a lastErr tr hf hr, if_neg (not_le.mpr hpos), hsc, hexact]
  by_cases hcan : env.cancelled (sleepCount tr) = true
  · rw [if_pos hcan]
    exact ⟨_, [], hd0, by omega, rfl, by simp⟩
  · rw [if_neg hcan]
    obtain ⟨ext, hext, -⟩ := sendLoop_ext env p body fuel (a + 1)
      (some (match env.respond (requestCount tr) with
        | .status code => "push status " ++ toString code
        | .transportError => "transport error"))
      (tr ++ [Action.request body (env.respond (requestCount tr))] ++
        [Action.sleep (((env.rand63 (sleepCount tr) : Nat) : Int) %
          (min (p.baseBackoff * 2 ^ a) 30000000000 + 1))])
    exact ⟨_, ext, hd0, by omega, rfl, hext⟩

/-- Witness of C19 (amended): the fifth attempt of the pusher of `New` against
a receiver that answers 500. The bound is `500 ms * 2^4 = 8 s`, and the fifth
request is followed by a sleep of at most 8 s. -/
theorem sendWithRetry_sleep_in_range_witness :
    defaultPusher.baseBackoff * 2 ^ 4 < 2 ^ 63 ∧
    requestCount fourFailures = 4 ∧
    sendWithRetry (constEnv 500) defaultPusher emptyEnvelope [] =
      sendLoop (constEnv 500) defaultPusher emptyEnvelope 1 4 (some "push status 500")
        fourFailures ∧
    maxSleep defaultPusher.baseBackoff 4 = 8000000000 ∧
    ∃ (d : Int) (ext : List Action), 0 ≤ d ∧ d ≤ 8000000000 ∧
      (sendWithRetry (constEnv 500) defaultPusher emptyEnvelope []).2 =
        fourFailures ++ [Action.request emptyEnvelope (.status 500)] ++
          [Action.sleep d] ++ ext := by
  have hrun : sendWithRetry (constEnv 500) defaultPusher emptyEnvelope [] =
      sendLoop (constEnv 500) defaultPusher emptyEnvelope 1 4 (some "push status 500")
        fourFailures := by decide!
  have hm : min (defaultPusher.baseBackoff * 2 ^ 4) 30000000000 = 8000000000 := by decide!
  have hresp : (constEnv 500).respond (requestCount fourFailures) = .status 500 := rfl
  obtain ⟨h1, d, ext, h2, h3, -, h4⟩ := sendWithRetry_sleep_in_range (constEnv 500)
    defaultPusher emptyEnvelope 0 4 (some "push status 500") fourFailures (by decide)
    (by decide) (by decide) (by decide)
  rw [hm] at h1 h3
  rw [hresp] at h4
  exact ⟨by decide, by decide!, hrun, h1, d, ext, h2, h3, by rw [hrun]; exact h4⟩


/-! ### `FetchUnsyncedEvents` in `created_at` order -/

/-- Every event of the UNION ALL is the event of a row with `synced = 0` of the
table it names. -/
theorem unsyncedEvents_from_rows (proj : Projection) (s : Store) (ev : PushEvent)
    (h : ev ∈ s.unsyncedEvents proj) :
    (∃ r ∈ s.llm_traces.rows, r.synced = 0 ∧ ev.TableName = "llm_traces" ∧ ev.RowID = r.id ∧
      ev.CreatedAt = r.data.CreatedAt ∧ ev.Data = proj.trace r.data) ∨
    (∃ r ∈ s.error_events.rows, r.synced = 0 ∧ ev.TableName = "error_events" ∧ ev.RowID = r.id ∧
      ev.CreatedAt = r.data.CreatedAt ∧ ev.Data = proj.error r.data) ∨
    (∃ r ∈ s.system_metrics.rows, r.synced = 0 ∧ ev.TableName = "system_metrics" ∧
      ev.RowID = r.id ∧ ev.CreatedAt = r.data.CreatedAt ∧ ev.Data = proj.metric r.data) := by
  simp only [Store.unsyncedEvents, Table.unsynced, List.mem_append, List.mem_map,
    List.mem_filter, decide_eq_true_eq] at h
  rcases h with (⟨r, ⟨hr, h0⟩, rfl⟩ | ⟨r, ⟨hr, h0⟩, rfl⟩) | ⟨r, ⟨hr, h0⟩, rfl⟩
  · exact Or.inl ⟨r, hr, h0, rfl, rfl, rfl, rfl⟩
  · exact Or.inr (Or.inl ⟨r, hr, h0, rfl, rfl, rfl, rfl⟩)
  · exact Or.inr (Or.inr ⟨r, hr, h0, rfl, rfl, rfl, rfl⟩)

/-- C20: for every store and every limit >= 0, `FetchUnsyncedEvents` returns
a list `out` of exactly `min limit n` events, `n` being the number of rows with
`synced = 0` in the three event tables; every event returned is that of a row
with `synced = 0` of the table it names; `out` is sorted by `created_at`
ascending; and together with the unsynced events left out (`rest`) it makes up
the unsynced events of all three tables, each event left out having a
`created_at` greater than or equal to that of every event returned. -/
theorem FetchUnsyncedEvents_oldest_first (proj : Projection) (s : Store) (limit : Int)
    (h : 0 ≤ limit) :
    ∃ out rest, FetchUnsyncedEvents proj s limit = some out ∧
      List.Perm (out ++ rest) (s.unsyncedEvents proj) ∧
      ((out.length : Nat) : Int) = min limit (UnsyncedCount s) ∧
      (∀ ev ∈ out,
        (∃ r ∈ s.llm_traces.rows, r.synced = 0 ∧ ev.TableName = "llm_traces" ∧ ev.RowID = r.id ∧
          ev.CreatedAt = r.data.CreatedAt ∧ ev.Data = proj.trace r.data) ∨
        (∃ r ∈ s.error_events.rows, r.synced = 0 ∧ ev.TableName = "error_events" ∧
          ev.RowID = r.id ∧ ev.CreatedAt = r.data.CreatedAt ∧ ev.Data = proj.error r.data) ∨
        (∃ r ∈ s.system_metrics.rows, r.synced = 0 ∧ ev.TableName = "system_metrics" ∧
          ev.RowID = r.id ∧ ev.CreatedAt = r.data.CreatedAt ∧ ev.Data = proj.metric r.data)) ∧
      List.Sorted (fun a b : PushEvent => a.CreatedAt ≤ b.CreatedAt) out ∧
      (∀ a ∈ out, ∀ b ∈ rest, a.CreatedAt ≤ b.CreatedAt) := by
  haveI : IsTotal PushEvent (fun a b => a.CreatedAt ≤ b.CreatedAt) :=
    ⟨fun a b => le_total a.CreatedAt b.CreatedAt⟩
  haveI : IsTrans PushEvent (fun a b => a.CreatedAt ≤ b.CreatedAt) :=
    ⟨fun _ _ _ h1 h2 => le_trans h1 h2⟩
  have hsorted := List.sorted_insertionSort (fun a b : PushEvent => a.CreatedAt ≤ b.CreatedAt)
    (s.unsyncedEvents proj)
  have hperm := List.perm_insertionSort (fun a b : PushEvent => a.CreatedAt ≤ b.CreatedAt)
    (s.unsyncedEvents proj)
  have hsplit := List.take_append_drop limit.toNat
    ((s.unsyncedEvents proj).insertionSort (fun a b => a.CreatedAt ≤ b.CreatedAt))
  refine ⟨((s.unsyncedEvents proj).insertionSort (fun a b => a.CreatedAt ≤ b.CreatedAt)).take
    limit.toNat, ((s.unsyncedEvents proj).insertionSort (fun a b => a.CreatedAt ≤ b.CreatedAt)).drop
    limit.toNat, ?_, ?_, ?_, ?_, ?_, ?_⟩
  · unfold FetchUnsyncedEvents
    rw [if_neg (not_lt.mpr h)]
  · rw [hsplit]
    exact hperm
  · rw [List.length_take, List.length_insertionSort, unsyncedCount_eq proj s]
    rcases le_total limit.toNat (s.unsyncedEvents proj).length with hle | hle
    · rw [min_eq_left hle, min_eq_left (by omega)]
      omega
    · rw [min_eq_right hle, min_eq_right (by omega)]
  · intro ev hev
    exact unsyncedEvents_from_rows proj s ev (hperm.subset (List.take_subset _ _ hev))
  · exact hsorted.sublist (List.take_sublist _ _)
  · rw [← hsplit] at hsorted
    exact (List.pairwise_append.mp hsorted).2.2

/-- Witness of C20: three unsynced rows, one in each table, inserted out of
time order, and a synced trace older than all of them: with limit 2 the two
oldest unsynced events come back, the error event first. -/
theorem FetchUnsyncedEvents_oldest_first_witness :
    (∃ out, FetchUnsyncedEvents sampleProjection mixedStore 2 = some out ∧
      out.map (fun ev => (ev.TableName, ev.RowID, ev.CreatedAt)) =
        [("error_events", 1, 1700000000100), ("system_metrics", 1, 1700000000200)]) ∧
    UnsyncedCount mixedStore = 3 ∧
    ∃ out rest, FetchUnsyncedEvents sampleProjection mixedStore 2 = some out ∧
      List.Perm (out ++ rest) (mixedStore.unsyncedEvents sampleProjection) ∧
      ((out.length : Nat) : Int) = min 2 (UnsyncedCount mixedStore) ∧
      List.Sorted (fun a b : PushEvent => a.CreatedAt ≤ b.CreatedAt) out ∧
      (∀ a ∈ out, ∀ b ∈ rest, a.CreatedAt ≤ b.CreatedAt) := by
  refine ⟨⟨_, rfl, by decide!⟩, by decide!, ?_⟩
  obtain ⟨out, rest, h1, h2, h3, _, h5, h6⟩ :=
    FetchUnsyncedEvents_oldest_first sampleProjection mixedStore 2 (by decide)
  exact ⟨out, rest, h1, h2, h3, h5, h6⟩

/-! ### `MarkEventsSynced`: what it writes -/

theorem markRow_spec {α : Type} (ids : List Int) (pushedAt : Int) (r : Row α) :
    (markRow ids pushedAt r).id = r.id ∧ (markRow ids pushedAt r).data = r.data ∧
    (r.id ∈ ids → (markRow ids pushedAt r).synced = 1 ∧
      (markRow ids pushedAt r).pushed_at = some pushedAt) ∧
    (r.id ∉ ids → markRow ids pushedAt r = r) := by
  unfold markRow
  by_cases h : r.id ∈ ids
  · rw [if_pos h]
    exact ⟨rfl, rfl, fun _ => ⟨rfl, rfl⟩, fun h1 => absurd h h1⟩
  · rw [if_neg h]
    exact ⟨rfl, rfl, fun h1 => absurd h1 h, fun _ => rfl⟩

theorem map_markRow_of_no_id {α : Type} (ids : List Int) (pushedAt : Int) (rows : List (Row α))
    (h : ∀ r ∈ rows, r.id ∉ ids) : rows.map (markRow ids pushedAt) = rows := by
  induction rows with
  | nil => rfl
  | cons r rest ih =>
    rw [List.map_cons, (markRow_spec ids pushedAt r).2.2.2 (h r (List.mem_cons_self _ _)),
      ih (fun x hx => h x (List.mem_cons_of_mem _ hx))]

/-- The store a successful `MarkEventsSynced` leaves: the three tables with
the UPDATE applied, and the push log with one more row unless its INSERT
failed. -/
theorem MarkEventsSynced_result (resolve : String → Option String) (now : Int)
    (fault : Option MarkFault) (s s1 : Store)
    (events : List PushEvent) (pushedAt : Int)
    (h : MarkEventsSynced resolve now fault s events pushedAt = .ok s1) :
    s1.llm_traces = s.llm_traces.mark (idsFor resolve "llm_traces" events) pushedAt ∧
    s1.error_events = s.error_events.mark (idsFor resolve "error_events" events) pushedAt ∧
    s1.system_metrics =
      s.system_metrics.mark (idsFor resolve "system_metrics" events) pushedAt ∧
    (fault ≠ some .log →
      s1.push_log = s.push_log ++
        [{ id := s.push_log_seq + 1, created_at := now, status := "ok",
           events_pushed := (events.length : Nat), error_message := none,
           duration_ms := some 0 }]) ∧
    (fault = some .log → s1.push_log = s.push_log) ∧
    (∀ ev ∈ events, tableOf resolve ev.TableName ≠ none) := by
  unfold MarkEventsSynced at h
  split at h
  · cases h
  · split at h
    · cases h
    · rename_i hnames
      have hall : ∀ ev ∈ events, tableOf resolve ev.TableName ≠ none := by
        intro ev hev hne
        exact hnames (List.any_eq_true.mpr ⟨ev, hev, by simpa using hne⟩)
      split at h
      · cases h
      · simp only at h
        split at h
        · cases h
        · cases h
          refine ⟨?_, ?_, ?_, ?_, ?_, hall⟩
          · split <;> rfl
          · split <;> rfl
          · split <;> rfl
          · intro hl
            rw [if_neg hl]
          · intro hl
            rw [if_pos hl]

/-- Without a fault, `MarkEventsSynced` succeeds when every table name denotes
an event table. -/
theorem MarkEventsSynced_ok_resolved (resolve : String → Option String) (now : Int)
    (s : Store) (events : List PushEvent) (pushedAt : Int)
    (h : ∀ ev ∈ events, tableOf resolve ev.TableName ≠ none) :
    ∃ s1, MarkEventsSynced resolve now none s events pushedAt = .ok s1 := by
  unfold MarkEventsSynced
  have h1 : events.any (fun ev => decide (tableOf resolve ev.TableName = none)) = false := by
    rw [List.any_eq_false]
    intro ev hev
    simpa using h ev hev
  simp only [h1]
  simp

/-- A table name that denotes no event table makes `MarkEventsSynced` fail. -/
theorem MarkEventsSynced_unresolved (resolve : String → Option String) (now : Int)
    (fault : Option MarkFault) (s : Store) (events : List PushEvent) (pushedAt : Int)
    (h : ∃ ev ∈ events, tableOf resolve ev.TableName = none) :
    ∃ e, MarkEventsSynced resolve now fault s events pushedAt = .error e := by
  obtain ⟨ev, hev, hnone⟩ := h
  have h1 : events.any (fun ev => decide (tableOf resolve ev.TableName = none)) = true :=
    List.any_eq_true.mpr ⟨ev, hev, by simpa using hnone⟩
  unfold MarkEventsSynced
  by_cases hb : fault = some .begin
  · rw [if_pos hb]
    exact ⟨_, rfl⟩
  · rw [if_neg hb, if_pos h1]
    exact ⟨_, rfl⟩

theorem tableMarkedAt_mark {α : Type} (resolve : String → Option String) (table : String)
    (events : List PushEvent) (pushedAt : Int) (t : Table α) :
    TableMarkedAt resolve table events pushedAt t
      (t.mark (idsFor resolve table events) pushedAt) := by
  refine ⟨rfl, ?_⟩
  simp only [Table.mark]
  rw [List.forall₂_map_right_iff]
  apply List.forall₂_same.mpr
  intro r _
  obtain ⟨h1, h2, h3, h4⟩ := markRow_spec (idsFor resolve table events) pushedAt r
  exact ⟨h1, h2, fun h => h3 ((mem_idsFor resolve table events r.id).mpr h),
    fun h => h4 (fun hm => h ((mem_idsFor resolve table events r.id).mp hm))⟩

/-- C21 as stated fails: when the INSERT into `push_log` fails, its error is
dropped and `MarkEventsSynced` still commits and returns nil; the rows are
marked but no push-attempt row is appended. -/
theorem MarkEventsSynced_without_log_row :
    ∃ s1, MarkEventsSynced foldCase 1700000001000 (some .log) seededStore
        (fetched sampleProjection seededStore) 1700000001000 = .ok s1 ∧
      UnsyncedCount seededStore = 3 ∧ UnsyncedCount s1 = 0 ∧
      s1.push_log = seededStore.push_log := by
  refine ⟨_, rfl, ?_, ?_, ?_⟩ <;> decide!

/-- C21, amended: for every list of push events, a successful
`MarkEventsSynced(events, pushedAt)` sets `synced = 1` and `pushed_at =
pushedAt` on exactly the rows named by an event, that is the rows of the table
that the event's table name denotes whose id is the event's row id, and leaves
every other row and every other column unchanged. When the INSERT into
`push_log` succeeds it appends one push-attempt row with status ok whose event
count is `len(events)`; that INSERT's error is ignored, and when it fails the
push log is left as it was. A call succeeds only if every table name denotes one
of the three event tables, and a name that denotes none makes the call fail with
any fault. When no database operation fails and every table name denotes an
event table (as the names `llm_traces`, `error_events` and `system_metrics` do),
the call returns no error, also when the list is empty or the ids match no row,
in which case the three tables are unchanged. -/
theorem MarkEventsSynced_frame (resolve : String → Option String) (now : Int)
    (fault : Option MarkFault) (s : Store) (events : List PushEvent) (pushedAt : Int) :
    (∀ s1, MarkEventsSynced resolve now fault s events pushedAt = .ok s1 →
      TableMarkedAt resolve "llm_traces" events pushedAt s.llm_traces s1.llm_traces ∧
      TableMarkedAt resolve "error_events" events pushedAt s.error_events s1.error_events ∧
      TableMarkedAt resolve "system_metrics" events pushedAt s.system_metrics
        s1.system_metrics ∧
      (fault ≠ some .log →
        s1.push_log = s.push_log ++
          [{ id := s.push_log_seq + 1, created_at := now, status := "ok",
             events_pushed := (events.length : Nat), error_message := none,
             duration_ms := some 0 }]) ∧
      (fault = some .log → s1.push_log = s.push_log) ∧
      (∀ ev ∈ events, ∃ table ∈ eventTables, tableOf resolve ev.TableName = some table) ∧
      ((∀ ev ∈ events, (∀ r ∈ s.llm_traces.rows, ev.RowID ≠ r.id) ∧
          (∀ r ∈ s.error_events.rows, ev.RowID ≠ r.id) ∧
          (∀ r ∈ s.system_metrics.rows, ev.RowID ≠ r.id)) →
        s1.llm_traces = s.llm_traces ∧ s1.error_events = s.error_events ∧
        s1.system_metrics = s.system_metrics)) ∧
    ((∃ ev ∈ events, tableOf resolve ev.TableName = none) →
      ∃ e, MarkEventsSynced resolve now fault s events pushedAt = .error e) ∧
    ((∀ ev ∈ events, tableOf resolve ev.TableName ≠ none) →
      ∃ s1, MarkEventsSynced resolve now none s events pushedAt = .ok s1) ∧
    ((∀ ev ∈ events, ev.TableName ∈ eventTables) →
      ∃ s1, MarkEventsSynced resolve now none s events pushedAt = .ok s1) ∧
    (∃ s1, MarkEventsSynced resolve now none s [] pushedAt = .ok s1) := by
  refine ⟨?_, MarkEventsSynced_unresolved resolve now fault s events pushedAt,
    MarkEventsSynced_ok_resolved resolve now s events pushedAt,
    MarkEventsSynced_ok resolve now s events pushedAt,
    MarkEventsSynced_ok resolve now s [] pushedAt
      (fun ev hev => absurd hev (List.not_mem_nil ev))⟩
  intro s1 h
  obtain ⟨h1, h2, h3, h4, h5, h6⟩ :=
    MarkEventsSynced_result resolve now fault s s1 events pushedAt h
  refine ⟨h1 ▸ tableMarkedAt_mark _ _ _ _ _, h2 ▸ tableMarkedAt_mark _ _ _ _ _,
    h3 ▸ tableMarkedAt_mark _ _ _ _ _, h4, h5, ?_, ?_⟩
  · intro ev hev
    cases ht : tableOf resolve ev.TableName with
    | none => exact absurd ht (h6 ev hev)
    | some table => exact ⟨table, tableOf_mem resolve _ _ ht, rfl⟩
  intro hno
  have hids : ∀ (table : String) (id : Int), id ∈ idsFor resolve table events →
      ∃ ev ∈ events, ev.RowID = id := by
    intro table id hid
    obtain ⟨ev, hev, _, hid2⟩ := (mem_idsFor resolve table events id).mp hid
    exact ⟨ev, hev, hid2⟩
  refine ⟨?_, ?_, ?_⟩
  · rw [h1]
    unfold Table.mark
    rw [map_markRow_of_no_id]
    intro r hr hid
    obtain ⟨ev, hev, he⟩ := hids _ _ hid
    exact (hno ev hev).1 r hr he
  · rw [h2]
    unfold Table.mark
    rw [map_markRow_of_no_id]
    intro r hr hid
    obtain ⟨ev, hev, he⟩ := hids _ _ hid
    exact (hno ev hev).2.1 r hr he
  · rw [h3]
    unfold Table.mark
    rw [map_markRow_of_no_id]
    intro r hr hid
    obtain ⟨ev, hev, he⟩ := hids _ _ hid
    exact (hno ev hev).2.2 r hr he

/-- Witness of C21 (amended): marking the three events fetched from the seeded
store, the first of them spelling its table `LLM_TRACES`, succeeds, marks the
three rows and appends one push-attempt row counting 3. -/
theorem MarkEventsSynced_frame_witness :
    ∃ s1, MarkEventsSynced foldCase 1700000001000 none seededStore shoutedEvents
        1700000001000 = .ok s1 ∧
      TableMarkedAt foldCase "llm_traces" shoutedEvents 1700000001000
        seededStore.llm_traces s1.llm_traces ∧
      s1.push_log = seededStore.push_log ++
        [{ id := seededStore.push_log_seq + 1, created_at := 1700000001000, status := "ok",
           events_pushed := (shoutedEvents.length : Nat),
           error_message := none, duration_ms := some 0 }] ∧
      shoutedEvents.map PushEvent.TableName =
        ["LLM_TRACES", "error_events", "system_metrics"] ∧
      UnsyncedCount seededStore = 3 ∧ UnsyncedCount s1 = 0 := by
  have hthm := MarkEventsSynced_frame foldCase 1700000001000 none seededStore
    shoutedEvents 1700000001000
  obtain ⟨s1, hs1⟩ := hthm.2.2.1 (by decide!)
  obtain ⟨h1, _, _, h4, _, _⟩ := hthm.1 s1 hs1
  refine ⟨s1, hs1, h1, h4 (by decide), by decide!, by decide!, ?_⟩
  have hrun : MarkEventsSynced foldCase 1700000001000 none seededStore shoutedEvents
      1700000001000 = .ok (StoreOp.apply seededStore
        (.markEventsSynced foldCase 1700000001000 none shoutedEvents 1700000001000)) := by
    decide!
  rw [hrun] at hs1
  cases hs1
  decide!

/-! ### `InsertBatch` is atomic -/

theorem insert_error_iff {α : Type} [EventRecord α] (t : Table α) (rec : α) :
    (∃ e, t.insert rec = .error e) ↔
      EventRecord.traceID rec ∈ t.rows.map (fun r => EventRecord.traceID r.data) := by
  unfold Table.insert
  by_cases h : t.rows.any (fun r => decide (EventRecord.traceID r.data = EventRecord.traceID rec)) = true
  · rw [if_pos h]
    refine ⟨fun _ => ?_, fun _ => ⟨_, rfl⟩⟩
    obtain ⟨r, hr, heq⟩ := List.any_eq_true.mp h
    exact List.mem_map.mpr ⟨r, hr, by simpa using heq⟩
  · rw [if_neg h]
    constructor
    · rintro ⟨e, he⟩
      cases he
    · intro hm
      obtain ⟨r, hr, heq⟩ := List.mem_map.mp hm
      exact absurd (List.any_eq_true.mpr ⟨r, hr, by simpa using heq⟩) h

theorem insert_ok_of_new {α : Type} [EventRecord α] (t : Table α) (rec : α)
    (h : EventRecord.traceID rec ∉ t.rows.map (fun r => EventRecord.traceID r.data)) :
    t.insert rec = .ok (t.appendRow rec) := by
  unfold Table.insert
  split
  · rename_i hany
    obtain ⟨r, hr, heq⟩ := List.any_eq_true.mp hany
    exact absurd (List.mem_map.mpr ⟨r, hr, by simpa using heq⟩) h
  · rfl

/-- The loop over one slice fails exactly when the slice conflicts with the
table or with itself. -/
theorem insertAll_error_iff {α : Type} [EventRecord α] (recs : List α) :
    ∀ t : Table α, (∃ e, t.insertAll recs = .error e) ↔ t.conflict recs := by
  induction recs with
  | nil =>
    intro t
    constructor
    · rintro ⟨e, he⟩
      simp [Table.insertAll] at he
    · rintro ⟨pre, rec, post, h, _⟩
      exact absurd h (by simp)
  | cons rec rest ih =>
    intro t
    by_cases hdup : EventRecord.traceID rec ∈ t.rows.map (fun r => EventRecord.traceID r.data)
    · obtain ⟨e, he⟩ := (insert_error_iff t rec).mpr hdup
      refine ⟨fun _ => ⟨[], rec, rest, rfl, Or.inl hdup⟩, fun _ => ⟨e, ?_⟩⟩
      simp only [Table.insertAll, he]
    · have hok := insert_ok_of_new t rec hdup
      have hstep : t.insertAll (rec :: rest) = (t.appendRow rec).insertAll rest := by
        simp only [Table.insertAll, hok]
      rw [hstep, ih (t.appendRow rec)]
      have hrows : (t.appendRow rec).rows.map (fun r => EventRecord.traceID r.data) =
          t.rows.map (fun r => EventRecord.traceID r.data) ++ [EventRecord.traceID rec] := by
        simp [Table.appendRow]
      constructor
      · rintro ⟨pre, rec2, post, h, hc⟩
        refine ⟨rec :: pre, rec2, post, by rw [h]; rfl, ?_⟩
        rw [hrows] at hc
        rcases hc with hc | hc
        · rcases List.mem_append.mp hc with hc | hc
          · exact Or.inl hc
          · right
            simp only [List.mem_singleton] at hc
            simp [hc]
        · right
          simp only [List.map_cons, List.mem_cons]
          exact Or.inr hc
      · rintro ⟨pre, rec2, post, h, hc⟩
        cases pre with
        | nil =>
          simp only [List.nil_append, List.cons.injEq] at h
          obtain ⟨h1, _⟩ := h
          subst h1
          rcases hc with hc | hc
          · exact absurd hc hdup
          · simp at hc
        | cons p pre2 =>
          simp only [List.cons_append, List.cons.injEq] at h
          obtain ⟨h1, h2⟩ := h
          subst h1
          refine ⟨pre2, rec2, post, h2, ?_⟩
          rw [hrows]
          rcases hc with hc | hc
          · exact Or.inl (List.mem_append.mpr (Or.inl hc))
          · simp only [List.map_cons, List.mem_cons] at hc
            rcases hc with hc | hc
            · exact Or.inl (List.mem_append.mpr (Or.inr (by simp [hc])))
            · exact Or.inr hc

/-- A successful loop over one slice appends one new row per record. -/
theorem insertAll_extended {α : Type} [EventRecord α] (recs : List α) :
    ∀ (t t2 : Table α), t.insertAll recs = .ok t2 → t.Extended t2 recs := by
  induction recs with
  | nil =>
    intro t t2 h
    simp only [Table.insertAll] at h
    cases h
    exact ⟨by simp, [], by simp, rfl, fun r hr => absurd hr (List.not_mem_nil r)⟩
  | cons rec rest ih =>
    intro t t2 h
    simp only [Table.insertAll] at h
    cases hi : t.insert rec with
    | error e => simp [hi] at h
    | ok t1 =>
      simp only [hi] at h
      unfold Table.insert at hi
      split at hi
      · cases hi
      · cases hi
        obtain ⟨hseq, news, hrows, hdata, hnew⟩ := ih _ t2 h
        refine ⟨?_, { id := t.seq + 1, data := rec, synced := 0, pushed_at := none } :: news,
          ?_, ?_, ?_⟩
        · rw [hseq]
          simp only [Table.appendRow, List.length_cons]
          push_cast
          omega
        · rw [hrows]
          simp [Table.appendRow]
        · simp [hdata]
        · intro r hr
          rcases List.mem_cons.mp hr with hr | hr
          · rw [hr]
            exact ⟨rfl, rfl, by simp⟩
          · obtain ⟨a, b, c⟩ := hnew r hr
            refine ⟨a, b, ?_⟩
            simp only [Table.appendRow] at c
            omega

theorem not_error_of_ok {α : Type} {x : Except String α} {a : α} (h : x = .ok a) :
    ¬ ∃ e, x = .error e := by
  rintro ⟨e, he⟩
  rw [h] at he
  cases he

/-- C22: `InsertBatch` is atomic over its three slices. If it returns an error
the store is exactly as before the call; this happens when the environment
makes a database operation fail or when a record of one of the slices carries a
`trace_id` already in the same table or earlier in the same slice, and in no
other case. If it returns nil, every record of the three slices has been added
to its table, in order, as a new row with `synced = 0` and a null `pushed_at`,
and nothing else in the store has changed. -/
theorem InsertBatch_atomic (fault : Option String) (s : Store) (traces : List TraceInsert)
    (errs : List ErrorInsert) (metrics : List MetricInsert) :
    (∀ e, InsertBatch fault s traces errs metrics = .error e →
      StoreOp.apply s (.insertBatch fault traces errs metrics) = s) ∧
    (∀ s1, InsertBatch fault s traces errs metrics = .ok s1 →
      StoreOp.apply s (.insertBatch fault traces errs metrics) = s1 ∧
      s.llm_traces.Extended s1.llm_traces traces ∧
      s.error_events.Extended s1.error_events errs ∧
      s.system_metrics.Extended s1.system_metrics metrics ∧
      s1.push_log = s.push_log ∧ s1.push_log_seq = s.push_log_seq) ∧
    ((∃ e, InsertBatch fault s traces errs metrics = .error e) ↔
      (fault ≠ none ∨ s.llm_traces.conflict traces ∨ s.error_events.conflict errs ∨
        s.system_metrics.conflict metrics)) := by
  refine ⟨?_, ?_, ?_⟩
  · intro e h
    simp only [StoreOp.apply, h]
  · intro s1 h
    refine ⟨by simp only [StoreOp.apply, h], ?_⟩
    unfold InsertBatch at h
    cases fault with
    | some e => cases h
    | none =>
      simp only at h
      cases h1 : s.llm_traces.insertAll traces with
      | error e => simp [h1] at h
      | ok t1 =>
        cases h2 : s.error_events.insertAll errs with
        | error e => simp [h1, h2] at h
        | ok t2 =>
          cases h3 : s.system_metrics.insertAll metrics with
          | error e => simp [h1, h2, h3] at h
          | ok t3 =>
            simp only [h1, h2, h3, Except.ok.injEq] at h
            subst h
            exact ⟨insertAll_extended traces _ _ h1, insertAll_extended errs _ _ h2,
              insertAll_extended metrics _ _ h3, rfl, rfl⟩
  · unfold InsertBatch
    cases fault with
    | some e => exact ⟨fun _ => Or.inl (by simp), fun _ => ⟨e, rfl⟩⟩
    | none =>
      simp only [ne_eq, not_true_eq_false, false_or]
      rw [← insertAll_error_iff traces, ← insertAll_error_iff errs, ← insertAll_error_iff metrics]
      cases h1 : s.llm_traces.insertAll traces with
      | error e => exact ⟨fun _ => Or.inl ⟨e, rfl⟩, fun _ => ⟨_, rfl⟩⟩
      | ok t1 =>
        cases h2 : s.error_events.insertAll errs with
        | error e => exact ⟨fun _ => Or.inr (Or.inl ⟨e, rfl⟩), fun _ => ⟨_, rfl⟩⟩
        | ok t2 =>
          cases h3 : s.system_metrics.insertAll metrics with
          | error e => exact ⟨fun _ => Or.inr (Or.inr ⟨e, rfl⟩), fun _ => ⟨_, rfl⟩⟩
          | ok t3 =>
            constructor
            · rintro ⟨e, he⟩
              cases he
            · rintro (h | h | h)
              · exact absurd h (not_error_of_ok rfl)
              · exact absurd h (not_error_of_ok rfl)
              · exact absurd h (not_error_of_ok rfl)

/-- Witness of C22: the insert of `TestLatestRowQueries` into a new store adds
its trace and its error row; a second insert whose error row repeats a
`trace_id` fails and leaves the store as it was, its new trace row included. -/
theorem InsertBatch_atomic_witness :
    (∃ s1, InsertBatch none Store.empty [latestTrace] [latestError] [] = .ok s1 ∧
      s1.llm_traces.rows.length = 1 ∧ s1.error_events.rows.length = 1) ∧
    InsertBatch none latestRowsStore [freshTrace] [repeatedError] [] =
      .error "insert error row: UNIQUE constraint failed" ∧
    StoreOp.apply latestRowsStore (.insertBatch none [freshTrace] [repeatedError] []) =
      latestRowsStore := by
  have he : InsertBatch none latestRowsStore [freshTrace] [repeatedError] [] =
      .error "insert error row: UNIQUE constraint failed" := by decide!
  exact ⟨⟨_, rfl, by decide!, by decide!⟩, he,
    (InsertBatch_atomic none latestRowsStore [freshTrace] [repeatedError] []).1 _ he⟩

/-! ### `buildBatches` is not greedy after an overflow flush -/

/-- C29 fails for four events of 29 bytes each under a cap of 72 bytes: the
first two fill a batch of exactly 72 bytes; the third is counted with a comma
although it opens a new batch, so the fourth, which would bring that batch to
exactly 72 bytes, is taken to overflow, and the third and fourth event end up in
two batches of 42 bytes. On their own the third and fourth event make one batch
of 72 bytes. Batches are shown as the row ids of their events and the length of
their body. -/
theorem buildBatches_closes_batch_that_fits :
    (buildBatches plainMarshal 72 fourEvents).map
        (fun bs => bs.map (fun (b : batch) => (b.events.map PushEvent.RowID, b.body.length))) =
      .ok [([1, 2], 72), ([3], 42), ([4], 42)] ∧
    itemLen plainMarshal (sampleEvent "llm_traces" "llm_trace" 4 "4") = 29 ∧
    ((42 : Int) + 1 + itemLen plainMarshal (sampleEvent "llm_traces" "llm_trace" 4 "4") ≤ 72) ∧
    (buildBatches plainMarshal 72 (fourEvents.drop 2)).map
        (fun bs => bs.map (fun (b : batch) => (b.events.map PushEvent.RowID, b.body.length))) =
      .ok [([3, 4], 72)] := by
  refine ⟨?_, ?_, ?_, ?_⟩ <;> decide!

/-! ### The retention cutoff overflows -/

/-- C30 fails for `retentionDays = 106752`: the duration
`-retentionDays * 24h` wraps to a positive `int64`, the cutoff lies about 292
years after the clock instead of before it, and the retention pass deletes
both synced traces of the store, the one created at the current time
included. With 106751 days the cutoff is in the past and nothing is deleted. -/
theorem cleanupCutoff_wraps_at_106752_days :
    cleanupCutoff (1700000000000 * 1000000) 106752 = 10923371273709 ∧
    (1700000000000 : Int) < cleanupCutoff (1700000000000 * 1000000) 106752 ∧
    retentionStore.llm_traces.rows.map (fun r => (r.synced, r.data.CreatedAt)) =
      [(1, 1700000000000 - 172800000), (1, 1700000000000)] ∧
    (CleanupOldSynced 50 4096 (1700000000000 * 1000000) none retentionStore 106752 0 0).1 =
      (2, true, none) ∧
    (CleanupOldSynced 50 4096 (1700000000000 * 1000000) none retentionStore 106752 0
      0).2.llm_traces.rows = [] ∧
    (CleanupOldSynced 50 4096 (1700000000000 * 1000000) none retentionStore 106751 0 0).1 =
      (0, true, none) := by
  refine ⟨?_, ?_, ?_, ?_, ?_, ?_⟩ <;> decide!

/-! ### The ingest worker -/

theorem flushOne_spec (w : Worker) (traceID : String) (now : Int) (acc : slices) (ev : Event) :
    ∃ t e m, (flushOne w traceID now acc ev).traces = acc.traces ++ t ∧
      (flushOne w traceID now acc ev).errs = acc.errs ++ e ∧
      (flushOne w traceID now acc ev).metrics = acc.metrics ++ m ∧
      List.Forall₂ (fun (row : TraceInsert) (ev : Event) =>
          ∃ p id, ev.Trace = some p ∧ row = traceRow w id (flushCreatedAt now ev) p)
        t ([ev].filter Event.isTrace) ∧
      List.Forall₂ (fun (row : ErrorInsert) (ev : Event) =>
          ∃ p id, ev.Error = some p ∧ row = errorRow id (flushCreatedAt now ev) p)
        e ([ev].filter Event.isError) ∧
      List.Forall₂ (fun (row : MetricInsert) (ev : Event) =>
          ∃ p id, ev.Metric = some p ∧ row = metricRow id (flushCreatedAt now ev) p)
        m ([ev].filter Event.isMetric) := by
  unfold flushOne
  by_cases hk1 : ev.Kind = "trace"
  · have he : Event.isError ev = false := by simp [Event.isError, hk1]
    have hm : Event.isMetric ev = false := by simp [Event.isMetric, hk1]
    cases ht : ev.Trace with
    | none =>
      have hi : Event.isTrace ev = false := by simp [Event.isTrace, ht]
      refine ⟨[], [], [], ?_, ?_, ?_, ?_, ?_, ?_⟩ <;> simp [hk1, ht, hi, he, hm]
    | some p =>
      have hi : Event.isTrace ev = true := by simp [Event.isTrace, hk1, ht]
      refine ⟨[traceRow w traceID (flushCreatedAt now ev) p], [], [], ?_, ?_, ?_, ?_, ?_, ?_⟩ <;>
        (simp [hk1, ht, hi, he, hm]; try exact ⟨traceID, rfl⟩)
  · have hi : Event.isTrace ev = false := by simp [Event.isTrace, hk1]
    by_cases hk2 : ev.Kind = "error"
    · have hm : Event.isMetric ev = false := by simp [Event.isMetric, hk2]
      cases ht : ev.Error with
      | none =>
        have he : Event.isError ev = false := by simp [Event.isError, ht]
        refine ⟨[], [], [], ?_, ?_, ?_, ?_, ?_, ?_⟩ <;> simp [hk1, hk2, ht, hi, he, hm]
      | some p =>
        have he : Event.isError ev = true := by simp [Event.isError, hk2, ht]
        refine ⟨[], [errorRow traceID (flushCreatedAt now ev) p], [], ?_, ?_, ?_, ?_, ?_, ?_⟩ <;>
          (simp [hk1, hk2, ht, hi, he, hm]; try exact ⟨traceID, rfl⟩)
    · have he : Event.isError ev = false := by simp [Event.isError, hk2]
      by_cases hk3 : ev.Kind = "metric"
      · cases ht : ev.Metric with
        | none =>
          have hm : Event.isMetric ev = false := by simp [Event.isMetric, ht]
          refine ⟨[], [], [], ?_, ?_, ?_, ?_, ?_, ?_⟩ <;> simp [hk1, hk2, hk3, ht, hi, he, hm]
        | some p =>
          have hm : Event.isMetric ev = true := by simp [Event.isMetric, hk3, ht]
          refine ⟨[], [], [metricRow traceID (flushCreatedAt now ev) p], ?_, ?_, ?_, ?_, ?_, ?_⟩ <;>
            (simp [hk1, hk2, hk3, ht, hi, he, hm]; try exact ⟨traceID, rfl⟩)
      · have hm : Event.isMetric ev = false := by simp [Event.isMetric, hk3]
        refine ⟨[], [], [], ?_, ?_, ?_, ?_, ?_, ?_⟩ <;> simp [hk1, hk2, hk3, hi, he, hm]

theorem flushLoop_spec (w : Worker) (uuid : Nat → String) (now : Int) (batch : List Event) :
    ∀ (k : Nat) (acc : slices),
      ∃ t e m, (flushLoop w uuid now k acc batch).traces = acc.traces ++ t ∧
        (flushLoop w uuid now k acc batch).errs = acc.errs ++ e ∧
        (flushLoop w uuid now k acc batch).metrics = acc.metrics ++ m ∧
        List.Forall₂ (fun (row : TraceInsert) (ev : Event) =>
            ∃ p id, ev.Trace = some p ∧ row = traceRow w id (flushCreatedAt now ev) p)
          t (batch.filter Event.isTrace) ∧
        List.Forall₂ (fun (row : ErrorInsert) (ev : Event) =>
            ∃ p id, ev.Error = some p ∧ row = errorRow id (flushCreatedAt now ev) p)
          e (batch.filter Event.isError) ∧
        List.Forall₂ (fun (row : MetricInsert) (ev : Event) =>
            ∃ p id, ev.Metric = some p ∧ row = metricRow id (flushCreatedAt now ev) p)
          m (batch.filter Event.isMetric) := by
  induction batch with
  | nil =>
    intro k acc
    exact ⟨[], [], [], by simp [flushLoop], by simp [flushLoop], by simp [flushLoop],
      by simp, by simp, by simp⟩
  | cons ev rest ih =>
    intro k acc
    obtain ⟨t1, e1, m1, ht1, he1, hm1, ft1, fe1, fm1⟩ := flushOne_spec w (uuid k) now acc ev
    obtain ⟨t2, e2, m2, ht2, he2, hm2, ft2, fe2, fm2⟩ :=
      ih (k + 1) (flushOne w (uuid k) now acc ev)
    have hsplit : ∀ f : Event → Bool, (ev :: rest).filter f = [ev].filter f ++ rest.filter f := by
      intro f
      rw [← List.filter_append]
      rfl
    refine ⟨t1 ++ t2, e1 ++ e2, m1 ++ m2, ?_, ?_, ?_, ?_, ?_, ?_⟩
    · simp only [flushLoop]
      rw [ht2, ht1, List.append_assoc]
    · simp only [flushLoop]
      rw [he2, he1, List.append_assoc]
    · simp only [flushLoop]
      rw [hm2, hm1, List.append_assoc]
    · rw [hsplit]
      exact List.rel_append ft1 ft2
    · rw [hsplit]
      exact List.rel_append fe1 fe2
    · rw [hsplit]
      exact List.rel_append fm1 fm2

theorem flush_nil (w : Worker) (uuid : Nat → String) (insertErr : Nat → Option String)
    (now : Int) (st : WorkerState) : w.flush uuid insertErr now st [] = (none, st) := by
  simp [Worker.flush]

theorem flush_spec (w : Worker) (uuid : Nat → String) (insertErr : Nat → Option String)
    (now : Int) (st : WorkerState) (batch : List Event) (hne : batch ≠ []) :
    ∃ c : FlushCall, c.clock = now ∧ c.batch = batch ∧
      (batch.length ≤ MaxBatchSize → c.WellFormed w) ∧
      (w.flush uuid insertErr now st batch).2 =
        { buffer := st.buffer, calls := st.calls ++ [c], uuids := st.uuids + batch.length } ∧
      (w.flush uuid insertErr now st batch).1 =
        (insertErr st.calls.length).map (fun e => "insert batch: " ++ e) := by
  have hlen : ¬ batch.length = 0 := by
    intro h
    exact hne (List.length_eq_zero.mp h)
  obtain ⟨t, e, m, ht, he, hm, ft, fe, fm⟩ :=
    flushLoop_spec w uuid now batch st.uuids { traces := [], errs := [], metrics := [] }
  simp only [List.nil_append] at ht he hm
  refine ⟨{ clock := now, batch := batch,
            traces := (flushLoop w uuid now st.uuids
              { traces := [], errs := [], metrics := [] } batch).traces,
            errs := (flushLoop w uuid now st.uuids
              { traces := [], errs := [], metrics := [] } batch).errs,
            metrics := (flushLoop w uuid now st.uuids
              { traces := [], errs := [], metrics := [] } batch).metrics },
    rfl, rfl, ?_, ?_, ?_⟩
  · intro hcap
    refine ⟨?_, hcap, ?_, ?_, ?_⟩
    · exact Nat.pos_of_ne_zero hlen
    · simp only
      rw [ht]
      exact ft
    · simp only
      rw [he]
      exact fe
    · simp only
      rw [hm]
      exact fm
  · unfold Worker.flush
    rw [if_neg hlen]
    cases insertErr st.calls.length <;> rfl
  · unfold Worker.flush
    rw [if_neg hlen]
    cases insertErr st.calls.length <;> rfl

theorem flatten_batches_snoc (calls : List FlushCall) (c : FlushCall) :
    ((calls ++ [c]).map FlushCall.batch).flatten =
      (calls.map FlushCall.batch).flatten ++ c.batch := by
  simp

/-- The loop of `Worker.Run`: every call of `InsertBatch` is well formed, and
when no call fails the loop ends without error after flushing, in order, what
was buffered and everything received. -/
theorem loop_spec (w : Worker) (uuid : Nat → String) (insertErr : Nat → Option String)
    (closedAt : Int) (inputs : List WorkerInput) :
    ∀ st : WorkerState, st.buffer.length < MaxBatchSize →
      (∀ c ∈ st.calls, c.WellFormed w) →
      (∀ c ∈ (w.loop uuid insertErr closedAt st inputs).2.calls, c.WellFormed w) ∧
      ((∀ n, insertErr n = none) →
        (w.loop uuid insertErr closedAt st inputs).1 = none ∧
        ((w.loop uuid insertErr closedAt st inputs).2.calls.map FlushCall.batch).flatten =
          (st.calls.map FlushCall.batch).flatten ++ st.buffer ++ receivedEvents inputs) := by
  have hflush : ∀ (now : Int) (st : WorkerState) (batch : List Event), batch ≠ [] →
      batch.length ≤ MaxBatchSize → (∀ c ∈ st.calls, c.WellFormed w) →
      (∀ c ∈ (w.flush uuid insertErr now st batch).2.calls, c.WellFormed w) ∧
      ((w.flush uuid insertErr now st batch).2.calls.map FlushCall.batch).flatten =
        (st.calls.map FlushCall.batch).flatten ++ batch ∧
      ((∀ n, insertErr n = none) → (w.flush uuid insertErr now st batch).1 = none) := by
    intro now st batch hne hcap hwf
    obtain ⟨c, _, hb, hc, h2, h1⟩ := flush_spec w uuid insertErr now st batch hne
    rw [h2, h1]
    refine ⟨?_, ?_, ?_⟩
    · intro x hx
      rcases List.mem_append.mp hx with hx | hx
      · exact hwf x hx
      · simp only [List.mem_singleton] at hx
        rw [hx]
        exact hc hcap
    · simp only
      rw [flatten_batches_snoc, hb]
    · intro hins
      rw [hins]
      rfl
  induction inputs with
  | nil =>
    intro st hlt hwf
    simp only [Worker.loop, receivedEvents, List.append_nil]
    by_cases hb : st.buffer = []
    · rw [hb, flush_nil]
      exact ⟨hwf, fun _ => ⟨rfl, by simp⟩⟩
    · obtain ⟨a, b, c⟩ := hflush closedAt st st.buffer hb (le_of_lt hlt) hwf
      exact ⟨a, fun hins => ⟨c hins, b⟩⟩
  | cons inp rest ih =>
    intro st hlt hwf
    cases inp with
    | receive clock ev =>
      simp only [Worker.loop, receivedEvents]
      by_cases hfull : (st.buffer ++ [ev]).length ≥ MaxBatchSize
      · rw [if_pos hfull]
        have hcap : (st.buffer ++ [ev]).length ≤ MaxBatchSize := by
          simp only [List.length_append, List.length_singleton]
          omega
        obtain ⟨a, b, c⟩ := hflush clock { st with buffer := st.buffer ++ [ev] }
          (st.buffer ++ [ev]) (by simp) hcap hwf
        cases hfl : w.flush uuid insertErr clock { st with buffer := st.buffer ++ [ev] }
            (st.buffer ++ [ev]) with
        | mk err st2 =>
          rw [hfl] at a b c
          cases err with
          | some e =>
            refine ⟨a, fun hins => ?_⟩
            have := c hins
            cases this
          | none =>
            simp only
            obtain ⟨i1, i2⟩ := ih { st2 with buffer := [] } (by simp [MaxBatchSize]) a
            refine ⟨i1, fun hins => ?_⟩
            obtain ⟨j1, j2⟩ := i2 hins
            refine ⟨j1, ?_⟩
            rw [j2]
            simp only at b
            rw [b]
            simp
      · rw [if_neg hfull]
        obtain ⟨i1, i2⟩ := ih { st with buffer := st.buffer ++ [ev] } (not_le.mp hfull) hwf
        refine ⟨i1, fun hins => ?_⟩
        obtain ⟨j1, j2⟩ := i2 hins
        refine ⟨j1, ?_⟩
        rw [j2]
        simp
    | tick clock =>
      simp only [Worker.loop, receivedEvents]
      by_cases hb : st.buffer.length = 0
      · rw [if_pos hb]
        exact ih st hlt hwf
      · rw [if_neg hb]
        have hne : st.buffer ≠ [] := fun h => hb (by rw [h]; rfl)
        obtain ⟨a, b, c⟩ := hflush clock st st.buffer hne (le_of_lt hlt) hwf
        cases hfl : w.flush uuid insertErr clock st st.buffer with
        | mk err st2 =>
          rw [hfl] at a b c
          cases err with
          | some e =>
            refine ⟨a, fun hins => ?_⟩
            have := c hins
            cases this
          | none =>
            simp only
            obtain ⟨i1, i2⟩ := ih { st2 with buffer := [] } (by simp [MaxBatchSize]) a
            refine ⟨i1, fun hins => ?_⟩
            obtain ⟨j1, j2⟩ := i2 hins
            refine ⟨j1, ?_⟩
            rw [j2]
            simp only at b
            rw [b]
            simp

theorem forall₂_exists_right {α β : Type} (R : α → β → Prop) (l1 : List α) (l2 : List β)
    (h : List.Forall₂ R l1 l2) : ∀ a ∈ l1, ∃ b ∈ l2, R a b := by
  induction h with
  | nil => intro a ha; exact absurd ha (List.not_mem_nil a)
  | cons hab _ ih =>
    intro a ha
    rcases List.mem_cons.mp ha with ha | ha
    · rw [ha]
      exact ⟨_, List.mem_cons_self _ _, hab⟩
    · obtain ⟨b, hb, hr⟩ := ih a ha
      exact ⟨b, List.mem_cons_of_mem _ hb, hr⟩

theorem forall₂_flatMap_filter {α β γ : Type} (R : α → β → Prop) (f : β → Bool)
    (rows : γ → List α) (batch : γ → List β) (calls : List γ)
    (h : ∀ c ∈ calls, List.Forall₂ R (rows c) ((batch c).filter f)) :
    List.Forall₂ R (calls.flatMap rows) ((calls.map batch).flatten.filter f) := by
  induction calls with
  | nil => simp
  | cons c rest ih =>
    simp only [List.flatMap_cons, List.map_cons, List.flatten_cons, List.filter_append]
    exact List.rel_append (h c (List.mem_cons_self _ _))
      (ih (fun x hx => h x (List.mem_cons_of_mem _ hx)))

theorem Run_spec (w : Worker) (uuid : Nat → String) (insertErr : Nat → Option String)
    (inputs : List WorkerInput) (closedAt : Int) :
    (∀ c ∈ (w.Run uuid insertErr inputs closedAt).2, c.WellFormed w) ∧
    ((∀ n, insertErr n = none) →
      (w.Run uuid insertErr inputs closedAt).1 = none ∧
      ((w.Run uuid insertErr inputs closedAt).2.map FlushCall.batch).flatten =
        receivedEvents inputs) := by
  obtain ⟨h1, h2⟩ := loop_spec w uuid insertErr closedAt inputs
    { buffer := [], calls := [], uuids := 0 } (by simp [MaxBatchSize])
    (fun c hc => absurd hc (List.not_mem_nil c))
  refine ⟨h1, fun hins => ?_⟩
  obtain ⟨j1, j2⟩ := h2 hins
  exact ⟨j1, by simpa using j2⟩

/-- C23: for every sequence of events delivered to the worker, interleaved
with any number of flush-window ticks and ended by closing the queue, when no
call of `InsertBatch` fails: `Run` returns nil; the batches it flushed, one
after the other, are exactly the events received, in order, so every event is
in one batch and in one only; every batch has between 1 and `MaxBatchSize` = 50
events, and the call of `InsertBatch` for it passes, in each of the three
slices, one row for each event of the batch whose payload matches its kind, in
the order of the batch; hence over the whole run the rows of each category are
passed in the order in which their events were received. -/
theorem Run_inserts_each_event_once (w : Worker) (uuid : Nat → String)
    (insertErr : Nat → Option String) (inputs : List WorkerInput) (closedAt : Int)
    (hins : ∀ n, insertErr n = none) :
    (w.Run uuid insertErr inputs closedAt).1 = none ∧
    ((w.Run uuid insertErr inputs closedAt).2.map FlushCall.batch).flatten =
      receivedEvents inputs ∧
    MaxBatchSize = 50 ∧
    (∀ c ∈ (w.Run uuid insertErr inputs closedAt).2, c.WellFormed w) ∧
    List.Forall₂ (fun (row : TraceInsert) (ev : Event) =>
        ∃ p id t, ev.Trace = some p ∧ row = traceRow w id t p)
      ((w.Run uuid insertErr inputs closedAt).2.flatMap FlushCall.traces)
      ((receivedEvents inputs).filter Event.isTrace) ∧
    List.Forall₂ (fun (row : ErrorInsert) (ev : Event) =>
        ∃ p id t, ev.Error = some p ∧ row = errorRow id t p)
      ((w.Run uuid insertErr inputs closedAt).2.flatMap FlushCall.errs)
      ((receivedEvents inputs).filter Event.isError) ∧
    List.Forall₂ (fun (row : MetricInsert) (ev : Event) =>
        ∃ p id t, ev.Metric = some p ∧ row = metricRow id t p)
      ((w.Run uuid insertErr inputs closedAt).2.flatMap FlushCall.metrics)
      ((receivedEvents inputs).filter Event.isMetric) := by
  obtain ⟨hwf, hrun⟩ := Run_spec w uuid insertErr inputs closedAt
  obtain ⟨hnil, hflat⟩ := hrun hins
  refine ⟨hnil, hflat, rfl, hwf, ?_, ?_, ?_⟩
  · rw [← hflat]
    apply forall₂_flatMap_filter
    intro c hc
    exact (hwf c hc).2.2.1.imp (fun _ _ ⟨p, id, h1, h2⟩ => ⟨p, id, _, h1, h2⟩)
  · rw [← hflat]
    apply forall₂_flatMap_filter
    intro c hc
    exact (hwf c hc).2.2.2.1.imp (fun _ _ ⟨p, id, h1, h2⟩ => ⟨p, id, _, h1, h2⟩)
  · rw [← hflat]
    apply forall₂_flatMap_filter
    intro c hc
    exact (hwf c hc).2.2.2.2.imp (fun _ _ ⟨p, id, h1, h2⟩ => ⟨p, id, _, h1, h2⟩)

/-- Witness of C23: a trace event and an error event without payload are
received, the flush window ticks, an error event is received and the queue is
closed: `Run` returns nil after two calls of `InsertBatch`, which pass the
three events in order, one trace row and one error row. -/
theorem Run_inserts_each_event_once_witness :
    (testWorker.Run countingUuid noInsertErr
      [.receive 1000 windowEvent, .receive 1001 emptyErrorEvent, .tick 1500,
       .receive 1600 stampedErrorEvent] 2000).1 = none ∧
    ((testWorker.Run countingUuid noInsertErr
      [.receive 1000 windowEvent, .receive 1001 emptyErrorEvent, .tick 1500,
       .receive 1600 stampedErrorEvent] 2000).2.map FlushCall.batch) =
      [[windowEvent, emptyErrorEvent], [stampedErrorEvent]] ∧
    ((testWorker.Run countingUuid noInsertErr
      [.receive 1000 windowEvent, .receive 1001 emptyErrorEvent, .tick 1500,
       .receive 1600 stampedErrorEvent] 2000).2.map
        (fun c => (c.traces.length, c.errs.length, c.metrics.length))) =
      [(1, 0, 0), (0, 1, 0)] := by
  have h := Run_inserts_each_event_once testWorker countingUuid noInsertErr
    [.receive 1000 windowEvent, .receive 1001 emptyErrorEvent, .tick 1500,
     .receive 1600 stampedErrorEvent] 2000 (fun _ => rfl)
  exact ⟨h.1, by decide!, by decide!⟩

/-- C24 as stated fails: an event whose producer left `created_at` zero is
received at clock 1000 and flushed by the flush-window tick at clock 1500; the
row passed to `InsertBatch` has `created_at` 1500, the clock of the flush, not
the clock at which the event was received and buffered. -/
theorem flush_stamps_at_flush_time :
    windowEvent.CreatedAt = 0 ∧
    ((testWorker.Run countingUuid noInsertErr [.receive 1000 windowEvent, .tick 1500] 2000).2.map
      (fun c => (c.clock, c.batch, c.traces.map TraceInsert.CreatedAt))) =
      [(1500, [windowEvent], [1500])] := by
  refine ⟨rfl, ?_⟩
  decide!

/-- C24, amended: for every event the worker stores, the row's `created_at`
equals the producer's `created_at` when that is non-zero; when it is zero, the
row's `created_at` is the wall clock of the flush that stores the event (the
flush started by the 50th buffered event, by a flush-window tick or by the
closing of the queue), not the moment the event was received. -/
theorem flush_created_at (w : Worker) (uuid : Nat → String) (insertErr : Nat → Option String)
    (inputs : List WorkerInput) (closedAt : Int) (c : FlushCall)
    (hc : c ∈ (w.Run uuid insertErr inputs closedAt).2) :
    (∀ row ∈ c.traces, ∃ ev ∈ c.batch, ev.Kind = "trace" ∧
      (ev.CreatedAt ≠ 0 → row.CreatedAt = ev.CreatedAt) ∧
      (ev.CreatedAt = 0 → row.CreatedAt = c.clock)) ∧
    (∀ row ∈ c.errs, ∃ ev ∈ c.batch, ev.Kind = "error" ∧
      (ev.CreatedAt ≠ 0 → row.CreatedAt = ev.CreatedAt) ∧
      (ev.CreatedAt = 0 → row.CreatedAt = c.clock)) ∧
    (∀ row ∈ c.metrics, ∃ ev ∈ c.batch, ev.Kind = "metric" ∧
      (ev.CreatedAt ≠ 0 → row.CreatedAt = ev.CreatedAt) ∧
      (ev.CreatedAt = 0 → row.CreatedAt = c.clock)) := by
  obtain ⟨_, _, ht, he, hm⟩ := (Run_spec w uuid insertErr inputs closedAt).1 c hc
  have hstamp : ∀ ev : Event,
      (ev.CreatedAt ≠ 0 → flushCreatedAt c.clock ev = ev.CreatedAt) ∧
      (ev.CreatedAt = 0 → flushCreatedAt c.clock ev = c.clock) := by
    intro ev
    unfold flushCreatedAt
    exact ⟨fun h => by rw [if_neg h], fun h => by rw [if_pos h]⟩
  refine ⟨?_, ?_, ?_⟩
  · intro row hrow
    obtain ⟨ev, hev, p, id, _, hr⟩ := forall₂_exists_right _ _ _ ht row hrow
    obtain ⟨hmem, hkind⟩ := List.mem_filter.mp hev
    have hk : ev.Kind = "trace" := by
      simp only [Event.isTrace, Bool.and_eq_true, decide_eq_true_eq] at hkind
      exact hkind.1
    refine ⟨ev, hmem, hk, ?_, ?_⟩
    · intro h
      rw [hr]
      exact (hstamp ev).1 h
    · intro h
      rw [hr]
      exact (hstamp ev).2 h
  · intro row hrow
    obtain ⟨ev, hev, p, id, _, hr⟩ := forall₂_exists_right _ _ _ he row hrow
    obtain ⟨hmem, hkind⟩ := List.mem_filter.mp hev
    have hk : ev.Kind = "error" := by
      simp only [Event.isError, Bool.and_eq_true, decide_eq_true_eq] at hkind
      exact hkind.1
    refine ⟨ev, hmem, hk, ?_, ?_⟩
    · intro h
      rw [hr]
      exact (hstamp ev).1 h
    · intro h
      rw [hr]
      exact (hstamp ev).2 h
  · intro row hrow
    obtain ⟨ev, hev, p, id, _, hr⟩ := forall₂_exists_right _ _ _ hm row hrow
    obtain ⟨hmem, hkind⟩ := List.mem_filter.mp hev
    have hk : ev.Kind = "metric" := by
      simp only [Event.isMetric, Bool.and_eq_true, decide_eq_true_eq] at hkind
      exact hkind.1
    refine ⟨ev, hmem, hk, ?_, ?_⟩
    · intro h
      rw [hr]
      exact (hstamp ev).1 h
    · intro h
      rw [hr]
      exact (hstamp ev).2 h

/-- Witness of C24 (amended): the run of `TestWorkerFlushesOnWindow`, with the
event received at clock 1000 and the tick at clock 1500, makes one call of
`InsertBatch`, whose trace row is stamped with the clock of the flush. -/
theorem flush_created_at_witness :
    windowCall ∈
      (testWorker.Run countingUuid noInsertErr [.receive 1000 windowEvent, .tick 1500] 2000).2 ∧
    ∀ row ∈ windowCall.traces, ∃ ev ∈ windowCall.batch, ev.Kind = "trace" ∧
      (ev.CreatedAt ≠ 0 → row.CreatedAt = ev.CreatedAt) ∧
      (ev.CreatedAt = 0 → row.CreatedAt = windowCall.clock) :=
  ⟨by decide!,
    (flush_created_at testWorker countingUuid noInsertErr
      [.receive 1000 windowEvent, .tick 1500] 2000 windowCall (by decide!)).1⟩

/-! ### The log parser: classification and message -/

/-- `Contains s substr` holds exactly when `substr` is an infix of `s`. -/
theorem Contains_iff_infix (s substr : Bytes) : Contains s substr = true ↔ substr <:+: s := by
  induction s with
  | nil =>
    simp only [Contains, List.isEmpty_iff]
    exact ⟨fun h => h ▸ List.infix_refl [], fun h => List.eq_nil_of_infix_nil h⟩
  | cons c rest ih =>
    simp only [Contains, Bool.or_eq_true, ih, List.isPrefixOf_iff_prefix, List.infix_cons_iff]

/-- C25: for every line, `classifyLine` equals the first-match reference of
the specification applied to the lower-cased line: the type of the first group,
in the order channel_event, config_change, gateway_error, one of whose
substrings the lower-cased line contains, and a skip when there is none. Lines
with the same lower-casing are classified alike, and of the four lines of the
test exactly three are classified. -/
theorem classifyLine_refines_reference (toLower : Bytes → Bytes) (line : Bytes) :
    classifyLine toLower line =
      ((classifyReference (toLower line)).getD "", (classifyReference (toLower line)).isSome) ∧
    (∀ line2, toLower line2 = toLower line →
      classifyLine toLower line2 = classifyLine toLower line) ∧
    testLines.map (fun l => classifyLine asciiLower (ascii l)) =
      [("channel_event", true), ("", false), ("config_change", true), ("gateway_error", true)] ∧
    classifyLine asciiLower (ascii "Config RELOAD after Channel ERROR") =
      ("channel_event", true) := by
  refine ⟨?_, ?_, by decide!, by decide!⟩
  · unfold classifyLine classifyReference classifyTable
    simp only [List.find?, List.any_cons, List.any_nil, Bool.or_false]
    by_cases h1 : Contains (toLower line) (ascii "channel") = true
    · simp [h1]
    · by_cases h2 : (Contains (toLower line) (ascii "config") ||
          Contains (toLower line) (ascii "reload")) = true
      · simp [h1, h2]
      · by_cases h3 : (Contains (toLower line) (ascii "error") ||
            (Contains (toLower line) (ascii "exception") ||
              (Contains (toLower line) (ascii "timeout") ||
                Contains (toLower line) (ascii "failed")))) = true
        · have h3b : (Contains (toLower line) (ascii "error") ||
              Contains (toLower line) (ascii "exception") ||
              Contains (toLower line) (ascii "timeout") ||
              Contains (toLower line) (ascii "failed")) = true := by
            simpa [Bool.or_assoc] using h3
          simp [h1, h2, h3, h3b]
        · have h3b : ¬ (Contains (toLower line) (ascii "error") ||
              Contains (toLower line) (ascii "exception") ||
              Contains (toLower line) (ascii "timeout") ||
              Contains (toLower line) (ascii "failed")) = true := by
            simpa [Bool.or_assoc] using h3
          simp [h1, h2, h3, h3b]
  · intro line2 h
    unfold classifyLine
    simp only [h]

/-- Witness of C25: "CHANNEL Connected" has the lower-casing of the first test
line and is classified like it, as a channel event. -/
theorem classifyLine_refines_reference_witness :
    asciiLower (ascii "CHANNEL Connected") = asciiLower (ascii "channel connected") ∧
    classifyLine asciiLower (ascii "CHANNEL Connected") =
      classifyLine asciiLower (ascii "channel connected") ∧
    classifyLine asciiLower (ascii "channel connected") =
      ((classifyReference (asciiLower (ascii "channel connected"))).getD "",
        (classifyReference (asciiLower (ascii "channel connected"))).isSome) ∧
    classifyReference (asciiLower (ascii "channel connected")) = some "channel_event" :=
  ⟨by decide!,
    (classifyLine_refines_reference asciiLower (ascii "channel connected")).2.1
      (ascii "CHANNEL Connected") (by decide!),
    (classifyLine_refines_reference asciiLower (ascii "channel connected")).1, by decide!⟩

theorem limit_500 (s : Bytes) :
    limit s 500 = some (s.take 500) ∧ (s.length ≤ 500 → limit s 500 = some s) := by
  unfold limit
  by_cases h : ((s.length : Nat) : Int) ≤ 500
  · rw [if_pos h]
    have hle : s.length ≤ 500 := by omega
    exact ⟨by rw [List.take_of_length_le hle], fun _ => rfl⟩
  · rw [if_neg h, if_neg (by decide)]
    exact ⟨rfl, fun hle => absurd (by omega) h⟩

/-- C27 as stated fails: a line of 257 characters, which trimming leaves as it
is and which is classified as a gateway error, has 508 bytes; the message of
its event is not the line but its first 500 bytes, 250 letters é. -/
theorem message_cut_below_500_characters :
    accentLine.length = 257 ∧ (utf8Encode accentLine).length = 508 ∧
    asciiTrimSpace (utf8Encode accentLine) = utf8Encode accentLine ∧
    classifyLine asciiLower (utf8Encode accentLine) = ("gateway_error", true) ∧
    (parseLine asciiLower asciiTrimSpace (fun _ => rawLineMeta accentLine) 1700000000000
      (utf8Encode accentLine)).message =
      some (utf8Encode (String.mk (List.replicate 250 'é'))) ∧
    (utf8Encode (String.mk (List.replicate 250 'é'))).length = 500 := by
  refine ⟨?_, ?_, ?_, ?_, ?_, ?_⟩ <;> decide!

/-- C27, amended: for every classified log line, the message of the emitted
ErrorEvent is the trimmed line itself when the trimmed line has at most 500
bytes and otherwise its first 500 bytes, wherever that cut falls. -/
theorem message_is_first_500_bytes (toLower trimSpace : Bytes → Bytes)
    (marshalMeta : Bytes → String) (now : Int) (text : Bytes)
    (hne : trimSpace text ≠ [])
    (hclass : (classifyLine toLower (trimSpace text)).2 = true) :
    ∃ ev payload, parseLine toLower trimSpace marshalMeta now text = .emitted ev ∧
      ev.Kind = "error" ∧ ev.Error = some payload ∧
      payload.ErrorType = (classifyLine toLower (trimSpace text)).1 ∧
      payload.Message = (trimSpace text).take 500 ∧
      ((trimSpace text).length ≤ 500 → payload.Message = trimSpace text) ∧
      (500 < (trimSpace text).length → payload.Message.length = 500) := by
  have hl := (limit_500 (trimSpace text)).1
  have hc : ¬ (classifyLine toLower (trimSpace text)).2 = false := by
    rw [hclass]
    decide
  refine ⟨{ Kind := "error", CreatedAt := now, Trace := none,
            Error := some { ErrorType := (classifyLine toLower (trimSpace text)).1,
                            Message := (trimSpace text).take 500, StackTrace := "",
                            Severity := "info", Metadata := marshalMeta (trimSpace text) },
            Metric := none },
    { ErrorType := (classifyLine toLower (trimSpace text)).1,
      Message := (trimSpace text).take 500, StackTrace := "", Severity := "info",
      Metadata := marshalMeta (trimSpace text) }, ?_, rfl, rfl, rfl, rfl, ?_, ?_⟩
  · unfold parseLine
    simp only [if_neg hne, if_neg hc, hl]
  · intro h
    exact List.take_of_length_le h
  · intro h
    simp only [List.length_take]
    omega

/-- Witness of C27 (amended): the last line of the test, with spaces around
it, is classified and short, and its message is the trimmed line. -/
theorem message_is_first_500_bytes_witness :
    asciiTrimSpace (ascii "  request failed timeout ") = ascii "request failed timeout" ∧
    ∃ ev payload,
      parseLine asciiLower asciiTrimSpace (fun _ => rawLineMeta "request failed timeout")
        1700000000000 (ascii "  request failed timeout ") = .emitted ev ∧
      ev.Error = some payload ∧ payload.ErrorType = "gateway_error" ∧
      payload.Message = ascii "request failed timeout" := by
  obtain ⟨ev, payload, h1, _, h3, h4, _, h6, _⟩ :=
    message_is_first_500_bytes asciiLower asciiTrimSpace
      (fun _ => rawLineMeta "request failed timeout") 1700000000000
      (ascii "  request failed timeout ") (by decide!) (by decide!)
  have htrim : asciiTrimSpace (ascii "  request failed timeout ") =
      ascii "request failed timeout" := by decide!
  refine ⟨htrim, ev, payload, h1, h3, ?_, ?_⟩
  · rw [h4]
    decide!
  · rw [h6 (by decide!), htrim]

/-! ### The log parser: rotation -/

theorem checks_spec (st : ParserState) (f : LogFile) :
    ((st.lastInode ≠ 0 ∧ f.ino ≠ st.lastInode) ∨ f.size < st.offset →
      (Parser.checks st f).offset = 0) ∧
    (¬ ((st.lastInode ≠ 0 ∧ f.ino ≠ st.lastInode) ∨ f.size < st.offset) →
      (Parser.checks st f).offset = st.offset) ∧
    (Parser.checks st f).lastInode = f.ino := by
  unfold Parser.checks
  by_cases h0 : st.lastInode = 0
  · simp only [h0, if_true, ne_eq, not_true_eq_false, if_false, false_and, false_or]
    by_cases hs : f.size < st.offset
    · simp [hs]
    · simp [hs]
  · by_cases hi : f.ino = st.lastInode
    · simp only [h0, if_false, hi, ne_eq, not_true_eq_false, and_false, false_or]
      by_cases hs : f.size < st.offset
      · simp [hs]
      · simp [hs]
    · simp only [h0, if_false, ne_eq, hi, not_false_eq_true, if_true, and_self, true_or,
        not_true_eq_false, forall_true_left, false_implies, true_and]
      by_cases hs : f.size < 0
      · simp [hs]
      · simp [hs]

theorem readFromOffset_zero (lib : ParserLib) (now : Int) (f : LogFile) :
    (readFromOffset lib now false f 0).1 = (lib.scan f.content).1.filterMap (lineEvent lib now) ∧
    ((lib.scan f.content).2 = true → (readFromOffset lib now false f 0).2 = some f.size) := by
  unfold readFromOffset
  simp only [Bool.false_eq_true, if_false, lt_self_iff_false, Int.toNat_zero, List.drop_zero]
  have hsize : max 0 f.size = f.size := max_eq_right (by unfold LogFile.size; omega)
  by_cases h : (lib.scan f.content).2 = true
  · simp [h, hsize]
  · simp [h]

/-- C28: at every poll of the log parser at which the file is found, the read
offset is reset to zero when the file's inode differs from the last observed
inode, or when the file is smaller than the current offset, and is kept
otherwise; the inode found becomes the last observed one. The file is then read
from that offset. After a reset, when the file can be opened, the lines of the
new file are scanned from its start and an event is passed to `Enqueue` for
each classified one, in order, and when the scan reaches the end of the file
the offset becomes the file's size. A poll that does not find the file changes
nothing. -/
theorem poll_resets_offset (lib : ParserLib) (st : ParserState) (p : Poll) (f : LogFile) :
    (p.file = none → Parser.poll lib st p = (st, [])) ∧
    ((st.lastInode ≠ 0 ∧ f.ino ≠ st.lastInode) ∨ f.size < st.offset →
      (Parser.checks st f).offset = 0) ∧
    (¬ ((st.lastInode ≠ 0 ∧ f.ino ≠ st.lastInode) ∨ f.size < st.offset) →
      (Parser.checks st f).offset = st.offset) ∧
    (Parser.checks st f).lastInode = f.ino ∧
    (p.file = some f →
      (Parser.poll lib st p).2 =
        (readFromOffset lib p.clock p.openFault f (Parser.checks st f).offset).1 ∧
      (Parser.poll lib st p).1.lastInode = f.ino) ∧
    (p.file = some f → p.openFault = false → (Parser.checks st f).offset = 0 →
      (Parser.poll lib st p).2 = (lib.scan f.content).1.filterMap (lineEvent lib p.clock) ∧
      ((lib.scan f.content).2 = true → (Parser.poll lib st p).1.offset = f.size)) := by
  obtain ⟨c1, c2, c3⟩ := checks_spec st f
  refine ⟨?_, c1, c2, c3, ?_, ?_⟩
  · intro h
    unfold Parser.poll
    rw [h]
  · intro h
    unfold Parser.poll
    rw [h]
    simp only
    cases (readFromOffset lib p.clock p.openFault f (Parser.checks st f).offset).2 with
    | none => exact ⟨rfl, c3⟩
    | some o => exact ⟨rfl, c3⟩
  · intro h ho hz
    obtain ⟨r1, r2⟩ := readFromOffset_zero lib p.clock f
    unfold Parser.poll
    rw [h]
    simp only [ho, hz]
    cases hr : (readFromOffset lib p.clock false f 0).2 with
    | none =>
      refine ⟨r1, fun hs => ?_⟩
      rw [r2 hs] at hr
      cases hr
    | some o =>
      refine ⟨r1, fun hs => ?_⟩
      rw [r2 hs] at hr
      cases hr
      rfl

/-- Witness of C28: `TestParserHandlesRotation`. The first poll reads the log
(inode 11) and emits a channel event; after the rename a new file with inode 12
is at the path, larger than the offset reached, and the second poll resets the
offset, reads the new file from its start and emits a config change. -/
theorem poll_resets_offset_witness :
    Parser.poll asciiParserLib { offset := 0, lastInode := 0 }
        { clock := 1000, file := some { ino := 11, content := ascii "channel one\n" },
          openFault := false } =
      ({ offset := 12, lastInode := 11 },
        [{ Kind := "error", CreatedAt := 1000, Trace := none,
           Error := some { ErrorType := "channel_event", Message := ascii "channel one",
                           StackTrace := "", Severity := "info",
                           Metadata := rawLineMeta "channel one" },
           Metric := none }]) ∧
    (Parser.checks { offset := 12, lastInode := 11 }
      { ino := 12, content := ascii "config changed\n" }).offset = 0 ∧
    ((Parser.poll asciiParserLib { offset := 12, lastInode := 11 }
        { clock := 1200, file := some { ino := 12, content := ascii "config changed\n" },
          openFault := false }).2.map
      (fun ev => ev.Error.map (fun e => (e.ErrorType, e.Message)))) =
      [some ("config_change", ascii "config changed")] ∧
    ((Parser.Run asciiParserLib { offset := 0, lastInode := 0 } rotationPolls).2.map
      (fun ev => ev.Error.map ErrorPayload.ErrorType)) =
      [some "channel_event", some "config_change"] := by
  have h := poll_resets_offset asciiParserLib { offset := 12, lastInode := 11 }
    { clock := 1200, file := some { ino := 12, content := ascii "config changed\n" },
      openFault := false }
    { ino := 12, content := ascii "config changed\n" }
  exact ⟨by decide!, h.2.1 (Or.inl ⟨by decide, by decide⟩), by decide!, by decide!⟩

/-! ### The health response -/

theorem encode_keys (r : HealthResponse) :
    jsonKeys r.encode = healthKeys ++ (if r.Warnings = [] then [] else ["warnings"]) := by
  unfold HealthResponse.encode jsonKeys healthKeys
  by_cases h : r.Warnings = []
  · simp [h]
  · simp [h]

theorem response_warnings (h : HealthHandler) (snapshot : RuntimeSnapshot)
    (dbStats : HealthStats) (unsynced : Except String Int) (uptimeSeconds : Int)
    (generatedAt : String) :
    (h.response snapshot dbStats unsynced uptimeSeconds generatedAt).Warnings =
      match unsynced with
      | .ok _ => []
      | .error _ => ["unsynced_count_unavailable"] := by
  unfold HealthHandler.response
  cases unsynced with
  | ok n =>
    simp only
    split_ifs <;> rfl
  | error e =>
    simp only
    split_ifs <;> rfl

/-- C26 as stated fails: for the handler and the snapshot of the test on a
healthy store, the response has status 200 and the thirteen other keys, but no
key `warnings`, which is left out when there is no warning. -/
theorem health_without_warnings_key :
    (testHealthHandler.ServeHTTP staticSnapshot
      { DBStatus := "ok", DBSizeBytes := 4096, WALSize := 0 } (.ok (UnsyncedCount Store.empty))
      5 "2026-01-01T00:00:00Z").1 = 200 ∧
    jsonKeys (testHealthHandler.ServeHTTP staticSnapshot
      { DBStatus := "ok", DBSizeBytes := 4096, WALSize := 0 } (.ok (UnsyncedCount Store.empty))
      5 "2026-01-01T00:00:00Z").2 = healthKeys ∧
    "warnings" ∉ jsonKeys (testHealthHandler.ServeHTTP staticSnapshot
      { DBStatus := "ok", DBSizeBytes := 4096, WALSize := 0 } (.ok (UnsyncedCount Store.empty))
      5 "2026-01-01T00:00:00Z").2 := by
  refine ⟨rfl, ?_, ?_⟩ <;> decide!

/-- C26, amended: for every runtime snapshot and every store state, the
/health response has status 200 and its JSON object contains every one of the
keys status, uptime_seconds, version, db_status, db_size_bytes, wal_size_bytes,
queue_depth, events_received, events_dropped, last_push_time, last_push_status,
unsynced_count and generated_at; it contains the key warnings exactly when the
unsynced count could not be read, with the one entry
unsynced_count_unavailable, and has no other key. -/
theorem health_contract (h : HealthHandler) (snapshot : RuntimeSnapshot)
    (dbStats : HealthStats) (unsynced : Except String Int) (uptimeSeconds : Int)
    (generatedAt : String) :
    (h.ServeHTTP snapshot dbStats unsynced uptimeSeconds generatedAt).1 = 200 ∧
    (∀ k ∈ healthKeys,
      k ∈ jsonKeys (h.ServeHTTP snapshot dbStats unsynced uptimeSeconds generatedAt).2) ∧
    ("warnings" ∈ jsonKeys (h.ServeHTTP snapshot dbStats unsynced uptimeSeconds generatedAt).2 ↔
      ∃ e, unsynced = .error e) ∧
    ((∃ e, unsynced = .error e) →
      ("warnings", JSONValue.texts ["unsynced_count_unavailable"]) ∈
        (h.ServeHTTP snapshot dbStats unsynced uptimeSeconds generatedAt).2) ∧
    (∀ k ∈ jsonKeys (h.ServeHTTP snapshot dbStats unsynced uptimeSeconds generatedAt).2,
      k ∈ healthKeys ∨ k = "warnings") := by
  have hk := encode_keys (h.response snapshot dbStats unsynced uptimeSeconds generatedAt)
  have hw := response_warnings h snapshot dbStats unsynced uptimeSeconds generatedAt
  have hnot : "warnings" ∉ healthKeys := by decide
  simp only [HealthHandler.ServeHTTP]
  refine ⟨trivial, ?_, ?_, ?_, ?_⟩
  · intro k hkm
    rw [hk]
    exact List.mem_append.mpr (Or.inl hkm)
  · rw [hk]
    cases unsynced with
    | ok n =>
      simp only at hw
      rw [hw]
      simp only [if_true, List.append_nil]
      exact ⟨fun hm => absurd hm hnot, fun ⟨e, he⟩ => by cases he⟩
    | error e =>
      simp only at hw
      rw [hw]
      exact ⟨fun _ => ⟨e, rfl⟩, fun _ => by simp⟩
  · rintro ⟨e, he⟩
    subst he
    simp only at hw
    unfold HealthResponse.encode
    rw [hw]
    simp
  · intro k hkm
    rw [hk] at hkm
    rcases List.mem_append.mp hkm with hkm | hkm
    · exact Or.inl hkm
    · right
      split at hkm
      · exact absurd hkm (List.not_mem_nil k)
      · simpa using hkm

/-- Witness of C26 (amended): when the unsynced count cannot be read, the
response of the test handler is degraded and carries the warning. -/
theorem health_contract_witness :
    (testHealthHandler.ServeHTTP staticSnapshot
      { DBStatus := "ok", DBSizeBytes := 4096, WALSize := 0 } (.error "database is locked")
      5 "2026-01-01T00:00:00Z").1 = 200 ∧
    ("warnings", JSONValue.texts ["unsynced_count_unavailable"]) ∈
      (testHealthHandler.ServeHTTP staticSnapshot
        { DBStatus := "ok", DBSizeBytes := 4096, WALSize := 0 } (.error "database is locked")
        5 "2026-01-01T00:00:00Z").2 ∧
    ("status", JSONValue.text "degraded") ∈
      (testHealthHandler.ServeHTTP staticSnapshot
        { DBStatus := "ok", DBSizeBytes := 4096, WALSize := 0 } (.error "database is locked")
        5 "2026-01-01T00:00:00Z").2 := by
  have h := health_contract testHealthHandler staticSnapshot
    { DBStatus := "ok", DBSizeBytes := 4096, WALSize := 0 } (.error "database is locked")
    5 "2026-01-01T00:00:00Z"
  exact ⟨h.1, h.2.2.2.1 ⟨_, rfl⟩, by decide!⟩

/-! ### How far `buildBatches` is from greedy -/

theorem flush_greedy (enc : item → Except String Bytes) (cap : Int) (done : List PushEvent)
    (st st1 : builder) (hinv : BuilderInv enc cap done st) (hg : GreedyInv enc cap st)
    (hne : st.curItems.length ≠ 0) (h : flush enc st = .ok st1) :
    ∃ bc : batch, st1.out = st.out ++ [bc] ∧ bc.events = st.curEvents ∧
      ((bc.body.length : Nat) : Int) ≤ st.curSize ∧
      st.curSize ≤ ((bc.body.length : Nat) : Int) + 1 ∧
      List.Chain' (fun b1 b2 => ∀ ev ∈ b2.events.head?, NearFull enc cap b1 ev) st1.out := by
  unfold flush at h
  rw [if_neg hne] at h
  obtain ⟨parts, hparts, hlo, hhi, -⟩ := hinv.size
  simp only [marshalEnvelope, hparts] at h
  cases h
  refine ⟨{ events := st.curEvents, body := envelopeOpen ++ joinComma parts ++ envelopeClose },
    rfl, rfl, ?_, ?_, ?_⟩
  · simp only
    rw [length_envelope]
    exact hlo
  · simp only
    rw [length_envelope]
    exact hhi
  · simp only
    refine List.Chain'.append hg.chain (List.chain'_singleton _) ?_
    intro x hx y hy ev hev
    simp only [List.head?_cons, Option.mem_def, Option.some.injEq] at hy
    subst hy
    exact hg.last x hx ev hev

theorem flush_single_greedy (enc : item → Except String Bytes) (cap : Int) (s2 s3 : builder)
    (ev : PushEvent) (bs : Bytes) (hbs : enc (toItem ev) = .ok bs)
    (hg : GreedyInv enc cap s2) (hi : s2.curItems = [toItem ev])
    (hsz : s2.curSize ≤ baseEnvelope + ((bs.length : Nat) : Int) + 1)
    (h : (if s2.curItems.length = 1 ∧ s2.curSize > cap then flush enc s2 else .ok s2) = .ok s3) :
    GreedyInv enc cap s3 := by
  split at h
  · rename_i hc
    unfold flush at h
    rw [hi] at h
    simp only [List.length_singleton, one_ne_zero, if_false, marshalEnvelope, marshalAll,
      hbs, joinComma] at h
    cases h
    have hlen : (((envelopeOpen ++ bs ++ envelopeClose).length : Nat) : Int) =
        baseEnvelope + ((bs.length : Nat) : Int) := by
      have := length_envelope [bs]
      simpa [joinComma] using this
    constructor
    · simp only
      refine List.Chain'.append hg.chain (List.chain'_singleton _) ?_
      intro x hx y hy e hev
      simp only [List.head?_cons, Option.mem_def, Option.some.injEq] at hy
      subst hy
      exact hg.last x hx e hev
    · intro b _ e hev
      simp at hev
    · intro _ b hb
      simp only [List.getLast?_concat, Option.mem_def, Option.some.injEq] at hb
      subst hb
      simp only
      rw [hlen]
      have := hc.2
      omega
  · cases h
    exact hg

theorem batchStep_greedy (enc : item → Except String Bytes) (cap : Int) (done : List PushEvent)
    (st st1 : builder) (ev : PushEvent) (hinv : BuilderInv enc cap done st)
    (hg : GreedyInv enc cap st) (h : batchStep enc cap st ev = .ok st1) :
    GreedyInv enc cap st1 := by
  unfold batchStep at h
  cases hbs : enc (toItem ev) with
  | error e => simp [hbs] at h
  | ok bs =>
    simp only [hbs] at h
    have hL : itemLen enc ev = ((bs.length : Nat) : Int) := by simp [itemLen, hbs]
    by_cases hpos : st.curItems.length > 0
    · have hne : st.curItems.length ≠ 0 := by omega
      have hev : st.curEvents ≠ [] := by
        intro hc
        have := hinv.items
        rw [hc] at this
        rw [this] at hpos
        simp at hpos
      simp only [hpos, if_true, true_and] at h
      by_cases hov : st.curSize + ((bs.length : Int) + 1) > cap
      · rw [if_pos hov] at h
        cases hf : flush enc st with
        | error e => simp [hf] at h
        | ok s1 =>
          simp only [hf] at h
          obtain ⟨hi1, hce, -⟩ := flush_inv enc cap done st s1 hinv hf
          have hci : s1.curItems = [] := by rw [hi1.items, hce]; rfl
          obtain ⟨bc, hout, -, hb1, hb2, hchain⟩ := flush_greedy enc cap done st s1 hinv hg hne hf
          have hsz1 : s1.curSize = baseEnvelope := hi1.emptySize hci
          refine flush_single_greedy enc cap (s1.push ev ((bs.length : Int) + 1)) st1 ev bs hbs
            ?_ ?_ ?_ h
          · constructor
            · exact hchain
            · intro b hb e he
              simp only [builder.push, hout, List.getLast?_concat, Option.mem_def,
                Option.some.injEq] at hb
              subst hb
              simp only [builder.push, hce, List.nil_append, List.head?_cons, Option.mem_def,
                Option.some.injEq] at he
              subst he
              unfold NearFull
              rw [hL]
              omega
            · intro hc
              simp [builder.push] at hc
          · simp [builder.push, hci]
          · simp only [builder.push, hsz1]
            omega
      · rw [if_neg hov] at h
        simp only at h
        have hlen2 : ¬ ((st.push ev ((bs.length : Int) + 1)).curItems.length = 1 ∧
            (st.push ev ((bs.length : Int) + 1)).curSize > cap) := by
          intro hc
          have := hc.1
          simp only [builder.push, List.length_append, List.length_singleton] at this
          omega
        rw [if_neg hlen2] at h
        cases h
        constructor
        · exact hg.chain
        · intro b hb e he
          apply hg.last b hb
          simp only [builder.push] at he
          rw [List.head?_append_of_ne_nil _ hev] at he
          exact he
        · intro hc
          simp [builder.push] at hc
    · have he : st.curItems = [] := by
        cases hl : st.curItems with
        | nil => rfl
        | cons a l => rw [hl] at hpos; simp at hpos
      have hce : st.curEvents = [] := by
        have := hinv.items
        rw [he] at this
        cases hc : st.curEvents with
        | nil => rfl
        | cons a l => rw [hc] at this; simp at this
      simp only [hpos, if_false, false_and] at h
      refine flush_single_greedy enc cap (st.push ev (bs.length : Int)) st1 ev bs hbs
        ?_ ?_ ?_ h
      · constructor
        · exact hg.chain
        · intro b hb e hev
          simp only [builder.push, hce, List.nil_append, List.head?_cons, Option.mem_def,
            Option.some.injEq] at hev
          subst hev
          have := hg.closed hce b hb
          unfold NearFull
          rw [hL]
          omega
        · intro hc
          simp [builder.push] at hc
      · simp [builder.push, he]
      · simp only [builder.push, hinv.emptySize he]
        omega

theorem batchLoop_greedy (enc : item → Except String Bytes) (cap : Int) (rest : List PushEvent) :
    ∀ (done : List PushEvent) (st st1 : builder), BuilderInv enc cap done st →
      GreedyInv enc cap st → batchLoop enc cap st rest = .ok st1 → GreedyInv enc cap st1 := by
  induction rest with
  | nil =>
    intro done st st1 _ hg h
    simp only [batchLoop] at h
    cases h
    exact hg
  | cons ev rest ih =>
    intro done st st1 hinv hg h
    simp only [batchLoop] at h
    cases hs : batchStep enc cap st ev with
    | error e => simp [hs] at h
    | ok s1 =>
      simp only [hs] at h
      exact ih (done ++ [ev]) s1 st1 (batchStep_inv enc cap done st s1 ev hinv hs)
        (batchStep_greedy enc cap done st s1 ev hinv hg hs) h

/-- Of two consecutive batches of `buildBatches`, the earlier one with the first
item of the later one appended after a comma would have at least
`maxPayloadBytes` bytes: a batch is closed at most one byte early. -/
theorem buildBatches_near_greedy (enc : item → Except String Bytes) (cap : Int)
    (events : List PushEvent) (out : List batch) (h : buildBatches enc cap events = .ok out) :
    List.Chain' (fun b1 b2 => ∀ ev ∈ b2.events.head?, NearFull enc cap b1 ev) out := by
  unfold buildBatches at h
  cases hl : batchLoop enc cap builder.init events with
  | error e => simp [hl] at h
  | ok st =>
    simp only [hl] at h
    cases hf : flush enc st with
    | error e => simp [hf] at h
    | ok s1 =>
      simp only [hf] at h
      cases h
      have hi := batchLoop_inv enc cap events [] _ st (builderInv_init enc cap) hl
      have hg0 : GreedyInv enc cap builder.init :=
        ⟨List.chain'_nil, fun b hb => by simp [builder.init] at hb,
          fun _ b hb => by simp [builder.init] at hb⟩
      have hg := batchLoop_greedy enc cap events [] _ st (builderInv_init enc cap) hg0 hl
      by_cases hne : st.curItems.length = 0
      · unfold flush at hf
        rw [if_pos hne] at hf
        cases hf
        exact hg.chain
      · obtain ⟨_, _, _, _, _, hchain⟩ := flush_greedy enc cap _ st s1 hi hg hne hf
        exact hchain

end OpenclawTrace
